import Mathlib

/-!
# warp10-sensision-exporter: the line decoder of `collector/collector.go`

A shallow embedding of `parseWarp10` and of the library functions it calls
(`regexp.FindStringSubmatch` for the one pattern of the source,
`strings.Split`, `strings.ReplaceAll`, `url.QueryUnescape`,
`prometheus.MustNewConstMetric`), followed by the properties proved about it.

Go strings are byte sequences, so a string is a list of byte values.  The two
package-level tables `metrics` and `labels` are written by a generated file and
`strconv.ParseFloat` is a library function: the three are the fields of `Env`.
-/

namespace Collector

/-! ## Strings -/

/-- A Go string: its bytes, in order. -/
abbrev GoString := List Nat

/-- The bytes of an ASCII literal. -/
def str (s : String) : GoString := s.toList.map Char.toNat

/-- The model of `strings.Split(s, sep)` for a one-byte separator: the pieces of
`s` between the occurrences of `sep`; there is always at least one piece. -/
def Split : GoString → Nat → List GoString
  | [], _ => [[]]
  | c :: cs, sep =>
    if c = sep then [] :: Split cs sep
    else
      match Split cs sep with
      | [] => [[c]]
      | piece :: pieces => (c :: piece) :: pieces

/-- The model of `strings.ReplaceAll(s, old, new)` for one-byte `old` and `new`. -/
def ReplaceAll (s : GoString) (old new : Nat) : GoString :=
  s.map fun c => if c = old then new else c

/-- The key under which both tables are read:
`strings.ReplaceAll(matches[2], ".", "_")`. -/
def canonicalKey (className : GoString) : GoString := ReplaceAll className 46 95

/-! ## `url.QueryUnescape` -/

/-- The `ishex` of `net/url`. -/
def ishex (c : Nat) : Bool :=
  (48 ≤ c && c ≤ 57) || (97 ≤ c && c ≤ 102) || (65 ≤ c && c ≤ 70)

/-- The `unhex` of `net/url`. -/
def unhex (c : Nat) : Nat :=
  if 48 ≤ c && c ≤ 57 then c - 48
  else if 97 ≤ c && c ≤ 102 then c - 97 + 10
  else if 65 ≤ c && c ≤ 70 then c - 65 + 10
  else 0

/-- The model of `url.QueryUnescape`: `%XX` becomes the byte `XX`, `+` becomes a
space, every other byte is copied; `none` is the `EscapeError` result (a `%`
that is not followed by two hex digits), whose string is empty. -/
def QueryUnescape : GoString → Option GoString
  | [] => some []
  | c :: rest =>
    if c = 37 then
      match rest with
      | hi :: lo :: rest2 =>
        if ishex hi && ishex lo then
          (QueryUnescape rest2).map fun t => (unhex hi * 16 + unhex lo) :: t
        else none
      | _ => none
    else if c = 43 then (QueryUnescape rest).map fun t => 32 :: t
    else (QueryUnescape rest).map fun t => c :: t

/-! ## The regular expression -/

/-- One atom of a pattern in which repetition is only applied to byte classes. -/
inductive Atom where
  /-- A literal byte. -/
  | byte (c : Nat)
  /-- One byte of a class. -/
  | one (p : Nat → Bool)
  /-- The greedy repetition `[..]*`. -/
  | star (p : Nat → Bool)
  /-- The greedy repetition `[..]+`. -/
  | plus (p : Nat → Bool)

/-- The greedy loop of a backtracking matcher: it consumes bytes of the class as
long as it can and gives back one byte at a time until the continuation `k`
(called with the bytes consumed and the rest of the input) succeeds. -/
def greedy {R : Type} (p : Nat → Bool) (k : GoString → GoString → Option R) :
    GoString → GoString → Option R
  | acc, [] => k acc []
  | acc, c :: cs =>
    if p c then (greedy p k (acc ++ [c]) cs).orElse fun _ => k acc (c :: cs)
    else k acc (c :: cs)

/-- Leftmost-first matching of a sequence of atoms against the whole input: the
result is the piece of the input each atom consumed, for the first way of
matching that a backtracking engine finds. -/
def run : List Atom → GoString → Option (List GoString)
  | [], s => if s = [] then some [] else none
  | Atom.byte c :: atoms, s =>
    match s with
    | x :: xs => if x = c then (run atoms xs).map fun segs => [x] :: segs else none
    | [] => none
  | Atom.one p :: atoms, s =>
    match s with
    | x :: xs => if p x then (run atoms xs).map fun segs => [x] :: segs else none
    | [] => none
  | Atom.star p :: atoms, s =>
    greedy p (fun seg rest => (run atoms rest).map fun segs => seg :: segs) [] s
  | Atom.plus p :: atoms, s =>
    match s with
    | x :: xs =>
      if p x then
        greedy p (fun seg rest => (run atoms rest).map fun segs => seg :: segs) [x] xs
      else none
    | [] => none

/-- The class `[0-9]`. -/
def isDigit (c : Nat) : Bool := 48 ≤ c && c ≤ 57
/-- The class `[ \t]`. -/
def isBlank (c : Nat) : Bool := c == 32 || c == 9
/-- The class `[^/]`. -/
def notSlash (c : Nat) : Bool := c != 47
/-- The class `[^{]`. -/
def notLBrace (c : Nat) : Bool := c != 123
/-- The class `[^}]`. -/
def notRBrace (c : Nat) : Bool := c != 125
/-- The class of `.`: every byte but the line feed. -/
def notNewline (c : Nat) : Bool := c != 10

/-- The atoms of `^([0-9]+)/[^/]*/[^/]*[ \t]+([^{]+){([^}]*)}[ \t](.*)$`, the
anchors left out: `run` matches the whole input.  The capture groups 1 to 4 are
the atoms 0, 6, 8 and 11.

The source matches runes and this model matches bytes.  The two agree on every
input: the classes are `[0-9]`, `[ \t]` or the complement of one ASCII byte, and
no ASCII byte occurs inside the encoding of another rune. -/
def matcherWarp10 : List Atom :=
  [Atom.plus isDigit, Atom.byte 47, Atom.star notSlash, Atom.byte 47, Atom.star notSlash,
   Atom.plus isBlank, Atom.plus notLBrace, Atom.byte 123, Atom.star notRBrace,
   Atom.byte 125, Atom.one isBlank, Atom.star notNewline]

/-- The model of `matcherWarp10.FindStringSubmatch(lineMetric)`: the whole match
and the four groups, or the empty (nil) slice when the line does not match. -/
def FindStringSubmatch (lineMetric : GoString) : List GoString :=
  match run matcherWarp10 lineMetric with
  | some [g1, _, _, _, _, _, g2, _, g3, _, _, g4] => [lineMetric, g1, g2, g3, g4]
  | _ => []

/-! ## The Prometheus side -/

/-- The fields of a `prometheus.Desc` that sample construction reads: the name
and help text, the declared (variable) label names, and whether `NewDesc`
recorded an error in the descriptor. -/
structure Desc where
  fqName : GoString
  help : GoString
  variableLabels : List GoString
  err : Bool
  deriving DecidableEq, Repr

/-- The `prometheus.ValueType` constants. -/
inductive ValueType where
  | CounterValue
  | GaugeValue
  | UntypedValue
  deriving DecidableEq, Repr

/-- A constant metric as built by `prometheus.NewConstMetric`; `F` is the type
of float64 values. -/
structure Metric (F : Type) where
  desc : Desc
  valType : ValueType
  val : F
  labelValues : List GoString
  deriving DecidableEq, Repr

/-- The errors of `prometheus.NewConstMetric`, which `MustNewConstMetric` turns
into a panic. -/
inductive MetricError where
  /-- The descriptor carries an error. -/
  | invalidDesc
  /-- The number of label values is not the number of declared labels. -/
  | inconsistentCardinality
  /-- A label value is not valid UTF-8. -/
  | invalidLabelValue
  deriving DecidableEq, Repr

/-- The scanning loop of `utf8.ValidString`: `pending` continuation bytes are
still due, the next of which has to lie in `lo..hi`. -/
def validUTF8From : Nat → Nat → Nat → GoString → Bool
  | 0, _, _, [] => true
  | _ + 1, _, _, [] => false
  | 0, _, _, b :: bs =>
    if b < 128 then validUTF8From 0 128 191 bs
    else if 194 ≤ b && b ≤ 223 then validUTF8From 1 128 191 bs
    else if b = 224 then validUTF8From 2 160 191 bs
    else if b = 237 then validUTF8From 2 128 159 bs
    else if 225 ≤ b && b ≤ 239 then validUTF8From 2 128 191 bs
    else if b = 240 then validUTF8From 3 144 191 bs
    else if 241 ≤ b && b ≤ 243 then validUTF8From 3 128 191 bs
    else if b = 244 then validUTF8From 3 128 143 bs
    else false
  | n + 1, lo, hi, b :: bs =>
    if lo ≤ b && b ≤ hi then validUTF8From n 128 191 bs else false

/-- The model of `utf8.ValidString`. -/
def validUTF8 (s : GoString) : Bool := validUTF8From 0 128 191 s

/-- The model of `prometheus.NewConstMetric`: it fails on a descriptor with an
error, on a wrong number of label values and on a label value that is not valid
UTF-8 (`validateLabelValues`). -/
def NewConstMetric {F : Type} (desc : Desc) (valueType : ValueType) (value : F)
    (labelValues : List GoString) : Except MetricError (Metric F) :=
  if desc.err then Except.error MetricError.invalidDesc
  else if labelValues.length ≠ desc.variableLabels.length then
    Except.error MetricError.inconsistentCardinality
  else if labelValues.all validUTF8 then
    Except.ok { desc := desc, valType := valueType, val := value, labelValues := labelValues }
  else Except.error MetricError.invalidLabelValue

/-- The model of `prometheus.MustNewConstMetric`: `Except.error` is the panic. -/
def MustNewConstMetric {F : Type} (desc : Desc) (valueType : ValueType) (value : F)
    (labelValues : List GoString) : Except MetricError (Metric F) :=
  NewConstMetric desc valueType value labelValues

/-! ## `collector.go` -/

/-- What `parseWarp10` reads from outside its body: the package-level tables
`metrics` and `labels` (Go maps, as association lists read by `List.lookup`) and
`strconv.ParseFloat(_, 64)`, `none` being a result with a non-nil error. -/
structure Env (F : Type) where
  metrics : List (GoString × Desc)
  labels : List (GoString × List GoString)
  ParseFloat : GoString → Option F

/-- The function `labelIndexOf`: the first index at which `label` occurs in
`slice`; `none` is the `(0, errors.New("Not found"))` result. -/
def labelIndexOf : List GoString → GoString → Option Nat
  | [], _ => none
  | value :: rest, label =>
    if value = label then some 0 else (labelIndexOf rest label).map fun idx => idx + 1

/-- The body of the loop over `strings.Split(matches[3], ",")` in `parseWarp10`:
an item that splits on `=` into two parts stores its unescaped value (the empty
string when unescaping fails, the error being discarded) at the position of its
key; an item with an undeclared key is only logged. -/
def labelStep (labelsList : List GoString) (labelValues : List GoString)
    (label : GoString) : List GoString :=
  match Split label 61 with
  | [key, raw] =>
    let labelValue := (QueryUnescape raw).getD []
    match labelIndexOf labelsList key with
    | some pos => labelValues.set pos labelValue
    | none => labelValues
  | _ => labelValues

/-- The label values `parseWarp10` builds for the label-list `labelText` of a
metric whose entry in `labels` is `entry`. -/
def buildLabelValues (entry : Option (List GoString)) (labelText : GoString) :
    List GoString :=
  match entry with
  | some labelsList =>
    (Split labelText 44).foldl (labelStep labelsList) (List.replicate labelsList.length [])
  | none => []

/-- The function `parseWarp10`: the metrics it sends on `ch`, or the panic of
`MustNewConstMetric`.  The logger is only written to and is not modelled. -/
def parseWarp10 {F : Type} (env : Env F) (lineMetric : GoString) :
    Except MetricError (List (Metric F)) :=
  match FindStringSubmatch lineMetric with
  | [_, _, className, labelText, valueText] =>
    match env.metrics.lookup (canonicalKey className) with
    | some metric =>
      match env.ParseFloat valueText with
      | some value =>
        let labelValues :=
          buildLabelValues (env.labels.lookup (canonicalKey className)) labelText
        (MustNewConstMetric metric ValueType.GaugeValue value labelValues).map
          fun m => [m]
      | none => Except.ok []
    | none => Except.ok []
  | _ => Except.ok []

/-! ## The exporter -/

/-- The state of an `Exporter`: the URL, whether its mutex is held, and the
metric table.  The logger is only written to and is not modelled. -/
structure Exporter where
  URL : GoString
  locked : Bool
  metrics : List (GoString × Desc)
  deriving DecidableEq, Repr

/-- What the upstream gives to one `Collect`: `http.NewRequest` fails, or
`client.Do` fails, or there is a response, of which `lines` are the successive
values of `scanner.Text()`. -/
inductive Upstream where
  | requestError
  | doError
  | response (lines : List GoString)
  deriving DecidableEq, Repr

/-- What one `Collect` leaves behind: the metrics sent on `ch`, in order, and
the panic that ended it, if any. -/
structure Scrape (F : Type) where
  sent : List (Metric F)
  panic : Option MetricError
  deriving DecidableEq, Repr

/-- The loop `for scanner.Scan() { parseWarp10(scanner.Text(), ch, e.logger) }`:
`sent` holds what was sent so far; a panic of `parseWarp10` ends the loop. -/
def scanLoop {F : Type} (env : Env F) : List GoString → List (Metric F) → Scrape F
  | [], sent => { sent := sent, panic := none }
  | line :: rest, sent =>
    match parseWarp10 env line with
    | Except.ok ms => scanLoop env rest (sent ++ ms)
    | Except.error err => { sent := sent, panic := some err }

/-- The method `Exporter.Describe`: the descriptors sent on `ch`.  A Go map is
ranged over in an unspecified order, for which the order of the table stands. -/
def Describe (e : Exporter) : List Desc := e.metrics.map Prod.snd

/-- The method `Exporter.Collect`, with the upstream `net` answering the request
to a URL: the exporter after the call and what the call did; `none` is a call
that never returns because the mutex is held.  The deferred `Unlock` runs on
every way out, the panic included. -/
def Collect {F : Type} (env : Env F) (e : Exporter) (net : GoString → Upstream) :
    Option (Exporter × Scrape F) :=
  if e.locked then none
  else
    let held := { e with locked := true }
    let scrape : Scrape F :=
      match net held.URL with
      | Upstream.requestError => { sent := [], panic := none }
      | Upstream.doError => { sent := [], panic := none }
      | Upstream.response lines => scanLoop env lines []
    some ({ held with locked := false }, scrape)

/-- The function `NewSensisionExporter`; `urlParse` is `url.Parse`, of which
only the error is read (`none` when there is no error). -/
def NewSensisionExporter {F E : Type} (env : Env F) (urlParse : GoString → Option E)
    (sensisionURL : GoString) : Except E Exporter :=
  match urlParse sensisionURL with
  | some err => Except.error err
  | none => Except.ok { URL := sensisionURL, locked := false, metrics := env.metrics }

/-! ## The generator: `tools/generate_sensision_metrics.go` -/

/-- The map `labelsByMetric` of `main`: the comma-separated label names of a
constant of `SensisionConstants.java`, by the identifier of the constant. -/
def labelsByMetric : List (GoString × GoString) :=
  [
   (str "SENSISION_CLASS_WARPSCRIPT_RUN_COUNT", str "path"),
   (str "SENSISION_CLASS_WARPSCRIPT_RUN_FAILURES", str "path"),
   (str "SENSISION_CLASS_WARPSCRIPT_RUN_TIME_US", str "path"),
   (str "SENSISION_CLASS_WARPSCRIPT_RUN_ELAPSED", str "path"),
   (str "SENSISION_CLASS_WARPSCRIPT_RUN_FETCHED", str "path"),
   (str "SENSISION_CLASS_WARPSCRIPT_RUN_OPS", str "path"),
   (str "SENSISION_CLASS_CONTINUUM_FETCH_BYTES_VALUES_PEROWNER", str "consumer,app,owner,consumerapp"),
   (str "SENSISION_CLASS_CONTINUUM_FETCH_BYTES_KEYS_PEROWNER", str "consumer,app,owner,consumerapp"),
   (str "SENSISION_CLASS_CONTINUUM_FETCH_DATAPOINTS_PEROWNER", str "consumer,app,owner,consumerapp"),
   (str "SENSISION_CLASS_CONTINUUM_FETCH_BYTES_VALUES", str "consumer,app,consumerapp"),
   (str "SENSISION_CLASS_CONTINUUM_FETCH_BYTES_KEYS", str "consumer,app,consumerapp"),
   (str "SENSISION_CLASS_CONTINUUM_FETCH_DATAPOINTS", str "consumer,app,consumerapp"),
   (str "SENSISION_CLASS_CONTINUUM_STORE_HBASE_DELETE_DATAPOINTS_PEROWNERAPP", str "owner,app"),
   (str "SENSISION_CLASS_CONTINUUM_DIRECTORY_GTS_PERAPP", str "app"),
   (str "SENSISION_CLASS_CONTINUUM_INGRESS_UPDATE_GZIPPED", str "producer,app"),
   (str "SENSISION_CLASS_CONTINUUM_INGRESS_UPDATE_PARSEERRORS", str "producer,app"),
   (str "SENSISION_CLASS_CONTINUUM_INGRESS_UPDATE_DATAPOINTS_RAW", str "producer,app"),
   (str "SENSISION_CLASS_CONTINUUM_INGRESS_UPDATE_TIME_US", str "producer,app"),
   (str "SENSISION_CLASS_CONTINUUM_INGRESS_META_GZIPPED", str "producer,app"),
   (str "SENSISION_CLASS_CONTINUUM_INGRESS_META_INVALID", str "producer,app"),
   (str "SENSISION_CLASS_CONTINUUM_INGRESS_META_RECORDS", str "producer,app"),
   (str "SENSISION_CLASS_CONTINUUM_INGRESS_DELETE_REQUESTS", str "producer,app"),
   (str "SENSISION_CLASS_CONTINUUM_INGRESS_DELETE_GTS", str "producer,app"),
   (str "SENSISION_CLASS_CONTINUUM_THROTTLING_GTS", str "producer"),
   (str "SENSISION_CLASS_CONTINUUM_GTS_DISTINCT", str "producer"),
   (str "SENSISION_CLASS_CONTINUUM_THROTTLING_GTS_PER_APP", str "app"),
   (str "SENSISION_CLASS_CONTINUUM_GTS_DISTINCT_PER_APP", str "app"),
   (str "SENSISION_CLASS_CONTINUUM_THROTTLING_RATE_PER_APP", str "app"),
   (str "SENSISION_CLASS_CONTINUUM_THROTTLING_RATE", str "producer"),
   (str "SENSISION_CLASS_CONTINUUM_ESTIMATOR_RESETS", str "producer"),
   (str "SENSISION_CLASS_CONTINUUM_ESTIMATOR_RESETS_PER_APP", str "app"),
   (str "SENSISION_CLASS_QUASAR_FILTER_TOKEN_COUNT", str "type,error"),
   (str "SENSISION_CLASS_QUASAR_FILTER_TOKEN_TIME_US", str "type,error"),
   (str "CLASS_WARP_DATALOG_FORWARDER_REQUESTS_FORWARDED", str "forwarder,id,type"),
   (str "CLASS_WARP_DATALOG_FORWARDER_REQUESTS_FAILED", str "forwarder,id,type"),
   (str "CLASS_WARP_DATALOG_FORWARDER_REQUESTS_IGNORED", str "forwarder,id,type"),
   (str "CLASS_WARP_DATALOG_REQUESTS_RECEIVED", str "id,type"),
   (str "SENSISION_CLASS_CONTINUUM_STANDALONE_UPDATE_DATAPOINTS_RAW", str "producer,cdn"),
   (str "SENSISION_CLASS_CONTINUUM_STANDALONE_UPDATE_PARSEERRORS", str "producer"),
   (str "SENSISION_CLASS_CONTINUUM_STANDALONE_UPDATE_REQUESTS", str "producer,cdn"),
   (str "SENSISION_CLASS_CONTINUUM_STANDALONE_UPDATE_TIME_US", str "producer,cdn"),
   (str "CLASS_WARP_DATALOG_REQUESTS_LOGGED", str "id,type"),
   (str "SENSISION_CLASS_WARP_KAFKA_CONSUMER_OFFSET_FORWARD_LEAPS", str "topic,groupid,partition"),
   (str "SENSISION_CLASS_WARP_KAFKA_CONSUMER_OFFSET_BACKWARD_LEAPS", str "topic,groupid,partition"),
   (str "SENSISION_CLASS_PLASMA_BACKEND_SUBSCRIPTIONS_INVALID_HASHES", str "topic"),
   (str "SENSISION_CLASS_CONTINUUM_FETCH_COUNT", str "app"),
   (str "SENSISION_CLASS_CONTINUUM_STANDALONE_DELETE_DATAPOINTS_PEROWNERAPP", str "owner,app"),
   (str "SENSISION_CLASS_CONTINUUM_STANDALONE_DELETE_REQUESTS", str "producer,app"),
   (str "SENSISION_CLASS_CONTINUUM_STANDALONE_DELETE_GTS", str "producer,app"),
   (str "SENSISION_CLASS_CONTINUUM_STANDALONE_DELETE_DATAPOINTS", str "producer,app"),
   (str "SENSISION_CLASS_CONTINUUM_STANDALONE_DELETE_TIME_US", str "producer,app"),
   (str "SENSISION_CLASS_CONTINUUM_STANDALONE_STREAM_UPDATE_DATAPOINTS_RAW", str "producer"),
   (str "SENSISION_CLASS_CONTINUUM_STANDALONE_STREAM_UPDATE_MESSAGES", str "producer"),
   (str "SENSISION_CLASS_CONTINUUM_STANDALONE_STREAM_UPDATE_TIME_US", str "producer,app"),
   (str "SENSISION_CLASS_CONTINUUM_STANDALONE_STREAM_UPDATE_REQUESTS", str "producer,app"),
   (str "SENSISION_CLASS_CONTINUUM_STREAM_UPDATE_REQUESTS", str "producer,app"),
   (str "SENSISION_CLASS_CONTINUUM_STREAM_UPDATE_PARSEERRORS", str "producer,app"),
   (str "SENSISION_CLASS_CONTINUUM_STREAM_UPDATE_DATAPOINTS_RAW", str "producer,app"),
   (str "SENSISION_CLASS_CONTINUUM_STREAM_UPDATE_MESSAGES", str "producer,app"),
   (str "SENSISION_CLASS_CONTINUUM_STREAM_UPDATE_TIME_US", str "producer,app"),
   (str "SENSISION_CLASS_CONTINUUM_FETCH_REQUESTS", str "type"),
   (str "SENSISION_CLASS_CONTINUUM_SFETCH_WRAPPERS_PERAPP", str "app"),
   (str "SENSISION_CLASS_CONTINUUM_SFETCH_WRAPPERS_SIZE_PERAPP", str "app"),
   (str "SENSISION_CLASS_CONTINUUM_SFETCH_WRAPPERS_DATAPOINTS_PERAPP", str "app"),
   (str "SENSISION_CLASS_WARPSCRIPT_FUNCTION_COUNT", str "function"),
   (str "SENSISION_CLASS_WARPSCRIPT_FUNCTION_TIME_US", str "function"),
   (str "SENSISION_CLASS_WARPSCRIPT_FETCHCOUNT_EXCEEDED", str "consumer")]

/-- A constant for which the loop of `main` reaches the emission: `matches[1]`
and `matches[2]` of `metricMatcher` and the `description` at that point. -/
structure Constant where
  ident : GoString
  value : GoString
  description : GoString
  deriving DecidableEq, Repr

/-- The model of `strings.Join(elems, sep)`. -/
def JoinStrings : List GoString → GoString → GoString
  | [], _ => []
  | [elem], _ => elem
  | elem :: next :: elems, sep => elem ++ sep ++ JoinStrings (next :: elems) sep

/-- What `main` appends to `metricsText` for one constant, lines 169 to 184 of
the source: the results of `fmt.Sprintf`, in which `%s` stands for the text of
the argument as it is, without quoting or escaping. -/
def emit (table : List (GoString × GoString)) (c : Constant) : GoString :=
  let key := ReplaceAll c.value 46 95
  let head :=
    str "\tmetrics[\"" ++ key ++ str "\"] = prometheus.NewDesc(\n"
      ++ (str "\t\tprometheus.BuildFQName(namespace, \"\", \"" ++ key ++ str "\"),\n")
      ++ (str "\t\t\"" ++ c.description ++ str "\",\n")
  match table.lookup c.ident with
  | some labels =>
    let joined := JoinStrings (Split labels 44) (str "\",\"")
    head ++ (str "\t\t[]string\x7b\"" ++ joined ++ str "\"\x7d,\n")
      ++ str "\t\tprometheus.Labels\x7b\x7d,\n" ++ str "\t)\n"
      ++ (str "\tlabels[\"" ++ key ++ str "\"] = []string\x7b\"" ++ joined ++ str "\"\x7d\n\n")
  | none =>
    head ++ str "\t\tmake([]string, 0),\n"
      ++ str "\t\tprometheus.Labels\x7b\x7d,\n" ++ str "\t)\n" ++ str "\n"

/-- The text `metricsText` that `main` writes into the template for the
constants of the file, in their order. -/
def generate (constants : List Constant) : GoString :=
  constants.flatMap (emit labelsByMetric)

/-- A statement of the generated file: the assignment
`metrics[key] = prometheus.NewDesc(prometheus.BuildFQName(namespace, "", name),
help, labelNames, prometheus.Labels{})`, where `labelNames` is `[]string{...}`
or `make([]string, 0)`, and the assignment `labels[key] = []string{...}`. -/
inductive Stmt where
  | setMetric (key name help : GoString) (labelNames : List GoString)
  | setLabels (key : GoString) (labelNames : List GoString)
  deriving DecidableEq, Repr

/-- A byte that stands for itself in an interpreted string literal of Go: a
printable ASCII character other than the double quote and the backslash. -/
def plainByte (c : Nat) : Bool := 32 ≤ c && c ≤ 126 && c != 34 && c != 92

/-- A text of bytes that stand for themselves in a string literal. -/
def plainText (s : GoString) : Bool := s.all plainByte

/-- The text after a given beginning, when the text begins so. -/
def expect : GoString → GoString → Option GoString
  | [], s => some s
  | _ :: _, [] => none
  | c :: lit, d :: s => if c = d then expect lit s else none

/-- The value of an interpreted string literal of Go made of bytes that stand
for themselves, read from after its opening quote up to its closing quote, and
the text after it; a literal with an escape sequence, a control character or
a byte beyond ASCII is not read. -/
def readString : GoString → Option (GoString × GoString)
  | [] => none
  | c :: rest =>
    if c = 34 then some ([], rest)
    else if plainByte c = true then
      match readString rest with
      | some (value, rest2) => some (c :: value, rest2)
      | none => none
    else none

/-- The values of the string literals of a composite literal `[]string{...}`
written without blanks, read from after the first opening quote up to the
closing brace. -/
def readStrings : Nat → GoString → Option (List GoString × GoString)
  | 0, _ => none
  | fuel + 1, s =>
    match readString s with
    | some (value, c :: rest) =>
      if c = 125 then some ([value], rest)
      else if c = 44 then
        match expect [34] rest with
        | some rest2 =>
          match readStrings fuel rest2 with
          | some (values, rest3) => some (value :: values, rest3)
          | none => none
        | none => none
      else none
    | _ => none

/-- The value of the string literal that follows a given beginning, and the
text after the literal. -/
def readQuoted (lit s : GoString) : Option (GoString × GoString) :=
  match expect lit s with
  | some s1 => readString s1
  | none => none

/-- The label names of a call of `prometheus.NewDesc` in the layout of `main`:
`make([]string, 0)` or a composite literal. -/
def readLabelNames (s : GoString) : Option (List GoString × GoString) :=
  match expect (str "\t\tmake([]string, 0),\n") s with
  | some s1 => some ([], s1)
  | none =>
    match expect (str "\t\t[]string\x7b\"") s with
    | none => none
    | some s1 =>
      match readStrings s1.length s1 with
      | none => none
      | some (names, s2) =>
        match expect (str ",\n") s2 with
        | none => none
        | some s3 => some (names, s3)

/-- Modelled from the spec: the generated file is not among the sources; its
statements are read off the text of `main` in the layout in which `main` writes
it. This is the assignment to `metrics`; a text in any other layout is not
read. -/
def readNewDesc (s : GoString) : Option (Stmt × GoString) :=
  match readQuoted (str "\tmetrics[\"") s with
  | none => none
  | some (key, s1) =>
    match readQuoted
        (str "] = prometheus.NewDesc(\n\t\tprometheus.BuildFQName(namespace, \"\", \"") s1 with
    | none => none
    | some (name, s2) =>
      match readQuoted (str "),\n\t\t\"") s2 with
      | none => none
      | some (help, s3) =>
        match expect (str ",\n") s3 with
        | none => none
        | some s4 =>
          match readLabelNames s4 with
          | none => none
          | some (names, s5) =>
            match expect (str "\t\tprometheus.Labels\x7b\x7d,\n\t)\n") s5 with
            | none => none
            | some s6 => some (Stmt.setMetric key name help names, s6)

/-- Modelled from the spec: the assignment to `labels` in the layout of
`main`, with the empty line after it. -/
def readLabels (s : GoString) : Option (Stmt × GoString) :=
  match readQuoted (str "\tlabels[\"") s with
  | none => none
  | some (key, s1) =>
    match expect (str "] = []string\x7b\"") s1 with
    | none => none
    | some s2 =>
      match readStrings s2.length s2 with
      | none => none
      | some (names, s3) =>
        match expect (str "\n\n") s3 with
        | none => none
        | some s4 => some (Stmt.setLabels key names, s4)

/-- Modelled from the spec: what `main` writes for one constant, an assignment
to `metrics` followed by an assignment to `labels` or by an empty line. -/
def readBlock (s : GoString) : Option (List Stmt × GoString) :=
  match readNewDesc s with
  | none => none
  | some (setMetric, s1) =>
    match expect (str "\n") s1 with
    | some s2 => some ([setMetric], s2)
    | none =>
      match readLabels s1 with
      | none => none
      | some (setLabels, s2) => some ([setMetric, setLabels], s2)

/-- Modelled from the spec: the statements of a text of `main`, block after
block up to the end of the text. -/
def readStmts : Nat → GoString → Option (List Stmt)
  | _, [] => some []
  | 0, _ :: _ => none
  | fuel + 1, c :: s =>
    match readBlock (c :: s) with
    | some (stmts, rest) =>
      match readStmts fuel rest with
      | some more => some (stmts ++ more)
      | none => none
    | none => none

/-- Modelled from the spec: the statements of the generated file for a text
`metricsText`. -/
def readGenerated (text : GoString) : Option (List Stmt) := readStmts text.length text

/-- The two tables of the generated file. -/
structure Tables where
  metrics : List (GoString × Desc)
  labels : List (GoString × List GoString)
  deriving DecidableEq, Repr

/-- The assignment `m[key] = v` on a Go map. -/
def mapSet {β : Type} (key : GoString) (v : β) (m : List (GoString × β)) :
    List (GoString × β) :=
  (key, v) :: m.filter fun entry => entry.1 != key

/-- The model of `prometheus.BuildFQName(ns, "", name)`. -/
def BuildFQName (ns name : GoString) : GoString :=
  if name = [] then []
  else if ns = [] then name
  else ns ++ 95 :: name

/-- The model of `prometheus.NewDesc` without constant labels; `invalid` tells
for which names and label names `NewDesc` records an error in the descriptor. -/
def NewDesc (invalid : GoString → List GoString → Bool) (fqName help : GoString)
    (variableLabels : List GoString) : Desc :=
  { fqName := fqName, help := help, variableLabels := variableLabels,
    err := invalid fqName variableLabels }

/-- Modelled from the spec: the template `sensision.tpl`, into which `main`
writes the text, is not among the sources; the generated file is taken to run
its assignments, in order, on the tables `metrics` and `labels`, with `ns` the
constant `namespace` of the template. -/
def execStmt (ns : GoString) (invalid : GoString → List GoString → Bool)
    (t : Tables) : Stmt → Tables
  | Stmt.setMetric key name help labelNames =>
    { t with metrics :=
        mapSet key (NewDesc invalid (BuildFQName ns name) help labelNames) t.metrics }
  | Stmt.setLabels key labelNames => { t with labels := mapSet key labelNames t.labels }

/-- Modelled from the spec: the tables the generated file builds from empty
maps. -/
def initTables (ns : GoString) (invalid : GoString → List GoString → Bool)
    (stmts : List Stmt) : Tables :=
  stmts.foldl (execStmt ns invalid) { metrics := [], labels := [] }

/-- The environment of `parseWarp10` with the tables of a generated file. -/
def Tables.toEnv {F : Type} (t : Tables) (parseFloat : GoString → Option F) : Env F :=
  { metrics := t.metrics, labels := t.labels, ParseFloat := parseFloat }

/-! ## A concrete environment -/

/-- A finite decimal `num / 10 ^ scale`, which stands for the float64 nearest to
it. -/
structure Decimal where
  num : Nat
  scale : Nat
  deriving DecidableEq, Repr

/-- The number written by a run of decimal digits. -/
def digitsValue (ds : GoString) : Nat := ds.foldl (fun n d => n * 10 + (d - 48)) 0

/-- A reader of the unsigned numerals `d+` and `d+.d+`, on which it agrees with
`strconv.ParseFloat`; it reads nothing else. -/
def readDecimal (s : GoString) : Option Decimal :=
  match Split s 46 with
  | [int] =>
    if int ≠ [] ∧ int.all isDigit then some { num := digitsValue int, scale := 0 } else none
  | [int, frac] =>
    if int ≠ [] ∧ int.all isDigit ∧ frac ≠ [] ∧ frac.all isDigit then
      some { num := digitsValue (int ++ frac), scale := frac.length }
    else none
  | _ => none

/-- A descriptor as the generated table builds it: `prometheus.NewDesc` with a
valid name records no error. -/
def newDesc (name help : String) (labelNames : List String) : Desc :=
  { fqName := str name, help := str help, variableLabels := labelNames.map str, err := false }

/-- A small registry of the shape the generator writes: a `labels` entry holds
the label names of the descriptor with the same key, and a metric without
labels has no entry. -/
def sampleEnv : Env Decimal where
  metrics :=
    [(str "myapp_counter", newDesc "myapp_counter" "count" ["producer", "app"]),
     (str "abc", newDesc "abc" "three labels" ["a", "b", "c"]),
     (str "single", newDesc "single" "one label" ["a"]),
     (str "fetch_bytes", newDesc "fetch_bytes" "bytes" ["owner"]),
     (str "plain", newDesc "plain" "no label" [])]
  labels :=
    [(str "myapp_counter", [str "producer", str "app"]),
     (str "abc", [str "a", str "b", str "c"]),
     (str "single", [str "a"]),
     (str "fetch_bytes", [str "owner"])]
  ParseFloat := readDecimal

/-- A gauge sample with a decimal value and ASCII label values. -/
def gauge (desc : Desc) (num scale : Nat) (labelValues : List String) : Metric Decimal :=
  { desc := desc, valType := ValueType.GaugeValue, val := { num := num, scale := scale },
    labelValues := labelValues.map str }

/-- A stand-in for `url.Parse` on the examples: like `url.Parse`, it reports a
missing protocol scheme for a string that starts with a colon. -/
def sampleUrlParse (rawURL : GoString) : Option String :=
  match rawURL with
  | 58 :: _ => some "missing protocol scheme"
  | _ => none

/-- The exporter `NewSensisionExporter` builds for the default URL. -/
def sampleExporter : Exporter :=
  { URL := str "http://localhost:8082/metrics", locked := false, metrics := sampleEnv.metrics }

/-! ## Vocabulary of the statements -/

/-- The inputs an atom accepts. -/
def Accepts : Atom → GoString → Prop
  | Atom.byte c, seg => seg = [c]
  | Atom.one p, seg => ∃ x, seg = [x] ∧ p x = true
  | Atom.star p, seg => ∀ x ∈ seg, p x = true
  | Atom.plus p, seg => seg ≠ [] ∧ ∀ x ∈ seg, p x = true

/-- The language of a sequence of atoms: the concatenations of one accepted
piece per atom. -/
def Matches (atoms : List Atom) (s : GoString) : Prop :=
  ∃ segs, List.Forall₂ Accepts atoms segs ∧ segs.flatten = s

/-- The key and the raw value of a label-list item that splits on `=` into
exactly two parts. -/
def asPair (item : GoString) : Option (GoString × GoString) :=
  match Split item 61 with
  | [key, raw] => some (key, raw)
  | _ => none

/-- The value a pair stores: its unescaped raw value, empty when unescaping
fails. -/
def storedValue (raw : GoString) : GoString := (QueryUnescape raw).getD []

/-- The keys of the pairs of a label-list, in order. -/
def pairKeys (items : List GoString) : List GoString :=
  (items.filterMap asPair).map Prod.fst

/-- No two items of a label-list are pairs with the same key. -/
def DistinctKeys (items : List GoString) : Prop := (pairKeys items).Nodup

instance (items : List GoString) : Decidable (DistinctKeys items) :=
  inferInstanceAs (Decidable (pairKeys items).Nodup)

/-- The item is not a pair with the key `key`. -/
def NotKey (key : GoString) (item : GoString) : Prop :=
  (asPair item).map Prod.fst ≠ some key

instance (key item : GoString) : Decidable (NotKey key item) :=
  inferInstanceAs (Decidable ((asPair item).map Prod.fst ≠ some key))

/-- Percent-decoding in the words of the specification: every `%XX` escape is
replaced by the byte it denotes and every other byte is kept. -/
def percentDecode : GoString → GoString
  | [] => []
  | c :: rest =>
    let kept := c :: percentDecode rest
    if c = 37 then
      match rest with
      | hi :: lo :: rest2 =>
        if ishex hi && ishex lo then (unhex hi * 16 + unhex lo) :: percentDecode rest2
        else kept
      | _ => kept
    else kept

/-- Every `%` of the text is followed by two hex digits. -/
def escapesWellFormed : GoString → Bool
  | [] => true
  | c :: rest =>
    if c = 37 then
      match rest with
      | hi :: lo :: rest2 => ishex hi && ishex lo && escapesWellFormed rest2
      | _ => false
    else escapesWellFormed rest

/-- The model of `strings.Join(pieces, sep)` for a one-byte separator. -/
def Join : List GoString → Nat → GoString
  | [], _ => []
  | [piece], _ => piece
  | piece :: next :: pieces, sep => piece ++ sep :: Join (next :: pieces) sep

/-- An item stays when it is not a pair or its key is declared. -/
def keepsItem (labelsList : List GoString) (item : GoString) : Bool :=
  match asPair item with
  | some (key, _) => (labelIndexOf labelsList key).isSome
  | none => true

/-- The label-list without the pairs whose key is not declared. -/
def removeUndeclared (labelsList : List GoString) (labelText : GoString) : GoString :=
  Join ((Split labelText 44).filter (keepsItem labelsList)) 44

/-- The samples one line contributes: those `parseWarp10` sends for it. -/
def samplesOf {F : Type} (env : Env F) (line : GoString) : List (Metric F) :=
  match parseWarp10 env line with
  | Except.ok ms => ms
  | Except.error _ => []

/-- The line makes `parseWarp10` panic. -/
def Panics {F : Type} (env : Env F) (line : GoString) : Prop :=
  ∃ err, parseWarp10 env line = Except.error err

/-- The two tables agree: the entry of `labels` for a key lists the label
names of the descriptor of that key, a descriptor without an entry has no label
names, and `labels` has no entry for a key without a descriptor. -/
def Consistent (t : Tables) : Prop :=
  (∀ key desc, t.metrics.lookup key = some desc →
    desc.variableLabels = (t.labels.lookup key).getD []) ∧
  ∀ key, t.metrics.lookup key = none → t.labels.lookup key = none

/-- The label names `main` writes for a constant. -/
def labelNamesOf (table : List (GoString × GoString)) (c : Constant) : List GoString :=
  match table.lookup c.ident with
  | some labels => Split labels 44
  | none => []

/-- The statements of the generated file for one constant, when its value and
its description stand for themselves between the quotes. -/
def statementsOf (table : List (GoString × GoString)) (c : Constant) : List Stmt :=
  match table.lookup c.ident with
  | some labels =>
    [Stmt.setMetric (ReplaceAll c.value 46 95) (ReplaceAll c.value 46 95) c.description
       (Split labels 44),
     Stmt.setLabels (ReplaceAll c.value 46 95) (Split labels 44)]
  | none =>
    [Stmt.setMetric (ReplaceAll c.value 46 95) (ReplaceAll c.value 46 95) c.description []]

/-- Two constants whose values give the same key: the first has an entry in
`labelsByMetric`, the second has none. -/
def collidingConstants : List Constant :=
  [{ ident := str "SENSISION_CLASS_WARPSCRIPT_RUN_COUNT", value := str "warp.script.run.count",
     description := str "Number of WarpScript runs" },
   { ident := str "SENSISION_CLASS_WARPSCRIPT_RUNS", value := str "warp.script.run_count",
     description := str "Number of runs" }]

/-- The atoms of the pattern from the class name on. -/
def classOn : List Atom :=
  [Atom.plus notLBrace, Atom.byte 123, Atom.star notRBrace, Atom.byte 125, Atom.one isBlank,
   Atom.star notNewline]

/-- The atoms of the pattern from the blanks before the class name on. -/
def blanksOn : List Atom := Atom.plus isBlank :: classOn

/-- The text is a class name, a label-list in braces, one blank and a value. -/
def ClassOn (r : GoString) : Prop :=
  ∃ g2 g3 w g4, r = g2 ++ 123 :: (g3 ++ 125 :: w :: g4) ∧
    (g2 ≠ [] ∧ ∀ x ∈ g2, notLBrace x = true) ∧ (∀ x ∈ g3, notRBrace x = true) ∧
    isBlank w = true ∧ ∀ x ∈ g4, notNewline x = true

/-- The text is a run of blanks followed by a class name, a label-list in
braces, one blank and a value. -/
def BlanksOn (r : GoString) : Prop :=
  ∃ ws r2, r = ws ++ r2 ∧ (ws ≠ [] ∧ ∀ x ∈ ws, isBlank x = true) ∧ ClassOn r2

/-! ## The matcher decides the language of the pattern -/

theorem greedy_sound {R : Type} (p : Nat → Bool) (k : GoString → GoString → Option R) :
    ∀ (s acc : GoString) (r : R), greedy p k acc s = some r →
      ∃ seg rest, s = seg ++ rest ∧ (∀ x ∈ seg, p x = true) ∧ k (acc ++ seg) rest = some r := by
  intro s
  induction s with
  | nil =>
    intro acc r h
    exact ⟨[], [], rfl, by simp, by simpa [greedy] using h⟩
  | cons c cs ih =>
    intro acc r h
    by_cases hp : p c = true
    · cases hg : greedy p k (acc ++ [c]) cs with
      | some r1 =>
        have hr : r1 = r := by simpa [greedy, hp, hg, Option.orElse] using h
        obtain ⟨seg, rest, hs, hall, hk⟩ := ih (acc ++ [c]) r1 hg
        refine ⟨c :: seg, rest, by simp [hs], ?_, ?_⟩
        · intro x hx
          rcases List.mem_cons.mp hx with rfl | hx
          · exact hp
          · exact hall x hx
        · simpa [hr] using hk
      | none =>
        have hk : k acc (c :: cs) = some r := by
          simpa [greedy, hp, hg, Option.orElse] using h
        exact ⟨[], c :: cs, rfl, by simp, by simpa using hk⟩
    · have hk : k acc (c :: cs) = some r := by simpa [greedy, hp] using h
      exact ⟨[], c :: cs, rfl, by simp, by simpa using hk⟩

theorem greedy_isSome_of_continuation {R : Type} (p : Nat → Bool)
    (k : GoString → GoString → Option R) (s acc : GoString)
    (h : (k acc s).isSome = true) : (greedy p k acc s).isSome = true := by
  cases s with
  | nil => simpa [greedy] using h
  | cons c cs =>
    by_cases hp : p c = true
    · cases hg : greedy p k (acc ++ [c]) cs with
      | some r1 => simp [greedy, hp, hg, Option.orElse]
      | none => simpa [greedy, hp, hg, Option.orElse] using h
    · simpa [greedy, hp] using h

theorem greedy_complete {R : Type} (p : Nat → Bool) (k : GoString → GoString → Option R) :
    ∀ (seg acc rest : GoString), (∀ x ∈ seg, p x = true) →
      (k (acc ++ seg) rest).isSome = true → (greedy p k acc (seg ++ rest)).isSome = true := by
  intro seg
  induction seg with
  | nil =>
    intro acc rest _ h
    exact greedy_isSome_of_continuation p k rest acc (by simpa using h)
  | cons c cs ih =>
    intro acc rest hall h
    have hp : p c = true := hall c (List.mem_cons_self c cs)
    have hrec : (greedy p k (acc ++ [c]) (cs ++ rest)).isSome = true :=
      ih (acc ++ [c]) rest (fun x hx => hall x (List.mem_cons_of_mem c hx)) (by simpa using h)
    obtain ⟨r1, hr1⟩ := Option.isSome_iff_exists.mp hrec
    simp [greedy, hp, hr1, Option.orElse]

theorem run_sound : ∀ (atoms : List Atom) (s : GoString) (segs : List GoString),
    run atoms s = some segs → List.Forall₂ Accepts atoms segs ∧ segs.flatten = s := by
  intro atoms
  induction atoms with
  | nil =>
    intro s segs h
    by_cases hs : s = []
    · subst hs
      have : segs = [] := by simpa [run] using h.symm
      subst this
      exact ⟨List.Forall₂.nil, rfl⟩
    · simp [run, hs] at h
  | cons a atoms ih =>
    intro s segs h
    cases a with
    | byte c =>
      cases s with
      | nil => simp [run] at h
      | cons x xs =>
        by_cases hx : x = c
        · subst hx
          cases hr : run atoms xs with
          | none => simp [run, hr] at h
          | some tl =>
            have hsegs : segs = [x] :: tl := by simpa [run, hr] using h.symm
            obtain ⟨h1, h2⟩ := ih xs tl hr
            subst hsegs
            exact ⟨List.Forall₂.cons rfl h1, by simp [h2]⟩
        · simp [run, hx] at h
    | one p =>
      cases s with
      | nil => simp [run] at h
      | cons x xs =>
        by_cases hx : p x = true
        · cases hr : run atoms xs with
          | none => simp [run, hr, hx] at h
          | some tl =>
            have hsegs : segs = [x] :: tl := by simpa [run, hr, hx] using h.symm
            obtain ⟨h1, h2⟩ := ih xs tl hr
            subst hsegs
            exact ⟨List.Forall₂.cons ⟨x, rfl, hx⟩ h1, by simp [h2]⟩
        · simp [run, hx] at h
    | star p =>
      have hg : greedy p (fun seg rest => (run atoms rest).map fun segs => seg :: segs) [] s
          = some segs := by simpa [run] using h
      obtain ⟨seg, rest, hs, hall, hk⟩ := greedy_sound p _ s [] segs hg
      cases hr : run atoms rest with
      | none => simp [hr] at hk
      | some tl =>
        have hsegs : segs = seg :: tl := by simpa [hr] using hk.symm
        obtain ⟨h1, h2⟩ := ih rest tl hr
        subst hsegs
        exact ⟨List.Forall₂.cons hall h1, by simp [h2, hs]⟩
    | plus p =>
      cases s with
      | nil => simp [run] at h
      | cons x xs =>
        by_cases hx : p x = true
        · have hg : greedy p (fun seg rest => (run atoms rest).map fun segs => seg :: segs)
              [x] xs = some segs := by simpa [run, hx] using h
          obtain ⟨seg, rest, hs, hall, hk⟩ := greedy_sound p _ xs [x] segs hg
          cases hr : run atoms rest with
          | none => simp [hr] at hk
          | some tl =>
            have hsegs : segs = (x :: seg) :: tl := by simpa [hr] using hk.symm
            obtain ⟨h1, h2⟩ := ih rest tl hr
            subst hsegs
            refine ⟨List.Forall₂.cons ⟨by simp, ?_⟩ h1, by simp [h2, hs]⟩
            intro y hy
            rcases List.mem_cons.mp hy with rfl | hy
            · exact hx
            · exact hall y hy
        · simp [run, hx] at h

theorem run_complete : ∀ (atoms : List Atom) (segs : List GoString),
    List.Forall₂ Accepts atoms segs → (run atoms segs.flatten).isSome = true := by
  intro atoms
  induction atoms with
  | nil =>
    intro segs h
    cases h
    simp [run]
  | cons a atoms ih =>
    intro segs h
    cases h with
    | cons hacc htl =>
      rename_i seg tl
      have hrec := ih tl htl
      obtain ⟨r, hr⟩ := Option.isSome_iff_exists.mp hrec
      cases a with
      | byte c =>
        have hseg : seg = [c] := hacc
        subst hseg
        simp [run, hr]
      | one p =>
        obtain ⟨x, hseg, hx⟩ := hacc
        subst hseg
        simp [run, hr, hx]
      | star p =>
        have hall : ∀ x ∈ seg, p x = true := hacc
        have := greedy_complete p
          (fun seg rest => (run atoms rest).map fun segs => seg :: segs) seg [] tl.flatten hall
          (by simp [hr])
        simpa [run] using this
      | plus p =>
        obtain ⟨hne, hall⟩ := hacc
        cases seg with
        | nil => exact absurd rfl hne
        | cons x xs =>
          have hx : p x = true := hall x (List.mem_cons_self x xs)
          have := greedy_complete p
            (fun seg rest => (run atoms rest).map fun segs => seg :: segs) xs [x] tl.flatten
            (fun y hy => hall y (List.mem_cons_of_mem x hy)) (by simp [hr])
          simpa [run, hx] using this

/-- The pieces of a successful run of the pattern of the source. -/
theorem run_matcherWarp10_shape (line : GoString) (segs : List GoString)
    (h : run matcherWarp10 line = some segs) :
    ∃ g1 a b ws g2 g3 w g4,
      segs = [g1, [47], a, [47], b, ws, g2, [123], g3, [125], [w], g4] ∧
      line = g1 ++ 47 :: (a ++ 47 :: (b ++ (ws ++ (g2 ++ 123 :: (g3 ++ 125 :: w :: g4))))) ∧
      (g1 ≠ [] ∧ ∀ x ∈ g1, isDigit x = true) ∧ (∀ x ∈ a, notSlash x = true) ∧
      (∀ x ∈ b, notSlash x = true) ∧ (ws ≠ [] ∧ ∀ x ∈ ws, isBlank x = true) ∧
      (g2 ≠ [] ∧ ∀ x ∈ g2, notLBrace x = true) ∧ (∀ x ∈ g3, notRBrace x = true) ∧
      isBlank w = true ∧ ∀ x ∈ g4, notNewline x = true := by
  obtain ⟨hf, hj⟩ := run_sound _ _ _ h
  simp only [matcherWarp10, List.forall₂_cons_left_iff, List.forall₂_nil_left_iff,
    Accepts] at hf
  obtain ⟨g1, t1, h1, ⟨s1, t2, e1, ⟨a, t3, ha, ⟨s2, t4, e2, ⟨b, t5, hb, ⟨ws, t6, hws,
    ⟨g2, t7, h2, ⟨s3, t8, e3, ⟨g3, t9, h3, ⟨s4, t10, e4, ⟨s5, t11, ⟨w, e5, hw⟩,
    ⟨g4, t12, h4, e12, r12⟩, r11⟩, r10⟩, r9⟩, r8⟩, r7⟩, r6⟩, r5⟩, r4⟩, r3⟩, r2⟩, r1⟩ := hf
  subst e12 r12 r11 r10 r9 r8 r7 r6 r5 r4 r3 r2 r1 e1 e2 e3 e4 e5
  refine ⟨g1, a, b, ws, g2, g3, w, g4, rfl, ?_, h1, ha, hb, hws, h2, h3, hw, h4⟩
  rw [← hj]
  simp

/-- The result of `FindStringSubmatch` is nil exactly on the lines outside the
language of the pattern. -/
theorem FindStringSubmatch_eq_nil_iff (line : GoString) :
    FindStringSubmatch line = [] ↔ ¬ Matches matcherWarp10 line := by
  constructor
  · intro h hm
    obtain ⟨segs, hf, hj⟩ := hm
    have hsome := run_complete matcherWarp10 segs hf
    rw [hj] at hsome
    obtain ⟨r, hr⟩ := Option.isSome_iff_exists.mp hsome
    obtain ⟨g1, a, b, ws, g2, g3, w, g4, hshape, _⟩ := run_matcherWarp10_shape line r hr
    subst hshape
    simp [FindStringSubmatch, hr] at h
  · intro h
    cases hr : run matcherWarp10 line with
    | none => simp [FindStringSubmatch, hr]
    | some segs => exact absurd ⟨segs, run_sound _ _ _ hr⟩ h

/-- A non-nil result of `FindStringSubmatch` has five entries, the line itself
and the four groups, and the line is laid out as the pattern says. -/
theorem FindStringSubmatch_decompose (line : GoString) (m0 : GoString) (ms : List GoString)
    (h : FindStringSubmatch line = m0 :: ms) :
    ∃ g1 a b ws g2 g3 w g4,
      m0 = line ∧ ms = [g1, g2, g3, g4] ∧
      line = g1 ++ 47 :: (a ++ 47 :: (b ++ (ws ++ (g2 ++ 123 :: (g3 ++ 125 :: w :: g4))))) ∧
      (g1 ≠ [] ∧ ∀ x ∈ g1, isDigit x = true) ∧ (∀ x ∈ a, notSlash x = true) ∧
      (∀ x ∈ b, notSlash x = true) ∧ (ws ≠ [] ∧ ∀ x ∈ ws, isBlank x = true) ∧
      (g2 ≠ [] ∧ ∀ x ∈ g2, notLBrace x = true) ∧ (∀ x ∈ g3, notRBrace x = true) ∧
      isBlank w = true ∧ ∀ x ∈ g4, notNewline x = true := by
  cases hr : run matcherWarp10 line with
  | none => simp [FindStringSubmatch, hr] at h
  | some segs =>
    obtain ⟨g1, a, b, ws, g2, g3, w, g4, hshape, hrest⟩ := run_matcherWarp10_shape line segs hr
    subst hshape
    simp only [FindStringSubmatch, hr, List.cons.injEq] at h
    obtain ⟨h0, hms⟩ := h
    exact ⟨g1, a, b, ws, g2, g3, w, g4, h0.symm, hms.symm, hrest⟩

/-- The result of `FindStringSubmatch` is nil or has exactly five entries. -/
theorem FindStringSubmatch_length (line : GoString) :
    FindStringSubmatch line = [] ∨
      ∃ g1 g2 g3 g4, FindStringSubmatch line = [line, g1, g2, g3, g4] := by
  cases h : FindStringSubmatch line with
  | nil => exact Or.inl rfl
  | cons m0 ms =>
    obtain ⟨g1, a, b, ws, g2, g3, w, g4, h0, hms, _⟩ := FindStringSubmatch_decompose line m0 ms h
    subst h0 hms
    exact Or.inr ⟨g1, g2, g3, g4, rfl⟩

/-! ## `labelIndexOf` -/

theorem labelIndexOf_lt : ∀ (slice : List GoString) (label : GoString) (pos : Nat),
    labelIndexOf slice label = some pos → pos < slice.length := by
  intro slice
  induction slice with
  | nil => intro label pos h; simp [labelIndexOf] at h
  | cons value rest ih =>
    intro label pos h
    by_cases hv : value = label
    · have : pos = 0 := by simpa [labelIndexOf, hv] using h.symm
      simp [this]
    · cases hr : labelIndexOf rest label with
      | none => simp [labelIndexOf, hv, hr] at h
      | some idx =>
        have : pos = idx + 1 := by simpa [labelIndexOf, hv, hr] using h.symm
        have := ih label idx hr
        simp only [List.length_cons]
        omega

theorem labelIndexOf_getElem? : ∀ (slice : List GoString) (label : GoString) (pos : Nat),
    labelIndexOf slice label = some pos → slice[pos]? = some label := by
  intro slice
  induction slice with
  | nil => intro label pos h; simp [labelIndexOf] at h
  | cons value rest ih =>
    intro label pos h
    by_cases hv : value = label
    · have : pos = 0 := by simpa [labelIndexOf, hv] using h.symm
      simp [this, hv]
    · cases hr : labelIndexOf rest label with
      | none => simp [labelIndexOf, hv, hr] at h
      | some idx =>
        have : pos = idx + 1 := by simpa [labelIndexOf, hv, hr] using h.symm
        subst this
        simpa using ih label idx hr

theorem labelIndexOf_eq_none : ∀ (slice : List GoString) (label : GoString),
    label ∉ slice → labelIndexOf slice label = none := by
  intro slice
  induction slice with
  | nil => intro label _; rfl
  | cons value rest ih =>
    intro label h
    have hv : ¬ value = label := fun e => h (by simp [e])
    have hr := ih label (fun hm => h (List.mem_cons_of_mem value hm))
    simp [labelIndexOf, hv, hr]

theorem labelIndexOf_of_nodup : ∀ (slice : List GoString) (i : Nat) (label : GoString),
    slice.Nodup → slice[i]? = some label → labelIndexOf slice label = some i := by
  intro slice
  induction slice with
  | nil => intro i label _ h; simp at h
  | cons value rest ih =>
    intro i label hnd h
    cases i with
    | zero =>
      have : value = label := by simpa using h
      simp [labelIndexOf, this]
    | succ j =>
      have hj : rest[j]? = some label := by simpa using h
      have hmem : label ∈ rest := List.mem_iff_getElem?.mpr ⟨j, hj⟩
      have hnot : value ∉ rest := (List.nodup_cons.mp hnd).1
      have hv : ¬ value = label := fun e => hnot (e ▸ hmem)
      have hr := ih j label (List.nodup_cons.mp hnd).2 hj
      simp [labelIndexOf, hv, hr]

/-! ## The label loop -/

theorem labelStep_eq (labelsList labelValues : List GoString) (item : GoString) :
    labelStep labelsList labelValues item =
      match asPair item with
      | some (key, raw) =>
        match labelIndexOf labelsList key with
        | some pos => labelValues.set pos (storedValue raw)
        | none => labelValues
      | none => labelValues := by
  unfold labelStep asPair storedValue
  rcases Split item 61 with _ | ⟨a, _ | ⟨b, _ | ⟨c, t⟩⟩⟩ <;> rfl

theorem labelStep_of_not_pair (labelsList labelValues : List GoString) (item : GoString)
    (hp : asPair item = none) : labelStep labelsList labelValues item = labelValues := by
  rw [labelStep_eq, hp]

theorem labelStep_of_undeclared (labelsList labelValues : List GoString)
    (item key raw : GoString) (hp : asPair item = some (key, raw))
    (hi : labelIndexOf labelsList key = none) :
    labelStep labelsList labelValues item = labelValues := by
  rw [labelStep_eq, hp]
  simp only [hi]

theorem labelStep_of_declared (labelsList labelValues : List GoString)
    (item key raw : GoString) (pos : Nat) (hp : asPair item = some (key, raw))
    (hi : labelIndexOf labelsList key = some pos) :
    labelStep labelsList labelValues item = labelValues.set pos (storedValue raw) := by
  rw [labelStep_eq, hp]
  simp only [hi]

theorem length_labelStep (labelsList labelValues : List GoString) (item : GoString) :
    (labelStep labelsList labelValues item).length = labelValues.length := by
  cases hp : asPair item with
  | none => rw [labelStep_of_not_pair _ _ _ hp]
  | some kv =>
    obtain ⟨key, raw⟩ := kv
    cases hi : labelIndexOf labelsList key with
    | none => rw [labelStep_of_undeclared _ _ _ _ _ hp hi]
    | some pos => rw [labelStep_of_declared _ _ _ _ _ _ hp hi, List.length_set]

theorem length_foldl_labelStep (labelsList : List GoString) :
    ∀ (items : List GoString) (labelValues : List GoString),
      (items.foldl (labelStep labelsList) labelValues).length = labelValues.length := by
  intro items
  induction items with
  | nil => intro labelValues; rfl
  | cons item rest ih =>
    intro labelValues
    rw [List.foldl_cons, ih, length_labelStep]

theorem labelStep_getElem?_of_ne (labelsList labelValues : List GoString) (item : GoString)
    (pos : Nat)
    (h : ∀ key raw, asPair item = some (key, raw) → labelIndexOf labelsList key ≠ some pos) :
    (labelStep labelsList labelValues item)[pos]? = labelValues[pos]? := by
  cases hp : asPair item with
  | none => rw [labelStep_of_not_pair _ _ _ hp]
  | some kv =>
    obtain ⟨key, raw⟩ := kv
    cases hi : labelIndexOf labelsList key with
    | none => rw [labelStep_of_undeclared _ _ _ _ _ hp hi]
    | some q =>
      have hq : q ≠ pos := fun e => h key raw hp (by rw [hi, e])
      rw [labelStep_of_declared _ _ _ _ _ _ hp hi, List.getElem?_set_ne hq]

theorem foldl_labelStep_getElem?_of_ne (labelsList : List GoString) (pos : Nat) :
    ∀ (items : List GoString) (labelValues : List GoString),
      (∀ item ∈ items, ∀ key raw, asPair item = some (key, raw) →
        labelIndexOf labelsList key ≠ some pos) →
      (items.foldl (labelStep labelsList) labelValues)[pos]? = labelValues[pos]? := by
  intro items
  induction items with
  | nil => intro labelValues _; rfl
  | cons item rest ih =>
    intro labelValues h
    rw [List.foldl_cons, ih _ (fun it hit => h it (List.mem_cons_of_mem item hit)),
      labelStep_getElem?_of_ne _ _ _ _ (h item (List.mem_cons_self item rest))]

theorem labelStep_getElem?_self (labelsList labelValues : List GoString)
    (item key raw : GoString) (pos : Nat) (hp : asPair item = some (key, raw))
    (hi : labelIndexOf labelsList key = some pos) (hlen : pos < labelValues.length) :
    (labelStep labelsList labelValues item)[pos]? = some (storedValue raw) := by
  rw [labelStep_of_declared _ _ _ _ _ _ hp hi]
  exact List.getElem?_set_self hlen

/-- The value at the position of a key is the one stored by the last pair with
that key. -/
theorem foldl_labelStep_last (labelsList labelValues before after : List GoString)
    (item key raw : GoString) (pos : Nat) (hp : asPair item = some (key, raw))
    (hi : labelIndexOf labelsList key = some pos) (hlen : pos < labelValues.length)
    (hafter : ∀ it ∈ after, NotKey key it) :
    ((before ++ item :: after).foldl (labelStep labelsList) labelValues)[pos]?
      = some (storedValue raw) := by
  rw [List.foldl_append, List.foldl_cons, foldl_labelStep_getElem?_of_ne]
  · apply labelStep_getElem?_self _ _ _ _ _ _ hp hi
    rw [length_foldl_labelStep]
    exact hlen
  · intro it hit key2 raw2 hp2 hi2
    have h1 := labelIndexOf_getElem? _ _ _ hi
    have h2 := labelIndexOf_getElem? _ _ _ hi2
    have hk : key2 = key := by
      rw [h2] at h1
      exact Option.some.inj h1
    exact hafter it hit (by rw [hp2, hk]; rfl)

theorem labelStep_comm (labelsList z : List GoString) (x y : GoString)
    (h : ∀ p q, asPair x = some p → asPair y = some q → p.1 ≠ q.1) :
    labelStep labelsList (labelStep labelsList z x) y
      = labelStep labelsList (labelStep labelsList z y) x := by
  cases hx : asPair x with
  | none => simp only [labelStep_of_not_pair _ _ _ hx]
  | some p =>
    obtain ⟨kx, rx⟩ := p
    cases hy : asPair y with
    | none => simp only [labelStep_of_not_pair _ _ _ hy]
    | some q =>
      obtain ⟨ky, ry⟩ := q
      cases hix : labelIndexOf labelsList kx with
      | none => simp only [labelStep_of_undeclared _ _ _ _ _ hx hix]
      | some px =>
        cases hiy : labelIndexOf labelsList ky with
        | none => simp only [labelStep_of_undeclared _ _ _ _ _ hy hiy]
        | some py =>
          have hne : px ≠ py := by
            intro e
            have h1 := labelIndexOf_getElem? _ _ _ hix
            have h2 := labelIndexOf_getElem? _ _ _ hiy
            rw [e, h2] at h1
            exact h (kx, rx) (ky, ry) hx hy (Option.some.inj h1).symm
          simp only [labelStep_of_declared _ _ _ _ _ _ hx hix,
            labelStep_of_declared _ _ _ _ _ _ hy hiy]
          exact List.set_comm _ _ _ hne

theorem distinctKeys_symm :
    Symmetric fun x y : GoString =>
      ∀ p q, asPair x = some p → asPair y = some q → p.1 ≠ q.1 :=
  fun _ _ h p q hp hq e => h q p hq hp e.symm

theorem mem_pairKeys (items : List GoString) (item : GoString) (p : GoString × GoString)
    (hmem : item ∈ items) (hp : asPair item = some p) : p.1 ∈ pairKeys items := by
  unfold pairKeys
  exact List.mem_map.mpr ⟨p, List.mem_filterMap.mpr ⟨item, hmem, hp⟩, rfl⟩

theorem pairKeys_cons (item : GoString) (items : List GoString) :
    pairKeys (item :: items) =
      match asPair item with
      | some p => p.1 :: pairKeys items
      | none => pairKeys items := by
  unfold pairKeys
  cases hp : asPair item with
  | none => simp [List.filterMap_cons, hp]
  | some p => simp [List.filterMap_cons, hp]

theorem DistinctKeys.pairwise : ∀ (items : List GoString), DistinctKeys items →
    items.Pairwise fun x y => ∀ p q, asPair x = some p → asPair y = some q → p.1 ≠ q.1 := by
  intro items
  induction items with
  | nil => intro _; exact List.Pairwise.nil
  | cons x xs ih =>
    intro hd
    unfold DistinctKeys at hd
    rw [pairKeys_cons] at hd
    cases hx : asPair x with
    | none =>
      rw [hx] at hd
      refine List.Pairwise.cons ?_ (ih hd)
      intro y _ p q hp
      rw [hx] at hp
      cases hp
    | some px =>
      rw [hx] at hd
      have hnd := List.nodup_cons.mp hd
      refine List.Pairwise.cons ?_ (ih hnd.2)
      intro y hy p q hp hq e
      rw [hx] at hp
      have hpe : px = p := Option.some.inj hp
      apply hnd.1
      rw [hpe, e]
      exact mem_pairKeys xs y q hy hq

theorem DistinctKeys.notKey_after (before after : List GoString) (item : GoString)
    (p : GoString × GoString) (hd : DistinctKeys (before ++ item :: after))
    (hp : asPair item = some p) : ∀ it ∈ after, NotKey p.1 it := by
  have hpw := (List.pairwise_append.mp (DistinctKeys.pairwise _ hd)).2.1
  have hrel := (List.pairwise_cons.mp hpw).1
  intro it hit hk
  cases hq : asPair it with
  | none => simp [hq] at hk
  | some q =>
    rw [hq] at hk
    have hk2 : q.1 = p.1 := by simpa using hk
    exact hrel it hit p q hp hq hk2.symm

/-- The order of the items does not matter when no key occurs twice. -/
theorem foldl_labelStep_perm (labelsList labelValues : List GoString)
    (items items2 : List GoString) (hperm : items.Perm items2) (hd : DistinctKeys items) :
    items.foldl (labelStep labelsList) labelValues
      = items2.foldl (labelStep labelsList) labelValues := by
  apply List.Perm.foldl_eq' hperm
  intro x hx y hy z
  by_cases hxy : x = y
  · subst hxy; rfl
  · exact labelStep_comm labelsList z x y
      (List.Pairwise.forall distinctKeys_symm (DistinctKeys.pairwise _ hd) hx hy hxy)

theorem labelStep_of_not_keepsItem (labelsList labelValues : List GoString) (item : GoString)
    (h : keepsItem labelsList item = false) :
    labelStep labelsList labelValues item = labelValues := by
  unfold keepsItem at h
  cases hp : asPair item with
  | none => rw [labelStep_of_not_pair _ _ _ hp]
  | some kv =>
    obtain ⟨key, raw⟩ := kv
    rw [hp] at h
    cases hi : labelIndexOf labelsList key with
    | none => rw [labelStep_of_undeclared _ _ _ _ _ hp hi]
    | some pos => simp [hi] at h

theorem foldl_labelStep_filter (labelsList : List GoString) :
    ∀ (items : List GoString) (labelValues : List GoString),
      (items.filter (keepsItem labelsList)).foldl (labelStep labelsList) labelValues
        = items.foldl (labelStep labelsList) labelValues := by
  intro items
  induction items with
  | nil => intro labelValues; rfl
  | cons item rest ih =>
    intro labelValues
    cases hk : keepsItem labelsList item with
    | true => rw [List.filter_cons_of_pos (by simpa using hk), List.foldl_cons, List.foldl_cons, ih]
    | false =>
      rw [List.filter_cons_of_neg (by simp [hk]), List.foldl_cons,
        labelStep_of_not_keepsItem _ _ _ hk, ih]

/-! ## Unfolding `parseWarp10` -/

theorem parseWarp10_of_no_match {F : Type} (env : Env F) (line : GoString)
    (h : FindStringSubmatch line = []) : parseWarp10 env line = Except.ok [] := by
  unfold parseWarp10
  rw [h]

theorem parseWarp10_of_unknown {F : Type} (env : Env F) (line m0 m1 m2 m3 m4 : GoString)
    (h : FindStringSubmatch line = [m0, m1, m2, m3, m4])
    (hk : env.metrics.lookup (canonicalKey m2) = none) :
    parseWarp10 env line = Except.ok [] := by
  unfold parseWarp10
  rw [h]
  simp only [hk]

theorem parseWarp10_of_unparsed {F : Type} (env : Env F) (line m0 m1 m2 m3 m4 : GoString)
    (metric : Desc) (h : FindStringSubmatch line = [m0, m1, m2, m3, m4])
    (hk : env.metrics.lookup (canonicalKey m2) = some metric)
    (hv : env.ParseFloat m4 = none) :
    parseWarp10 env line = Except.ok [] := by
  unfold parseWarp10
  rw [h]
  simp only [hk, hv]

theorem parseWarp10_of_parsed {F : Type} (env : Env F) (line m0 m1 m2 m3 m4 : GoString)
    (metric : Desc) (value : F) (h : FindStringSubmatch line = [m0, m1, m2, m3, m4])
    (hk : env.metrics.lookup (canonicalKey m2) = some metric)
    (hv : env.ParseFloat m4 = some value) :
    parseWarp10 env line =
      (MustNewConstMetric metric ValueType.GaugeValue value
        (buildLabelValues (env.labels.lookup (canonicalKey m2)) m3)).map fun m => [m] := by
  unfold parseWarp10
  rw [h]
  simp only [hk, hv]

theorem NewConstMetric_eq_ok {F : Type} (desc : Desc) (valueType : ValueType) (value : F)
    (labelValues : List GoString) (m : Metric F)
    (h : NewConstMetric desc valueType value labelValues = Except.ok m) :
    desc.err = false ∧ labelValues.length = desc.variableLabels.length ∧
      labelValues.all validUTF8 = true ∧
      m = { desc := desc, valType := valueType, val := value, labelValues := labelValues } := by
  unfold NewConstMetric at h
  by_cases he : desc.err = true
  · simp [he] at h
  · by_cases hl : labelValues.length = desc.variableLabels.length
    · by_cases hu : labelValues.all validUTF8 = true
      · rw [if_neg he, if_neg (by simpa using hl), if_pos hu] at h
        exact ⟨by simpa using he, hl, hu, (Except.ok.inj h).symm⟩
      · rw [if_neg he, if_neg (by simpa using hl), if_neg hu] at h
        cases h
    · rw [if_neg he, if_pos (by simpa using hl)] at h
      cases h

theorem NewConstMetric_of_valid {F : Type} (desc : Desc) (valueType : ValueType) (value : F)
    (labelValues : List GoString) (he : desc.err = false)
    (hl : labelValues.length = desc.variableLabels.length)
    (hu : labelValues.all validUTF8 = true) :
    NewConstMetric desc valueType value labelValues =
      Except.ok { desc := desc, valType := valueType, val := value,
                  labelValues := labelValues } := by
  unfold NewConstMetric
  rw [if_neg (by simp [he]), if_neg (by simpa using hl), if_pos hu]

/-- What an emitted sample tells about the line it comes from. -/
theorem parseWarp10_ok_inv {F : Type} (env : Env F) (line m0 m1 m2 m3 m4 : GoString)
    (ms : List (Metric F)) (h : FindStringSubmatch line = [m0, m1, m2, m3, m4])
    (hm : parseWarp10 env line = Except.ok ms) (hne : ms ≠ []) :
    ∃ metric value,
      env.metrics.lookup (canonicalKey m2) = some metric ∧ env.ParseFloat m4 = some value ∧
      metric.err = false ∧
      (buildLabelValues (env.labels.lookup (canonicalKey m2)) m3).length
        = metric.variableLabels.length ∧
      (buildLabelValues (env.labels.lookup (canonicalKey m2)) m3).all validUTF8 = true ∧
      ms = [{ desc := metric, valType := ValueType.GaugeValue, val := value,
              labelValues := buildLabelValues (env.labels.lookup (canonicalKey m2)) m3 }] := by
  cases hk : env.metrics.lookup (canonicalKey m2) with
  | none =>
    rw [parseWarp10_of_unknown env line m0 m1 m2 m3 m4 h hk] at hm
    exact absurd (Except.ok.inj hm).symm hne
  | some metric =>
    cases hv : env.ParseFloat m4 with
    | none =>
      rw [parseWarp10_of_unparsed env line m0 m1 m2 m3 m4 metric h hk hv] at hm
      exact absurd (Except.ok.inj hm).symm hne
    | some value =>
      rw [parseWarp10_of_parsed env line m0 m1 m2 m3 m4 metric value h hk hv] at hm
      unfold MustNewConstMetric at hm
      cases hc : (NewConstMetric metric ValueType.GaugeValue value
          (buildLabelValues (env.labels.lookup (canonicalKey m2)) m3) :
          Except MetricError (Metric F)) with
      | error e =>
        rw [hc] at hm
        cases hm
      | ok m =>
        rw [hc] at hm
        obtain ⟨he, hl, hu, hmeq⟩ := NewConstMetric_eq_ok _ _ _ _ _ hc
        refine ⟨metric, value, rfl, rfl, he, hl, hu, ?_⟩
        have : [m] = ms := Except.ok.inj hm
        rw [← this, hmeq]

theorem length_buildLabelValues (entry : Option (List GoString)) (labelText : GoString) :
    (buildLabelValues entry labelText).length = (entry.getD []).length := by
  cases entry with
  | none => rfl
  | some labelsList =>
    simp [buildLabelValues, length_foldl_labelStep]

/-! ## `Split` and `Join` -/

theorem Split_ne_nil : ∀ (s : GoString) (sep : Nat), Split s sep ≠ [] := by
  intro s
  induction s with
  | nil => intro sep; simp [Split]
  | cons c cs ih =>
    intro sep
    by_cases hc : c = sep
    · simp [Split, hc]
    · cases hs : Split cs sep with
      | nil => exact absurd hs (ih sep)
      | cons piece pieces => simp [Split, hc, hs]

theorem Split_cons_ne (c : Nat) (cs : GoString) (sep : Nat) (hc : c ≠ sep) :
    ∃ piece pieces, Split cs sep = piece :: pieces ∧
      Split (c :: cs) sep = (c :: piece) :: pieces := by
  cases hs : Split cs sep with
  | nil => exact absurd hs (Split_ne_nil cs sep)
  | cons piece pieces => exact ⟨piece, pieces, rfl, by simp [Split, hc, hs]⟩

theorem not_mem_of_mem_Split (sep : Nat) :
    ∀ (s : GoString) (piece : GoString), piece ∈ Split s sep → sep ∉ piece := by
  intro s
  induction s with
  | nil =>
    intro piece h
    have : piece = [] := by simpa [Split] using h
    simp [this]
  | cons c cs ih =>
    intro piece h
    by_cases hc : c = sep
    · rw [Split, if_pos hc] at h
      rcases List.mem_cons.mp h with rfl | h
      · simp
      · exact ih piece h
    · obtain ⟨p1, ps, h1, h2⟩ := Split_cons_ne c cs sep hc
      rw [h2] at h
      rcases List.mem_cons.mp h with rfl | h
      · intro hmem
        rcases List.mem_cons.mp hmem with e | hmem
        · exact hc e.symm
        · exact ih p1 (by rw [h1]; exact List.mem_cons_self p1 ps) hmem
      · exact ih piece (by rw [h1]; exact List.mem_cons_of_mem p1 h)

theorem Split_of_not_mem (sep : Nat) :
    ∀ (s : GoString), sep ∉ s → Split s sep = [s] := by
  intro s
  induction s with
  | nil => intro _; rfl
  | cons c cs ih =>
    intro h
    have hc : c ≠ sep := fun e => h (by simp [e])
    have hcs := ih (fun hm => h (List.mem_cons_of_mem c hm))
    simp [Split, hc, hcs]

theorem Split_append_sep (sep : Nat) (rest : GoString) :
    ∀ (x : GoString), sep ∉ x → Split (x ++ sep :: rest) sep = x :: Split rest sep := by
  intro x
  induction x with
  | nil => intro _; simp [Split]
  | cons c cs ih =>
    intro h
    have hc : c ≠ sep := fun e => h (by simp [e])
    have hcs := ih (fun hm => h (List.mem_cons_of_mem c hm))
    rw [List.cons_append, Split, if_neg hc, hcs]

theorem Split_Join (sep : Nat) :
    ∀ (pieces : List GoString), pieces ≠ [] → (∀ x ∈ pieces, sep ∉ x) →
      Split (Join pieces sep) sep = pieces := by
  intro pieces
  induction pieces with
  | nil => intro h _; exact absurd rfl h
  | cons piece rest ih =>
    intro _ hall
    cases rest with
    | nil => exact Split_of_not_mem sep piece (hall piece (List.mem_cons_self _ _))
    | cons next more =>
      have hrec := ih (by simp) (fun x hx => hall x (List.mem_cons_of_mem piece hx))
      rw [Join, Split_append_sep sep _ piece (hall piece (List.mem_cons_self _ _)), hrec]

/-- The loop sees the same thing on a label-list and on the label-list without
its undeclared pairs. -/
theorem buildLabelValues_removeUndeclared (labelsList : List GoString) (labelText : GoString) :
    buildLabelValues (some labelsList) (removeUndeclared labelsList labelText)
      = buildLabelValues (some labelsList) labelText := by
  unfold buildLabelValues removeUndeclared
  simp only
  rw [← foldl_labelStep_filter labelsList (Split labelText 44)]
  cases hf : (Split labelText 44).filter (keepsItem labelsList) with
  | nil =>
    have : labelStep labelsList (List.replicate labelsList.length []) []
        = List.replicate labelsList.length [] :=
      labelStep_of_not_pair _ _ _ rfl
    simp [Join, Split, this]
  | cons item rest =>
    rw [Split_Join 44 (item :: rest) (by simp)]
    intro x hx
    have hx2 : x ∈ (Split labelText 44).filter (keepsItem labelsList) := by rw [hf]; exact hx
    exact not_mem_of_mem_Split 44 labelText x (List.mem_filter.mp hx2).1

/-! ## `QueryUnescape` against percent-decoding -/

theorem ne_plus_of_ishex (c : Nat) (h : ishex c = true) : c ≠ 43 := by
  intro e
  subst e
  simp [ishex] at h

theorem ne_percent_of_ishex (c : Nat) (h : ishex c = true) : c ≠ 37 := by
  intro e
  subst e
  simp [ishex] at h

theorem QueryUnescape_cons_other (c : Nat) (rest : GoString) (hc : c ≠ 37) (hp : c ≠ 43) :
    QueryUnescape (c :: rest) = (QueryUnescape rest).map fun t => c :: t := by
  rcases rest with _ | ⟨hi, _ | ⟨lo, rest2⟩⟩ <;> simp [QueryUnescape, hc, hp]

theorem QueryUnescape_cons_plus (rest : GoString) :
    QueryUnescape (43 :: rest) = (QueryUnescape rest).map fun t => 32 :: t := by
  rcases rest with _ | ⟨hi, _ | ⟨lo, rest2⟩⟩ <;> simp [QueryUnescape]

theorem escapesWellFormed_cons_other (c : Nat) (rest : GoString) (hc : c ≠ 37) :
    escapesWellFormed (c :: rest) = escapesWellFormed rest := by
  rcases rest with _ | ⟨hi, _ | ⟨lo, rest2⟩⟩ <;> simp [escapesWellFormed, hc]

theorem percentDecode_cons_other (c : Nat) (rest : GoString) (hc : c ≠ 37) :
    percentDecode (c :: rest) = c :: percentDecode rest := by
  rcases rest with _ | ⟨hi, _ | ⟨lo, rest2⟩⟩ <;> simp [percentDecode, hc]

theorem QueryUnescape_eq_aux : ∀ (n : Nat) (s : GoString), s.length ≤ n →
    QueryUnescape s =
      if escapesWellFormed s = true then some (percentDecode (ReplaceAll s 43 32)) else none := by
  intro n
  induction n with
  | zero =>
    intro s hs
    have : s = [] := List.length_eq_zero.mp (Nat.le_zero.mp hs)
    subst this
    simp [QueryUnescape, escapesWellFormed, percentDecode, ReplaceAll]
  | succ n ih =>
    intro s hs
    cases s with
    | nil => simp [QueryUnescape, escapesWellFormed, percentDecode, ReplaceAll]
    | cons c rest =>
      have hrest : rest.length ≤ n := by simpa using hs
      by_cases hc : c = 37
      · subst hc
        cases rest with
        | nil => simp [QueryUnescape, escapesWellFormed]
        | cons hi rest1 =>
          cases rest1 with
          | nil => simp [QueryUnescape, escapesWellFormed]
          | cons lo rest2 =>
            have hrest2 : rest2.length ≤ n := by
              simp only [List.length_cons] at hrest
              omega
            by_cases hh : (ishex hi && ishex lo) = true
            · have hhi : ishex hi = true := by simp at hh; exact hh.1
              have hlo : ishex lo = true := by simp at hh; exact hh.2
              have h1 := ne_plus_of_ishex hi hhi
              have h2 := ne_plus_of_ishex lo hlo
              by_cases hw : escapesWellFormed rest2 = true
              · simp [QueryUnescape, escapesWellFormed, percentDecode, ReplaceAll, hhi, hlo,
                  h1, h2, ih rest2 hrest2, hw]
              · simp [QueryUnescape, escapesWellFormed, hhi, hlo, ih rest2 hrest2, hw]
            · have hh2 : (ishex hi && ishex lo) = false := by simpa using hh
              simp [QueryUnescape, escapesWellFormed, hh2]
      · by_cases hp : c = 43
        · subst hp
          have e1 : ReplaceAll (43 :: rest) 43 32 = 32 :: ReplaceAll rest 43 32 := by
            simp [ReplaceAll]
          rw [QueryUnescape_cons_plus, escapesWellFormed_cons_other 43 rest hc, e1,
            percentDecode_cons_other 32 _ (by decide), ih rest hrest]
          by_cases hw : escapesWellFormed rest = true <;> simp [hw]
        · have e1 : ReplaceAll (c :: rest) 43 32 = c :: ReplaceAll rest 43 32 := by
            simp [ReplaceAll, hp]
          rw [QueryUnescape_cons_other c rest hc hp, escapesWellFormed_cons_other c rest hc, e1,
            percentDecode_cons_other c _ hc, ih rest hrest]
          by_cases hw : escapesWellFormed rest = true <;> simp [hw]

/-- The unescaping of the source is percent-decoding after every `+` has been
turned into a space, and it fails when a `%` lacks its two hex digits. -/
theorem QueryUnescape_eq (s : GoString) :
    QueryUnescape s =
      if escapesWellFormed s = true then some (percentDecode (ReplaceAll s 43 32)) else none :=
  QueryUnescape_eq_aux s.length s (Nat.le_refl _)

theorem storedValue_eq (raw : GoString) :
    storedValue raw =
      if escapesWellFormed raw = true then percentDecode (ReplaceAll raw 43 32) else [] := by
  unfold storedValue
  rw [QueryUnescape_eq]
  by_cases hw : escapesWellFormed raw = true <;> simp [hw]

/-- The sample holds, at the position of a declared key, the value stored by
the last pair with that key. -/
theorem last_value_of_key {F : Type} (env : Env F) (line m0 m1 m2 m3 m4 : GoString)
    (m : Metric F) (labelsList before after : List GoString) (item key raw : GoString)
    (pos : Nat) (h : FindStringSubmatch line = [m0, m1, m2, m3, m4])
    (hm : parseWarp10 env line = Except.ok [m])
    (hL : env.labels.lookup (canonicalKey m2) = some labelsList)
    (hs : Split m3 44 = before ++ item :: after) (hp : asPair item = some (key, raw))
    (hi : labelIndexOf labelsList key = some pos) (hafter : ∀ it ∈ after, NotKey key it) :
    m.labelValues[pos]? = some (storedValue raw) := by
  obtain ⟨metric, value, hk, hv, _, _, _, hms⟩ :=
    parseWarp10_ok_inv env line m0 m1 m2 m3 m4 [m] h hm (by simp)
  rw [(List.cons.inj hms).1, hL]
  unfold buildLabelValues
  simp only
  rw [hs]
  apply foldl_labelStep_last labelsList _ before after item key raw pos hp hi _ hafter
  simpa using labelIndexOf_lt labelsList key pos hi

/-- The construction of a sample fails as soon as one label value is not valid
UTF-8, whatever the descriptor is. -/
theorem NewConstMetric_error_of_invalid {F : Type} (desc : Desc) (valueType : ValueType)
    (value : F) (labelValues : List GoString) (hu : labelValues.all validUTF8 = false) :
    ∃ e, (NewConstMetric desc valueType value labelValues : Except MetricError (Metric F))
      = Except.error e := by
  unfold NewConstMetric
  by_cases he : desc.err = true
  · exact ⟨_, if_pos he⟩
  · by_cases hl : labelValues.length ≠ desc.variableLabels.length
    · exact ⟨_, by rw [if_neg he, if_pos hl]⟩
    · exact ⟨_, by rw [if_neg he, if_neg hl, if_neg (by simp [hu])]⟩

/-- In every registry, a line of a registered metric with a numeric value
panics when the last pair of a declared key stores a value that is not valid
UTF-8. -/
theorem parseWarp10_panics_of_invalid_label {F : Type} (env : Env F)
    (line m0 m1 m2 m3 m4 : GoString) (metric : Desc) (value : F)
    (labelsList before after : List GoString) (item key raw : GoString) (pos : Nat)
    (h : FindStringSubmatch line = [m0, m1, m2, m3, m4])
    (hk : env.metrics.lookup (canonicalKey m2) = some metric)
    (hv : env.ParseFloat m4 = some value)
    (hL : env.labels.lookup (canonicalKey m2) = some labelsList)
    (hs : Split m3 44 = before ++ item :: after) (hp : asPair item = some (key, raw))
    (hi : labelIndexOf labelsList key = some pos) (hafter : ∀ it ∈ after, NotKey key it)
    (hbad : validUTF8 (storedValue raw) = false) :
    ∃ e, parseWarp10 env line = Except.error e := by
  have hget : (buildLabelValues (some labelsList) m3)[pos]? = some (storedValue raw) := by
    unfold buildLabelValues
    simp only
    rw [hs]
    apply foldl_labelStep_last labelsList _ before after item key raw pos hp hi _ hafter
    simpa using labelIndexOf_lt labelsList key pos hi
  have hall : (buildLabelValues (some labelsList) m3).all validUTF8 = false := by
    rw [Bool.eq_false_iff]
    intro hall
    have hmem : storedValue raw ∈ buildLabelValues (some labelsList) m3 :=
      List.mem_iff_getElem?.mpr ⟨pos, hget⟩
    have := List.all_eq_true.mp hall _ hmem
    rw [hbad] at this
    cases this
  obtain ⟨e, he⟩ := NewConstMetric_error_of_invalid (F := F) metric ValueType.GaugeValue value
    (buildLabelValues (some labelsList) m3) hall
  refine ⟨e, ?_⟩
  rw [parseWarp10_of_parsed env line m0 m1 m2 m3 m4 metric value h hk hv, hL]
  unfold MustNewConstMetric
  rw [he]
  rfl

/-! ## The claims -/

/-- C1, as it fails on the code: the line below matches the pattern, its class
is a key of the registry and its value parses, yet no sample is emitted: the
construction of the sample panics on the label value, which is not UTF-8. -/
theorem parseWarp10_parsed_value_not_emitted :
    FindStringSubmatch (str "1/a/b myapp.counter{producer=%ff} 1")
      = [str "1/a/b myapp.counter{producer=%ff} 1", str "1", str "myapp.counter",
         str "producer=%ff", str "1"] ∧
    sampleEnv.metrics.lookup (canonicalKey (str "myapp.counter"))
      = some (newDesc "myapp_counter" "count" ["producer", "app"]) ∧
    sampleEnv.ParseFloat (str "1") = some { num := 1, scale := 0 } ∧
    parseWarp10 sampleEnv (str "1/a/b myapp.counter{producer=%ff} 1")
      = Except.error MetricError.invalidLabelValue :=
  ⟨rfl, rfl, rfl, rfl⟩

/-- Whenever the construction of the sample cannot fail, a matching line of a
registered class emits exactly when its value parses, and then one gauge of the
registered descriptor with the parsed value. -/
theorem parseWarp10_emits_iff_parses {F : Type} (env : Env F)
    (line m0 m1 m2 m3 m4 : GoString) (metric : Desc)
    (h : FindStringSubmatch line = [m0, m1, m2, m3, m4])
    (hk : env.metrics.lookup (canonicalKey m2) = some metric)
    (he : metric.err = false)
    (hl : (buildLabelValues (env.labels.lookup (canonicalKey m2)) m3).length
      = metric.variableLabels.length)
    (hu : (buildLabelValues (env.labels.lookup (canonicalKey m2)) m3).all validUTF8 = true) :
    (∀ value, env.ParseFloat m4 = some value →
      parseWarp10 env line = Except.ok
        [{ desc := metric, valType := ValueType.GaugeValue, val := value,
           labelValues := buildLabelValues (env.labels.lookup (canonicalKey m2)) m3 }]) ∧
    (env.ParseFloat m4 = none → parseWarp10 env line = Except.ok []) := by
  constructor
  · intro value hv
    rw [parseWarp10_of_parsed env line m0 m1 m2 m3 m4 metric value h hk hv]
    unfold MustNewConstMetric
    rw [NewConstMetric_of_valid metric _ value _ he hl hu]
    rfl
  · intro hv
    exact parseWarp10_of_unparsed env line m0 m1 m2 m3 m4 metric h hk hv

/-- C3: the label values of an emitted sample are as many as the label names
declared for its metric: as many as the entry of `labels` has names, every
position `labelIndexOf` returns for that entry being within bounds, and none
when the metric has no entry, whatever the label-list holds; it is also the
number of labels of the descriptor. -/
theorem labelValues_length {F : Type} (env : Env F) (line m0 m1 m2 m3 m4 : GoString)
    (m : Metric F) (h : FindStringSubmatch line = [m0, m1, m2, m3, m4])
    (hm : parseWarp10 env line = Except.ok [m]) :
    (∀ labelsList, env.labels.lookup (canonicalKey m2) = some labelsList →
      m.labelValues.length = labelsList.length ∧
      ∀ label pos, labelIndexOf labelsList label = some pos → pos < m.labelValues.length) ∧
    (env.labels.lookup (canonicalKey m2) = none → m.labelValues = []) ∧
    m.labelValues.length = m.desc.variableLabels.length := by
  obtain ⟨metric, value, hk, hv, _, hl, _, hms⟩ :=
    parseWarp10_ok_inv env line m0 m1 m2 m3 m4 [m] h hm (by simp)
  have hmeq := (List.cons.inj hms).1
  refine ⟨?_, ?_, ?_⟩
  · intro labelsList hL
    have hlen : m.labelValues.length = labelsList.length := by
      rw [hmeq, hL]
      simp [length_buildLabelValues]
    exact ⟨hlen, fun label pos hp => hlen ▸ labelIndexOf_lt labelsList label pos hp⟩
  · intro hL
    rw [hmeq, hL]
    rfl
  · rw [hmeq]
    exact hl

/-- A metric with two declared labels gets two label values from a label-list
of three pairs, and a metric without labels gets none from a non-empty
label-list. -/
theorem labelValues_length_witness :
    (gauge (newDesc "myapp_counter" "count" ["producer", "app"]) 425 1 ["x", "y"]).labelValues.length
      = 2 ∧
    (gauge (newDesc "plain" "no label" []) 8 0 []).labelValues = [] :=
  ⟨((labelValues_length sampleEnv (str "123//foo myapp.counter{producer=x,zone=z,app=y} 42.5")
      _ (str "123") (str "myapp.counter") (str "producer=x,zone=z,app=y") (str "42.5")
      (gauge (newDesc "myapp_counter" "count" ["producer", "app"]) 425 1 ["x", "y"])
      rfl rfl).1 [str "producer", str "app"] rfl).1,
   (labelValues_length sampleEnv (str "123//foo plain{producer=x} 8")
      _ (str "123") (str "plain") (str "producer=x") (str "8")
      (gauge (newDesc "plain" "no label" []) 8 0 []) rfl rfl).2.1 rfl⟩

/-- C4: the value at the position of a declared key is the decoded value of
the last pair of the label-list with that key, whatever items precede it: the
percent-decoding of its raw value in which every `+` has first become a space,
and the empty string when a `%` of the raw value lacks its two hex digits. -/
theorem last_duplicate_wins {F : Type} (env : Env F) (line m0 m1 m2 m3 m4 : GoString)
    (m : Metric F) (labelsList before after : List GoString) (item key raw : GoString)
    (pos : Nat) (h : FindStringSubmatch line = [m0, m1, m2, m3, m4])
    (hm : parseWarp10 env line = Except.ok [m])
    (hL : env.labels.lookup (canonicalKey m2) = some labelsList)
    (hs : Split m3 44 = before ++ item :: after) (hp : asPair item = some (key, raw))
    (hi : labelIndexOf labelsList key = some pos) (hafter : ∀ it ∈ after, NotKey key it) :
    m.labelValues[pos]? =
      some (if escapesWellFormed raw = true then percentDecode (ReplaceAll raw 43 32) else []) ∧
    ∀ earlier : List GoString,
      ((earlier ++ item :: after).foldl (labelStep labelsList)
          (List.replicate labelsList.length []))[pos]? =
        some (if escapesWellFormed raw = true then percentDecode (ReplaceAll raw 43 32)
              else []) := by
  constructor
  · rw [← storedValue_eq]
    exact last_value_of_key env line m0 m1 m2 m3 m4 m labelsList before after item key raw pos
      h hm hL hs hp hi hafter
  · intro earlier
    rw [← storedValue_eq]
    apply foldl_labelStep_last labelsList _ earlier after item key raw pos hp hi _ hafter
    simpa using labelIndexOf_lt labelsList key pos hi

/-- The label-list `a=1,a=2` with the descriptor `[a]` yields `["2"]`, and the
label-list `a=1,a=x+y%2Fz` yields `["x y/z"]`. -/
theorem last_duplicate_wins_witness :
    parseWarp10 sampleEnv (str "5/x/y single{a=1,a=2} 9")
      = Except.ok [gauge (newDesc "single" "one label" ["a"]) 9 0 ["2"]] ∧
    parseWarp10 sampleEnv (str "5/x/y single{a=1,a=x+y%2Fz} 9")
      = Except.ok [gauge (newDesc "single" "one label" ["a"]) 9 0 ["x y/z"]] ∧
    (gauge (newDesc "single" "one label" ["a"]) 9 0 ["x y/z"]).labelValues[0]?
      = some (if escapesWellFormed (str "x+y%2Fz") = true then
          percentDecode (ReplaceAll (str "x+y%2Fz") 43 32) else []) ∧
    (if escapesWellFormed (str "x+y%2Fz") = true then
        percentDecode (ReplaceAll (str "x+y%2Fz") 43 32) else []) = str "x y/z" :=
  ⟨rfl, rfl,
   (last_duplicate_wins sampleEnv (str "5/x/y single{a=1,a=x+y%2Fz} 9") _ (str "5")
     (str "single") (str "a=1,a=x+y%2Fz") (str "9") _ [str "a"] [str "a=1"] []
     (str "a=x+y%2Fz") (str "a") (str "x+y%2Fz") 0 rfl rfl rfl rfl rfl rfl (by simp)).1,
   rfl⟩

/-- C6: a line whose class name has a canonical key that is not in the registry
emits no sample, whatever its label-list and value are. -/
theorem unknown_metric_no_sample {F : Type} (env : Env F) (line m0 m1 m2 m3 m4 : GoString)
    (h : FindStringSubmatch line = [m0, m1, m2, m3, m4])
    (hk : env.metrics.lookup (canonicalKey m2) = none) :
    parseWarp10 env line = Except.ok [] :=
  parseWarp10_of_unknown env line m0 m1 m2 m3 m4 h hk

/-- A well-formed line of an unregistered class emits nothing. -/
theorem unknown_metric_no_sample_witness :
    sampleEnv.metrics.lookup (canonicalKey (str "other.metric")) = none ∧
    parseWarp10 sampleEnv (str "123//foo other.metric{producer=x,app=y} 42.5") = Except.ok [] :=
  ⟨rfl,
   unknown_metric_no_sample sampleEnv (str "123//foo other.metric{producer=x,app=y} 42.5")
     _ (str "123") (str "other.metric") (str "producer=x,app=y") (str "42.5") rfl rfl⟩

/-- C7: a line outside the language of the pattern emits no sample and does not
panic, whatever the registry is. -/
theorem no_match_no_sample {F : Type} (env : Env F) (line : GoString)
    (h : ¬ Matches matcherWarp10 line) : parseWarp10 env line = Except.ok [] :=
  parseWarp10_of_no_match env line ((FindStringSubmatch_eq_nil_iff line).mpr h)

/-- Lines without a digit at the start, with one `/` only, without `{`, without
`}` and without a class name emit nothing. -/
theorem no_match_no_sample_witness :
    parseWarp10 sampleEnv (str "x23//foo myapp.counter{producer=x,app=y} 42.5") = Except.ok [] ∧
    parseWarp10 sampleEnv (str "123/foo myapp.counter{producer=x,app=y} 42.5") = Except.ok [] ∧
    parseWarp10 sampleEnv (str "123//foo myapp.counter producer=x,app=y\x7d 42.5") = Except.ok [] ∧
    parseWarp10 sampleEnv (str "123//foo myapp.counter\x7bproducer=x,app=y 42.5") = Except.ok [] ∧
    parseWarp10 sampleEnv (str "123//foo {producer=x,app=y} 42.5") = Except.ok [] :=
  ⟨no_match_no_sample sampleEnv _ ((FindStringSubmatch_eq_nil_iff _).mp rfl),
   no_match_no_sample sampleEnv _ ((FindStringSubmatch_eq_nil_iff _).mp rfl),
   no_match_no_sample sampleEnv _ ((FindStringSubmatch_eq_nil_iff _).mp rfl),
   no_match_no_sample sampleEnv _ ((FindStringSubmatch_eq_nil_iff _).mp rfl),
   no_match_no_sample sampleEnv _ ((FindStringSubmatch_eq_nil_iff _).mp rfl)⟩

/-- C8, as it fails on the code: the label value `%ff` unescapes to the byte
255, which is not valid UTF-8, so that `MustNewConstMetric` panics on a line of
a registered metric with a numeric value. -/
theorem parseWarp10_panics_on_invalid_utf8 :
    QueryUnescape (str "%ff") = some [255] ∧ validUTF8 [255] = false ∧
    parseWarp10 sampleEnv (str "123//foo fetch.bytes{owner=%ff} 42.5")
      = Except.error MetricError.invalidLabelValue :=
  ⟨rfl, rfl, rfl⟩

/-- C10: two lines whose captured class names have the same canonical key and
whose label-lists and values are the same give the same result. -/
theorem class_name_through_canonical_key {F : Type} (env : Env F)
    (line1 line2 a0 a1 b0 b1 c1 c2 m3 m4 : GoString)
    (h1 : FindStringSubmatch line1 = [a0, a1, c1, m3, m4])
    (h2 : FindStringSubmatch line2 = [b0, b1, c2, m3, m4])
    (hk : canonicalKey c1 = canonicalKey c2) :
    parseWarp10 env line1 = parseWarp10 env line2 := by
  unfold parseWarp10
  rw [h1, h2]
  simp only [hk]

/-- The class names `fetch.bytes` and `fetch_bytes` are read under the same key
and give the same sample. -/
theorem class_name_through_canonical_key_witness :
    canonicalKey (str "fetch.bytes") = canonicalKey (str "fetch_bytes") ∧
    parseWarp10 sampleEnv (str "1/a/b fetch.bytes{owner=me} 2")
      = parseWarp10 sampleEnv (str "1/a/b fetch_bytes{owner=me} 2") :=
  ⟨rfl,
   class_name_through_canonical_key sampleEnv (str "1/a/b fetch.bytes{owner=me} 2")
     (str "1/a/b fetch_bytes{owner=me} 2") _ (str "1") _ (str "1") (str "fetch.bytes")
     (str "fetch_bytes") (str "owner=me") (str "2") rfl rfl rfl⟩

/-- C5 does not hold as stated: percent-decoding keeps the `+` of `a+b` and the
stray `%` of `50%`, whereas the sample holds `a b` for the first and the empty
string for the second. -/
theorem plus_and_stray_percent_not_kept :
    parseWarp10 sampleEnv (str "1/a/b fetch.bytes{owner=a+b} 2")
      = Except.ok [gauge (newDesc "fetch_bytes" "bytes" ["owner"]) 2 0 ["a b"]] ∧
    percentDecode (str "a+b") = str "a+b" ∧ str "a b" ≠ percentDecode (str "a+b") ∧
    parseWarp10 sampleEnv (str "1/a/b fetch.bytes{owner=50%} 2")
      = Except.ok [gauge (newDesc "fetch_bytes" "bytes" ["owner"]) 2 0 [""]] ∧
    percentDecode (str "50%") = str "50%" ∧ str "" ≠ percentDecode (str "50%") :=
  ⟨rfl, rfl, by decide, rfl, rfl, by decide⟩

/-- C5, amended: a pair with a declared key stores at the position of its key
the percent-decoding of its raw value in which every `+` has first become a
space, and the empty string when a `%` of the raw value lacks its two hex
digits; the sample holds that value when no later pair has the same key. -/
theorem stored_value_is_query_unescape {F : Type} (env : Env F)
    (line m0 m1 m2 m3 m4 : GoString) (m : Metric F)
    (labelsList before after : List GoString) (item key raw : GoString) (pos : Nat)
    (h : FindStringSubmatch line = [m0, m1, m2, m3, m4])
    (hm : parseWarp10 env line = Except.ok [m])
    (hL : env.labels.lookup (canonicalKey m2) = some labelsList)
    (hs : Split m3 44 = before ++ item :: after) (hp : asPair item = some (key, raw))
    (hi : labelIndexOf labelsList key = some pos) :
    (∀ labelValues : List GoString, labelValues.length = labelsList.length →
      (labelStep labelsList labelValues item)[pos]? =
        some (if escapesWellFormed raw = true then percentDecode (ReplaceAll raw 43 32)
              else [])) ∧
    ((∀ it ∈ after, NotKey key it) →
      m.labelValues[pos]? =
        some (if escapesWellFormed raw = true then percentDecode (ReplaceAll raw 43 32)
              else [])) := by
  constructor
  · intro labelValues hlen
    rw [← storedValue_eq]
    apply labelStep_getElem?_self labelsList labelValues item key raw pos hp hi
    rw [hlen]
    exact labelIndexOf_lt labelsList key pos hi
  · intro hafter
    rw [← storedValue_eq]
    exact last_value_of_key env line m0 m1 m2 m3 m4 m labelsList before after item key raw pos
      h hm hL hs hp hi hafter

/-- The pair `owner=foo%2Fbar` yields the label value `foo/bar`. -/
theorem stored_value_is_query_unescape_witness :
    parseWarp10 sampleEnv (str "1/a/b fetch.bytes{owner=foo%2Fbar} 2")
      = Except.ok [gauge (newDesc "fetch_bytes" "bytes" ["owner"]) 2 0 ["foo/bar"]] ∧
    (gauge (newDesc "fetch_bytes" "bytes" ["owner"]) 2 0 ["foo/bar"]).labelValues[0]?
      = some (if escapesWellFormed (str "foo%2Fbar") = true then
          percentDecode (ReplaceAll (str "foo%2Fbar") 43 32) else []) :=
  ⟨rfl,
   (stored_value_is_query_unescape sampleEnv (str "1/a/b fetch.bytes{owner=foo%2Fbar} 2") _
     (str "1") (str "fetch.bytes") (str "owner=foo%2Fbar") (str "2") _ [str "owner"] [] []
     (str "owner=foo%2Fbar") (str "owner") (str "foo%2Fbar") 0 rfl rfl rfl rfl rfl rfl).2
     (by simp)⟩

/-! ## The scrape -/

theorem parseWarp10_sent_le_one {F : Type} (env : Env F) (line : GoString)
    (ms : List (Metric F)) (h : parseWarp10 env line = Except.ok ms) : ms.length ≤ 1 := by
  rcases FindStringSubmatch_length line with h0 | ⟨g1, g2, g3, g4, h5⟩
  · rw [parseWarp10_of_no_match env line h0] at h
    rw [← Except.ok.inj h]
    simp
  · by_cases hne : ms = []
    · simp [hne]
    · obtain ⟨_, _, _, _, _, _, _, hms⟩ := parseWarp10_ok_inv env line _ _ _ _ _ ms h5 h hne
      simp [hms]

theorem samplesOf_length_le_one {F : Type} (env : Env F) (line : GoString) :
    (samplesOf env line).length ≤ 1 := by
  unfold samplesOf
  cases h : parseWarp10 env line with
  | error e => simp
  | ok ms => exact parseWarp10_sent_le_one env line ms h

/-- As long as no line panics, the loop sends the samples of the lines, line
after line. -/
theorem scanLoop_of_no_panic {F : Type} (env : Env F) :
    ∀ (lines : List GoString) (sent : List (Metric F)),
      (∀ line ∈ lines, ¬ Panics env line) →
      scanLoop env lines sent
        = { sent := sent ++ lines.flatMap (samplesOf env), panic := none } := by
  intro lines
  induction lines with
  | nil => intro sent _; simp [scanLoop]
  | cons line rest ih =>
    intro sent h
    cases hp : parseWarp10 env line with
    | error err => exact absurd ⟨err, hp⟩ (h line (List.mem_cons_self line rest))
    | ok ms =>
      have hs : samplesOf env line = ms := by simp [samplesOf, hp]
      rw [scanLoop]
      simp only [hp]
      rw [ih (sent ++ ms) (fun l hl => h l (List.mem_cons_of_mem line hl)),
        List.flatMap_cons, hs, List.append_assoc]

/-- A panicking line ends the loop: the lines after it are not decoded. -/
theorem scanLoop_of_panic {F : Type} (env : Env F) (before after : List GoString)
    (line : GoString) (err : MetricError) (sent : List (Metric F))
    (hb : ∀ l ∈ before, ¬ Panics env l) (hp : parseWarp10 env line = Except.error err) :
    scanLoop env (before ++ line :: after) sent
      = { sent := sent ++ before.flatMap (samplesOf env), panic := some err } := by
  induction before generalizing sent with
  | nil => simp [scanLoop, hp]
  | cons l rest ih =>
    cases hl : parseWarp10 env l with
    | error e => exact absurd ⟨e, hl⟩ (hb l (List.mem_cons_self l rest))
    | ok ms =>
      have hs : samplesOf env l = ms := by simp [samplesOf, hl]
      rw [List.cons_append, scanLoop]
      simp only [hl]
      rw [ih (sent ++ ms) (fun x hx => hb x (List.mem_cons_of_mem l hx)),
        List.flatMap_cons, hs, List.append_assoc]

theorem Collect_of_response {F : Type} (env : Env F) (e : Exporter) (net : GoString → Upstream)
    (lines : List GoString) (hl : e.locked = false) (hn : net e.URL = Upstream.response lines) :
    Collect env e net = some (e, scanLoop env lines []) := by
  unfold Collect
  rw [if_neg (by simp [hl])]
  simp only [hn]
  cases e
  simp_all

/-- As long as no line panics, a scrape forwards the samples of the lines of
the body, each line giving at most one, in the order of the lines. -/
theorem Collect_of_no_panic {F : Type} (env : Env F) (e : Exporter)
    (net : GoString → Upstream) (lines : List GoString) (hl : e.locked = false)
    (hn : net e.URL = Upstream.response lines) (hp : ∀ line ∈ lines, ¬ Panics env line) :
    Collect env e net
      = some (e, { sent := lines.flatMap (samplesOf env), panic := none }) := by
  rw [Collect_of_response env e net lines hl hn, scanLoop_of_no_panic env lines [] hp]
  simp

/-- C12, as it fails on the code: the body of the specification yields its one
sample, but a body whose first line panics yields nothing, although its second
line, decoded on its own, gives a sample. Adding the first line removed the
sample of the second. -/
theorem Collect_stops_at_panicking_line :
    Collect sampleEnv sampleExporter
        (fun _ => Upstream.response [str "123//foo myapp.counter{producer=x,app=y} 42.5"])
      = some (sampleExporter,
          { sent := [gauge (newDesc "myapp_counter" "count" ["producer", "app"]) 425 1 ["x", "y"]],
            panic := none }) ∧
    parseWarp10 sampleEnv (str "2//foo plain{} 7")
      = Except.ok [gauge (newDesc "plain" "no label" []) 7 0 []] ∧
    Collect sampleEnv sampleExporter
        (fun _ => Upstream.response
          [str "1//foo myapp.counter{producer=%ff} 1", str "2//foo plain{} 7"])
      = some (sampleExporter, { sent := [], panic := some MetricError.invalidLabelValue }) :=
  ⟨rfl, rfl, rfl⟩

/-- C13: when the request cannot be built or the network call fails, `Collect`
sends nothing, does not panic and leaves the exporter as it was, the mutex
released; a later `Collect` does what it would have done without the failed
one. -/
theorem Collect_of_fetch_failure {F : Type} (env : Env F) (e : Exporter)
    (net : GoString → Upstream) (hl : e.locked = false)
    (hf : net e.URL = Upstream.requestError ∨ net e.URL = Upstream.doError) :
    Collect env e net = some (e, { sent := [], panic := none }) ∧
    ∀ net2 : GoString → Upstream,
      ((Collect env e net).bind fun after => Collect env after.1 net2)
        = (Collect env e net2 : Option (Exporter × Scrape F)) := by
  have h1 : Collect env e net = some (e, { sent := [], panic := none }) := by
    unfold Collect
    rw [if_neg (by simp [hl])]
    rcases hf with hf | hf <;>
    · simp only [hf]
      cases e
      simp_all
  refine ⟨h1, ?_⟩
  intro net2
  rw [h1]
  rfl

/-- A refused connection gives an empty scrape and the next scrape is served. -/
theorem Collect_of_fetch_failure_witness :
    Collect sampleEnv sampleExporter (fun _ => Upstream.doError)
      = some (sampleExporter, { sent := [], panic := none }) ∧
    ((Collect sampleEnv sampleExporter (fun _ => Upstream.doError)).bind fun after =>
        Collect sampleEnv after.1 (fun _ => Upstream.response [str "2//foo plain{} 7"]))
      = some (sampleExporter,
          { sent := [gauge (newDesc "plain" "no label" []) 7 0 []], panic := none }) :=
  ⟨(Collect_of_fetch_failure sampleEnv sampleExporter (fun _ => Upstream.doError) rfl
      (Or.inr rfl)).1,
   ((Collect_of_fetch_failure sampleEnv sampleExporter (fun _ => Upstream.doError) rfl
      (Or.inr rfl)).2 (fun _ => Upstream.response [str "2//foo plain{} 7"])).trans rfl⟩

/-- C14: `NewSensisionExporter` returns an error, and no exporter, exactly when
`url.Parse` reports an error for the given string, and that error; otherwise it
returns the exporter whose URL is the given string and whose metric table is
the registry. -/
theorem NewSensisionExporter_spec {F E : Type} (env : Env F)
    (urlParse : GoString → Option E) (sensisionURL : GoString) :
    ((∃ err, NewSensisionExporter env urlParse sensisionURL = Except.error err)
      ↔ urlParse sensisionURL ≠ none) ∧
    (∀ err, urlParse sensisionURL = some err →
      NewSensisionExporter env urlParse sensisionURL = Except.error err) ∧
    (urlParse sensisionURL = none →
      NewSensisionExporter env urlParse sensisionURL
        = Except.ok { URL := sensisionURL, locked := false, metrics := env.metrics }) := by
  unfold NewSensisionExporter
  cases h : urlParse sensisionURL with
  | none => simp
  | some err => simp

/-- The default URL gives the exporter of the registry and a URL without a
scheme gives the error. -/
theorem NewSensisionExporter_spec_witness :
    NewSensisionExporter sampleEnv sampleUrlParse (str "http://localhost:8082/metrics")
      = Except.ok sampleExporter ∧
    NewSensisionExporter sampleEnv sampleUrlParse (str ":8082/metrics")
      = Except.error "missing protocol scheme" :=
  ⟨(NewSensisionExporter_spec sampleEnv sampleUrlParse (str "http://localhost:8082/metrics")).2.2
      rfl,
   (NewSensisionExporter_spec sampleEnv sampleUrlParse (str ":8082/metrics")).2.1 _ rfl⟩

theorem mem_of_lookup_eq_some {β : Type} :
    ∀ (table : List (GoString × β)) (key : GoString) (v : β),
      table.lookup key = some v → (key, v) ∈ table := by
  intro table
  induction table with
  | nil => intro key v h; simp at h
  | cons entry rest ih =>
    intro key v h
    obtain ⟨k, b⟩ := entry
    rw [List.lookup_cons] at h
    by_cases hk : key = k
    · subst hk
      simp at h
      simp [h]
    · have hne : (key == k) = false := by simpa using hk
      rw [hne] at h
      exact List.mem_cons_of_mem _ (ih key v h)

theorem map_snd_eq_filterMap_lookup {β : Type} :
    ∀ (table : List (GoString × β)), (table.map Prod.fst).Nodup →
      table.map Prod.snd = (table.map Prod.fst).filterMap fun key => table.lookup key := by
  intro table
  induction table with
  | nil => intro _; rfl
  | cons entry rest ih =>
    intro hnd
    obtain ⟨k, b⟩ := entry
    have hnd2 : k ∉ rest.map Prod.fst ∧ (rest.map Prod.fst).Nodup :=
      List.nodup_cons.mp (by rw [List.map_cons] at hnd; exact hnd)
    have hrest := ih hnd2.2
    have hcongr : (rest.map Prod.fst).filterMap (fun key => ((k, b) :: rest).lookup key)
        = (rest.map Prod.fst).filterMap fun key => rest.lookup key := by
      apply List.filterMap_congr
      intro key hkey
      have hne : (key == k) = false := by
        have : key ≠ k := fun e => hnd2.1 (e ▸ hkey)
        simpa using this
      rw [List.lookup_cons, hne]
    have hself : ((k, b) :: rest).lookup k = some b := by
      rw [List.lookup_cons]
      simp
    rw [List.map_cons, List.map_cons, List.filterMap_cons, hself, hcongr, ← hrest]

theorem desc_of_parseWarp10 {F : Type} (env : Env F) (line : GoString)
    (ms : List (Metric F)) (h : parseWarp10 env line = Except.ok ms) :
    ∀ m ∈ ms, m.desc ∈ env.metrics.map Prod.snd := by
  intro m hm
  rcases FindStringSubmatch_length line with h0 | ⟨g1, g2, g3, g4, h5⟩
  · rw [parseWarp10_of_no_match env line h0] at h
    rw [← Except.ok.inj h] at hm
    simp at hm
  · have hne : ms ≠ [] := fun e => by simp [e] at hm
    obtain ⟨metric, value, hk, _, _, _, _, hms⟩ :=
      parseWarp10_ok_inv env line _ _ _ _ _ ms h5 h hne
    rw [hms] at hm
    have hmeq : m = _ := List.mem_singleton.mp hm
    rw [hmeq]
    exact List.mem_map.mpr ⟨_, mem_of_lookup_eq_some env.metrics _ metric hk, rfl⟩

theorem desc_of_scanLoop {F : Type} (env : Env F) :
    ∀ (lines : List GoString) (sent : List (Metric F)),
      (∀ m ∈ sent, m.desc ∈ env.metrics.map Prod.snd) →
      ∀ m ∈ (scanLoop env lines sent).sent, m.desc ∈ env.metrics.map Prod.snd := by
  intro lines
  induction lines with
  | nil => intro sent h; simpa [scanLoop] using h
  | cons line rest ih =>
    intro sent h
    cases hp : parseWarp10 env line with
    | error err =>
      rw [scanLoop]
      simp only [hp]
      exact h
    | ok ms =>
      rw [scanLoop]
      simp only [hp]
      apply ih
      intro m hm
      rcases List.mem_append.mp hm with hm | hm
      · exact h m hm
      · exact desc_of_parseWarp10 env line ms hp m hm

/-- C15: for the exporter `NewSensisionExporter` builds, `Describe`, which takes
no upstream, enumerates the descriptor of every key of the registry, once per
key, and every sample a `Collect` sends carries one of these descriptors. -/
theorem Describe_enumerates_registry {F E : Type} (env : Env F)
    (urlParse : GoString → Option E) (sensisionURL : GoString) (e : Exporter)
    (h : NewSensisionExporter env urlParse sensisionURL = Except.ok e)
    (hkeys : (env.metrics.map Prod.fst).Nodup) :
    Describe e = (env.metrics.map Prod.fst).filterMap (fun key => env.metrics.lookup key) ∧
    (∀ key desc, env.metrics.lookup key = some desc → desc ∈ Describe e) ∧
    (Describe e).length = (env.metrics.map Prod.fst).length ∧
    ∀ (net : GoString → Upstream) (after : Exporter) (scrape : Scrape F),
      Collect env e net = some (after, scrape) → ∀ m ∈ scrape.sent, m.desc ∈ Describe e := by
  have he : e.metrics = env.metrics ∧ e.locked = false := by
    unfold NewSensisionExporter at h
    cases hu : urlParse sensisionURL with
    | some err => rw [hu] at h; cases h
    | none =>
      rw [hu] at h
      have := Except.ok.inj h
      rw [← this]
      exact ⟨rfl, rfl⟩
  have hd : Describe e = env.metrics.map Prod.snd := by
    unfold Describe
    rw [he.1]
  refine ⟨?_, ?_, ?_, ?_⟩
  · rw [hd]
    exact map_snd_eq_filterMap_lookup env.metrics hkeys
  · intro key desc hk
    rw [hd]
    exact List.mem_map.mpr ⟨_, mem_of_lookup_eq_some env.metrics key desc hk, rfl⟩
  · rw [hd]
    simp
  · intro net after scrape hc m hm
    rw [hd]
    unfold Collect at hc
    rw [if_neg (by simp [he.2])] at hc
    have hs := (Prod.mk.inj (Option.some.inj hc)).2
    rw [← hs] at hm
    cases hn : net e.URL with
    | requestError => simp [hn] at hm
    | doError => simp [hn] at hm
    | response lines =>
      simp only [hn] at hm
      exact desc_of_scanLoop env lines [] (by simp) m hm

/-- The exporter of the sample registry describes its five descriptors, and
the sample of a scrape carries one of them. -/
theorem Describe_enumerates_registry_witness :
    Describe sampleExporter =
      [newDesc "myapp_counter" "count" ["producer", "app"],
       newDesc "abc" "three labels" ["a", "b", "c"], newDesc "single" "one label" ["a"],
       newDesc "fetch_bytes" "bytes" ["owner"], newDesc "plain" "no label" []] ∧
    ∀ m ∈ [gauge (newDesc "plain" "no label" []) 7 0 []], m.desc ∈ Describe sampleExporter :=
  ⟨rfl,
   (Describe_enumerates_registry sampleEnv sampleUrlParse (str "http://localhost:8082/metrics")
      sampleExporter rfl (by decide)).2.2.2
      (fun _ => Upstream.response [str "2//foo plain{} 7"]) sampleExporter _ rfl⟩

/-! ## Items that are not pairs, values that are not escaped -/

theorem length_Split (sep : Nat) :
    ∀ (s : GoString), (Split s sep).length = List.count sep s + 1 := by
  intro s
  induction s with
  | nil => simp [Split]
  | cons c cs ih =>
    by_cases hc : c = sep
    · subst hc
      simp [Split, ih]
    · obtain ⟨piece, pieces, h1, h2⟩ := Split_cons_ne c cs sep hc
      rw [h2, List.count_cons_of_ne (fun e => hc e.symm), ← ih, h1]
      simp

theorem Join_Split (sep : Nat) : ∀ (s : GoString), Join (Split s sep) sep = s := by
  intro s
  induction s with
  | nil => simp [Split, Join]
  | cons c cs ih =>
    by_cases hc : c = sep
    · subst hc
      rw [Split, if_pos rfl]
      cases hs : Split cs c with
      | nil => exact absurd hs (Split_ne_nil cs c)
      | cons piece pieces =>
        rw [hs] at ih
        rw [Join, ih]
        rfl
    · obtain ⟨piece, pieces, h1, h2⟩ := Split_cons_ne c cs sep hc
      rw [h2]
      rw [h1] at ih
      cases pieces with
      | nil =>
        rw [Join] at ih ⊢
        rw [ih]
      | cons next more =>
        rw [Join] at ih ⊢
        rw [← ih]
        rfl

theorem asPair_eq_none_iff (item : GoString) : asPair item = none ↔ List.count 61 item ≠ 1 := by
  have hlen := length_Split 61 item
  unfold asPair
  rcases hs : Split item 61 with _ | ⟨a, _ | ⟨b, _ | ⟨c, t⟩⟩⟩
  · exact absurd hs (Split_ne_nil item 61)
  · rw [hs] at hlen
    simp at hlen
    simp [hlen]
  · rw [hs] at hlen
    simp at hlen
    simp [hlen]
  · rw [hs] at hlen
    simp only [List.length_cons] at hlen
    simp
    omega

theorem eq_of_asPair (item key raw : GoString) (hp : asPair item = some (key, raw)) :
    item = key ++ 61 :: raw ∧ 61 ∉ key := by
  unfold asPair at hp
  rcases hs : Split item 61 with _ | ⟨a, _ | ⟨b, _ | ⟨c, t⟩⟩⟩
  · rw [hs] at hp; cases hp
  · rw [hs] at hp; cases hp
  · rw [hs] at hp
    have hkv : a = key ∧ b = raw := by simpa using hp
    have hj := Join_Split 61 item
    rw [hs] at hj
    have hmem := not_mem_of_mem_Split 61 item a (by rw [hs]; simp)
    rw [← hkv.1, ← hkv.2]
    exact ⟨by rw [← hj]; rfl, hmem⟩
  · rw [hs] at hp; cases hp

theorem asPair_key_only (key : GoString) (hk : 61 ∉ key) :
    asPair (key ++ [61]) = some (key, []) := by
  unfold asPair
  rw [Split_append_sep 61 [] key hk]
  rfl

/-- The loop sees the items themselves on a label-list joined from items free
of commas; the empty label-list has one empty item, which is skipped. -/
theorem foldl_labelStep_Split_Join (labelsList labelValues : List GoString)
    (items : List GoString) (hfree : ∀ x ∈ items, 44 ∉ x) :
    (Split (Join items 44) 44).foldl (labelStep labelsList) labelValues
      = items.foldl (labelStep labelsList) labelValues := by
  cases items with
  | nil =>
    have : labelStep labelsList labelValues [] = labelValues :=
      labelStep_of_not_pair _ _ _ rfl
    simp [Join, Split, this]
  | cons item rest => rw [Split_Join 44 (item :: rest) (by simp) hfree]

theorem buildLabelValues_Join (entry : Option (List GoString)) (items : List GoString)
    (hfree : ∀ x ∈ items, 44 ∉ x) :
    buildLabelValues entry (Join items 44)
      = match entry with
        | some labelsList =>
          items.foldl (labelStep labelsList) (List.replicate labelsList.length [])
        | none => [] := by
  cases entry with
  | none => rfl
  | some labelsList =>
    unfold buildLabelValues
    simp only
    exact foldl_labelStep_Split_Join labelsList _ items hfree

theorem parseWarp10_congr_labels {F : Type} (env : Env F)
    (line line2 m0 m1 n0 n1 m2 m3 n3 m4 : GoString)
    (h : FindStringSubmatch line = [m0, m1, m2, m3, m4])
    (h2 : FindStringSubmatch line2 = [n0, n1, m2, n3, m4])
    (hb : buildLabelValues (env.labels.lookup (canonicalKey m2)) n3
      = buildLabelValues (env.labels.lookup (canonicalKey m2)) m3) :
    parseWarp10 env line2 = parseWarp10 env line := by
  unfold parseWarp10
  rw [h, h2]
  simp only [hb]

/-- C19: a pair with a declared key whose raw value does not unescape sets the
position of its key to the empty string, whatever an earlier pair stored there;
the loop goes on, and the line gives the same result as the line in which the
pair has an empty value: the sample, when one is emitted, holds the empty string
at that position unless a later pair has the same key. -/
theorem invalid_escape_stores_empty {F : Type} (env : Env F)
    (line line2 m0 m1 n0 n1 m2 m3 m4 : GoString) (labelsList before after : List GoString)
    (item key raw : GoString) (pos : Nat)
    (h : FindStringSubmatch line = [m0, m1, m2, m3, m4])
    (hL : env.labels.lookup (canonicalKey m2) = some labelsList)
    (hs : Split m3 44 = before ++ item :: after) (hp : asPair item = some (key, raw))
    (hi : labelIndexOf labelsList key = some pos) (hbad : QueryUnescape raw = none)
    (h2 : FindStringSubmatch line2
      = [n0, n1, m2, Join (before ++ (key ++ [61]) :: after) 44, m4]) :
    (∀ labelValues : List GoString,
      labelStep labelsList labelValues item = labelValues.set pos []) ∧
    parseWarp10 env line2 = parseWarp10 env line ∧
    (∀ m, parseWarp10 env line = Except.ok [m] → (∀ it ∈ after, NotKey key it) →
      m.labelValues[pos]? = some []) := by
  have hstored : storedValue raw = [] := by simp [storedValue, hbad]
  obtain ⟨hitem, hkey⟩ := eq_of_asPair item key raw hp
  have hp2 : asPair (key ++ [61]) = some (key, []) := asPair_key_only key hkey
  have hstep : ∀ labelValues : List GoString,
      labelStep labelsList labelValues item = labelValues.set pos [] := by
    intro labelValues
    rw [labelStep_of_declared _ _ _ _ _ _ hp hi, hstored]
  have hstep2 : ∀ labelValues : List GoString,
      labelStep labelsList labelValues (key ++ [61]) = labelValues.set pos [] := by
    intro labelValues
    rw [labelStep_of_declared _ _ _ _ _ _ hp2 hi]
    rfl
  refine ⟨hstep, ?_, ?_⟩
  · apply parseWarp10_congr_labels env line line2 m0 m1 n0 n1 m2 m3 _ m4 h h2
    have hitemfree : 44 ∉ item :=
      not_mem_of_mem_Split 44 m3 item (by rw [hs]; simp)
    have hfree : ∀ x ∈ before ++ (key ++ [61]) :: after, 44 ∉ x := by
      intro x hx
      rcases List.mem_append.mp hx with hx | hx
      · exact not_mem_of_mem_Split 44 m3 x (by rw [hs]; exact List.mem_append_left _ hx)
      · rcases List.mem_cons.mp hx with rfl | hx
        · intro hmem
          apply hitemfree
          rw [hitem]
          rcases List.mem_append.mp hmem with hm | hm
          · exact List.mem_append_left _ hm
          · simp at hm
        · exact not_mem_of_mem_Split 44 m3 x
            (by rw [hs]; exact List.mem_append_right _ (List.mem_cons_of_mem _ hx))
    rw [buildLabelValues_Join _ _ hfree, hL]
    unfold buildLabelValues
    simp only
    rw [hs, List.foldl_append, List.foldl_append, List.foldl_cons, List.foldl_cons,
      hstep, hstep2]
  · intro m hm hafter
    have := last_value_of_key env line m0 m1 m2 m3 m4 m labelsList before after item key raw
      pos h hm hL hs hp hi hafter
    rw [hstored] at this
    exact this

/-- The raw values `%zz` and `50%` do not unescape: the value of the earlier
pair `a=1` is replaced by the empty string and the sample is emitted, as on the
line with the pair `a=`. -/
theorem invalid_escape_stores_empty_witness :
    QueryUnescape (str "%zz") = none ∧ QueryUnescape (str "50%") = none ∧
    parseWarp10 sampleEnv (str "5/x/y single{a=1,a=%zz} 9")
      = Except.ok [gauge (newDesc "single" "one label" ["a"]) 9 0 [""]] ∧
    parseWarp10 sampleEnv (str "5/x/y single{a=1,a=} 9")
      = parseWarp10 sampleEnv (str "5/x/y single{a=1,a=%zz} 9") ∧
    (gauge (newDesc "single" "one label" ["a"]) 9 0 [""]).labelValues[0]? = some [] :=
  ⟨rfl, rfl, rfl,
   (invalid_escape_stores_empty sampleEnv (str "5/x/y single{a=1,a=%zz} 9")
      (str "5/x/y single{a=1,a=} 9") _ (str "5") _ (str "5") (str "single") (str "a=1,a=%zz")
      (str "9") [str "a"] [str "a=1"] [] (str "a=%zz") (str "a") (str "%zz") 0
      rfl rfl rfl rfl rfl rfl rfl).2.1,
   (invalid_escape_stores_empty sampleEnv (str "5/x/y single{a=1,a=%zz} 9")
      (str "5/x/y single{a=1,a=} 9") _ (str "5") _ (str "5") (str "single") (str "a=1,a=%zz")
      (str "9") [str "a"] [str "a=1"] [] (str "a=%zz") (str "a") (str "%zz") 0
      rfl rfl rfl rfl rfl rfl rfl).2.2 _ rfl (by simp)⟩

/-! ## Which match the matcher finds -/

theorem greedy_eq_none {R : Type} (p : Nat → Bool) (k : GoString → GoString → Option R)
    (s acc : GoString) (h : greedy p k acc s = none) (seg rest : GoString)
    (hs : s = seg ++ rest) (hall : ∀ x ∈ seg, p x = true) : k (acc ++ seg) rest = none := by
  cases hk : k (acc ++ seg) rest with
  | none => rfl
  | some r =>
    have := greedy_complete p k seg acc rest hall (by simp [hk])
    rw [← hs, h] at this
    cases this

/-- The greedy loop stops at the longest run on which the continuation
succeeds. -/
theorem greedy_max {R : Type} (p : Nat → Bool) (k : GoString → GoString → Option R) :
    ∀ (s acc : GoString) (r : R), greedy p k acc s = some r →
      ∃ seg rest, s = seg ++ rest ∧ (∀ x ∈ seg, p x = true) ∧ k (acc ++ seg) rest = some r ∧
        ∀ seg2 rest2, s = seg2 ++ rest2 → (∀ x ∈ seg2, p x = true) →
          seg.length < seg2.length → k (acc ++ seg2) rest2 = none := by
  intro s
  induction s with
  | nil =>
    intro acc r h
    refine ⟨[], [], rfl, by simp, by simpa [greedy] using h, ?_⟩
    intro seg2 rest2 hs _ hlt
    have : seg2 = [] := (List.append_eq_nil.mp hs.symm).1
    simp [this] at hlt
  | cons c cs ih =>
    intro acc r h
    by_cases hp : p c = true
    · cases hg : greedy p k (acc ++ [c]) cs with
      | some r1 =>
        have hr : r1 = r := by simpa [greedy, hp, hg, Option.orElse] using h
        obtain ⟨seg, rest, hs, hall, hk, hmax⟩ := ih (acc ++ [c]) r1 hg
        refine ⟨c :: seg, rest, by simp [hs], ?_, by simpa [hr] using hk, ?_⟩
        · intro x hx
          rcases List.mem_cons.mp hx with rfl | hx
          · exact hp
          · exact hall x hx
        · intro seg2 rest2 hs2 hall2 hlt
          cases seg2 with
          | nil => simp at hlt
          | cons d seg3 =>
            have hinj := List.cons.inj hs2
            have := hmax seg3 rest2 hinj.2 (fun x hx => hall2 x (List.mem_cons_of_mem d hx))
              (by simpa using hlt)
            rw [← hinj.1]
            simpa using this
      | none =>
        have hk : k acc (c :: cs) = some r := by
          simpa [greedy, hp, hg, Option.orElse] using h
        refine ⟨[], c :: cs, rfl, by simp, by simpa using hk, ?_⟩
        intro seg2 rest2 hs2 hall2 hlt
        cases seg2 with
        | nil => simp at hlt
        | cons d seg3 =>
          have hinj := List.cons.inj hs2
          have := greedy_eq_none p k cs (acc ++ [c]) hg seg3 rest2 hinj.2
            (fun x hx => hall2 x (List.mem_cons_of_mem d hx))
          rw [← hinj.1]
          simpa using this
    · have hk : k acc (c :: cs) = some r := by simpa [greedy, hp] using h
      refine ⟨[], c :: cs, rfl, by simp, by simpa using hk, ?_⟩
      intro seg2 rest2 hs2 hall2 hlt
      cases seg2 with
      | nil => simp at hlt
      | cons d seg3 =>
        have hinj := List.cons.inj hs2
        exact absurd (hinj.1 ▸ hall2 d (List.mem_cons_self d seg3)) hp

/-- The greedy loop gives the result of the continuation on the longest run on
which the continuation succeeds. -/
theorem greedy_of_max {R : Type} (p : Nat → Bool) (k : GoString → GoString → Option R)
    (acc seg rest : GoString) (r : R) (hall : ∀ x ∈ seg, p x = true)
    (hk : k (acc ++ seg) rest = some r)
    (hmax : ∀ seg2 rest2, seg ++ rest = seg2 ++ rest2 → (∀ x ∈ seg2, p x = true) →
      seg.length < seg2.length → k (acc ++ seg2) rest2 = none) :
    greedy p k acc (seg ++ rest) = some r := by
  have hsome := greedy_complete p k seg acc rest hall (by simp [hk])
  obtain ⟨r1, hr1⟩ := Option.isSome_iff_exists.mp hsome
  obtain ⟨seg1, rest1, hs1, hall1, hk1, hmax1⟩ := greedy_max p k _ acc r1 hr1
  rcases Nat.lt_trichotomy seg.length seg1.length with hlt | heq | hgt
  · rw [hmax seg1 rest1 hs1 hall1 hlt] at hk1
    cases hk1
  · obtain ⟨e1, e2⟩ := List.append_inj hs1 heq
    rw [hr1, ← hk1, ← e1, ← e2, hk]
  · rw [hmax1 seg rest rfl hall hgt] at hk
    cases hk

theorem run_nil_iff (s : GoString) (segs : List GoString) :
    run [] s = some segs ↔ s = [] ∧ segs = [] := by
  by_cases hs : s = []
  · subst hs
    simp [run, eq_comm]
  · simp [run, hs]

theorem run_byte_iff (c : Nat) (atoms : List Atom) (s : GoString) (segs : List GoString) :
    run (Atom.byte c :: atoms) s = some segs ↔
      ∃ rest tl, segs = [c] :: tl ∧ s = c :: rest ∧ run atoms rest = some tl := by
  constructor
  · intro h
    cases s with
    | nil => simp [run] at h
    | cons x xs =>
      by_cases hx : x = c
      · subst hx
        cases hr : run atoms xs with
        | none => simp [run, hr] at h
        | some tl =>
          have : segs = [x] :: tl := by simpa [run, hr] using h.symm
          exact ⟨xs, tl, this, rfl, hr⟩
      · simp [run, hx] at h
  · rintro ⟨rest, tl, h1, h2, h3⟩
    subst h1 h2
    simp [run, h3]

theorem run_one_iff (p : Nat → Bool) (atoms : List Atom) (s : GoString)
    (segs : List GoString) :
    run (Atom.one p :: atoms) s = some segs ↔
      ∃ x rest tl, segs = [x] :: tl ∧ s = x :: rest ∧ p x = true ∧ run atoms rest = some tl := by
  constructor
  · intro h
    cases s with
    | nil => simp [run] at h
    | cons x xs =>
      by_cases hx : p x = true
      · cases hr : run atoms xs with
        | none => simp [run, hr, hx] at h
        | some tl =>
          have : segs = [x] :: tl := by simpa [run, hr, hx] using h.symm
          exact ⟨x, xs, tl, this, rfl, hx, hr⟩
      · simp [run, hx] at h
  · rintro ⟨x, rest, tl, h1, h2, h3, h4⟩
    subst h1 h2
    simp [run, h3, h4]

theorem run_star_iff (p : Nat → Bool) (atoms : List Atom) (s : GoString)
    (segs : List GoString) :
    run (Atom.star p :: atoms) s = some segs ↔
      ∃ seg rest tl, segs = seg :: tl ∧ s = seg ++ rest ∧ (∀ x ∈ seg, p x = true) ∧
        run atoms rest = some tl ∧
        ∀ seg2 rest2, s = seg2 ++ rest2 → (∀ x ∈ seg2, p x = true) →
          seg.length < seg2.length → run atoms rest2 = none := by
  constructor
  · intro h
    have hg : greedy p (fun seg rest => (run atoms rest).map fun segs => seg :: segs) [] s
        = some segs := by simpa [run] using h
    obtain ⟨seg, rest, hs, hall, hk, hmax⟩ := greedy_max p _ s [] segs hg
    cases hr : run atoms rest with
    | none => simp [hr] at hk
    | some tl =>
      have hsegs : segs = seg :: tl := by simpa [hr] using hk.symm
      refine ⟨seg, rest, tl, hsegs, hs, hall, hr, ?_⟩
      intro seg2 rest2 hs2 hall2 hlt
      have := hmax seg2 rest2 hs2 hall2 hlt
      simpa using this
  · rintro ⟨seg, rest, tl, h1, h2, hall, hr, hmax⟩
    subst h1 h2
    have := greedy_of_max p (fun seg rest => (run atoms rest).map fun segs => seg :: segs)
      [] seg rest (seg :: tl) hall (by simp [hr])
      (fun seg2 rest2 hs2 hall2 hlt => by simp [hmax seg2 rest2 hs2 hall2 hlt])
    simpa [run] using this

theorem run_plus_iff (p : Nat → Bool) (atoms : List Atom) (s : GoString)
    (segs : List GoString) :
    run (Atom.plus p :: atoms) s = some segs ↔
      ∃ seg rest tl, segs = seg :: tl ∧ s = seg ++ rest ∧ seg ≠ [] ∧
        (∀ x ∈ seg, p x = true) ∧ run atoms rest = some tl ∧
        ∀ seg2 rest2, s = seg2 ++ rest2 → (∀ x ∈ seg2, p x = true) →
          seg.length < seg2.length → run atoms rest2 = none := by
  constructor
  · intro h
    cases s with
    | nil => simp [run] at h
    | cons x xs =>
      by_cases hx : p x = true
      · have hg : greedy p (fun seg rest => (run atoms rest).map fun segs => seg :: segs)
            [x] xs = some segs := by simpa [run, hx] using h
        obtain ⟨seg, rest, hs, hall, hk, hmax⟩ := greedy_max p _ xs [x] segs hg
        cases hr : run atoms rest with
        | none => simp [hr] at hk
        | some tl =>
          have hsegs : segs = (x :: seg) :: tl := by simpa [hr] using hk.symm
          refine ⟨x :: seg, rest, tl, hsegs, by simp [hs], by simp, ?_, hr, ?_⟩
          · intro y hy
            rcases List.mem_cons.mp hy with rfl | hy
            · exact hx
            · exact hall y hy
          · intro seg2 rest2 hs2 hall2 hlt
            cases seg2 with
            | nil => simp at hlt
            | cons d seg3 =>
              have hinj := List.cons.inj hs2
              have := hmax seg3 rest2 hinj.2
                (fun y hy => hall2 y (List.mem_cons_of_mem d hy)) (by simpa using hlt)
              simpa using this
      · simp [run, hx] at h
  · rintro ⟨seg, rest, tl, h1, h2, hne, hall, hr, hmax⟩
    subst h1 h2
    cases seg with
    | nil => exact absurd rfl hne
    | cons x seg1 =>
      have hx : p x = true := hall x (List.mem_cons_self x seg1)
      have := greedy_of_max p (fun seg rest => (run atoms rest).map fun segs => seg :: segs)
        [x] seg1 rest ((x :: seg1) :: tl) (fun y hy => hall y (List.mem_cons_of_mem x hy))
        (by simp [hr])
        (fun seg2 rest2 hs2 hall2 hlt => by
          have := hmax (x :: seg2) rest2 (by simp [hs2])
            (fun y hy => by
              rcases List.mem_cons.mp hy with rfl | hy
              · exact hx
              · exact hall2 y hy)
            (by simpa using hlt)
          simp [this])
      simpa [run, hx] using this

theorem mem_of_append_eq_of_lt (seg rest seg2 rest2 : GoString) (c : Nat)
    (h : seg ++ c :: rest = seg2 ++ rest2) (hlt : seg.length < seg2.length) : c ∈ seg2 := by
  rcases List.append_eq_append_iff.mp h with ⟨a1, h1, h2⟩ | ⟨c1, h1, _⟩
  · cases a1 with
    | nil => simp [h1] at hlt
    | cons d a2 =>
      have := (List.cons.inj h2).1
      rw [h1, this]
      simp
  · rw [h1] at hlt
    simp at hlt

theorem run_star_byte_iff (p : Nat → Bool) (c : Nat) (hc : p c = false) (atoms : List Atom)
    (s : GoString) (segs : List GoString) :
    run (Atom.star p :: Atom.byte c :: atoms) s = some segs ↔
      ∃ seg rest tl, segs = seg :: [c] :: tl ∧ s = seg ++ c :: rest ∧
        (∀ x ∈ seg, p x = true) ∧ run atoms rest = some tl := by
  rw [run_star_iff]
  constructor
  · rintro ⟨seg, rest, tl, h1, h2, hall, hr, _⟩
    obtain ⟨rest1, tl1, e1, e2, e3⟩ := (run_byte_iff c atoms rest tl).mp hr
    subst e1 e2
    exact ⟨seg, rest1, tl1, h1, h2, hall, e3⟩
  · rintro ⟨seg, rest, tl, h1, h2, hall, hr⟩
    refine ⟨seg, c :: rest, [c] :: tl, h1, h2, hall,
      (run_byte_iff c atoms _ _).mpr ⟨rest, tl, rfl, rfl, hr⟩, ?_⟩
    intro seg2 rest2 hs2 hall2 hlt
    have hmem := mem_of_append_eq_of_lt seg rest seg2 rest2 c (h2 ▸ hs2) hlt
    rw [hall2 c hmem] at hc
    cases hc

theorem run_plus_byte_iff (p : Nat → Bool) (c : Nat) (hc : p c = false) (atoms : List Atom)
    (s : GoString) (segs : List GoString) :
    run (Atom.plus p :: Atom.byte c :: atoms) s = some segs ↔
      ∃ seg rest tl, segs = seg :: [c] :: tl ∧ s = seg ++ c :: rest ∧ seg ≠ [] ∧
        (∀ x ∈ seg, p x = true) ∧ run atoms rest = some tl := by
  rw [run_plus_iff]
  constructor
  · rintro ⟨seg, rest, tl, h1, h2, hne, hall, hr, _⟩
    obtain ⟨rest1, tl1, e1, e2, e3⟩ := (run_byte_iff c atoms rest tl).mp hr
    subst e1 e2
    exact ⟨seg, rest1, tl1, h1, h2, hne, hall, e3⟩
  · rintro ⟨seg, rest, tl, h1, h2, hne, hall, hr⟩
    refine ⟨seg, c :: rest, [c] :: tl, h1, h2, hne, hall,
      (run_byte_iff c atoms _ _).mpr ⟨rest, tl, rfl, rfl, hr⟩, ?_⟩
    intro seg2 rest2 hs2 hall2 hlt
    have hmem := mem_of_append_eq_of_lt seg rest seg2 rest2 c (h2 ▸ hs2) hlt
    rw [hall2 c hmem] at hc
    cases hc

theorem run_star_end_iff (p : Nat → Bool) (s : GoString) (segs : List GoString) :
    run [Atom.star p] s = some segs ↔ segs = [s] ∧ ∀ x ∈ s, p x = true := by
  rw [run_star_iff]
  constructor
  · rintro ⟨seg, rest, tl, h1, h2, hall, hr, _⟩
    obtain ⟨e1, e2⟩ := (run_nil_iff rest tl).mp hr
    subst e1 e2
    simp only [List.append_nil] at h2
    subst h2
    exact ⟨h1, hall⟩
  · rintro ⟨h1, hall⟩
    refine ⟨s, [], [], h1, by simp, hall, (run_nil_iff [] []).mpr ⟨rfl, rfl⟩, ?_⟩
    intro seg2 rest2 hs2 _ hlt
    have : seg2.length ≤ s.length := by
      rw [hs2]
      simp
    omega

theorem run_eq_none_iff (atoms : List Atom) (s : GoString) :
    run atoms s = none ↔ ¬ Matches atoms s := by
  constructor
  · intro h hm
    obtain ⟨segs, hf, hj⟩ := hm
    have := run_complete atoms segs hf
    rw [hj, h] at this
    cases this
  · intro h
    cases hr : run atoms s with
    | none => rfl
    | some segs => exact absurd ⟨segs, run_sound atoms s segs hr⟩ h

theorem run_classOn_iff (r : GoString) (t : List GoString) :
    run classOn r = some t ↔
      ∃ g2 g3 w g4, t = [g2, [123], g3, [125], [w], g4] ∧
        r = g2 ++ 123 :: (g3 ++ 125 :: w :: g4) ∧
        (g2 ≠ [] ∧ ∀ x ∈ g2, notLBrace x = true) ∧ (∀ x ∈ g3, notRBrace x = true) ∧
        isBlank w = true ∧ ∀ x ∈ g4, notNewline x = true := by
  unfold classOn
  rw [run_plus_byte_iff notLBrace 123 (by decide)]
  constructor
  · rintro ⟨g2, r1, t1, e1, e2, hne, h2, hr1⟩
    obtain ⟨g3, r2, t2, e3, e4, h3, hr2⟩ :=
      (run_star_byte_iff notRBrace 125 (by decide) _ _ _).mp hr1
    obtain ⟨w, r3, t3, e5, e6, hw, hr3⟩ := (run_one_iff isBlank _ _ _).mp hr2
    obtain ⟨e7, h4⟩ := (run_star_end_iff notNewline _ _).mp hr3
    subst e1 e2 e3 e4 e5 e6 e7
    exact ⟨g2, g3, w, r3, rfl, rfl, ⟨hne, h2⟩, h3, hw, h4⟩
  · rintro ⟨g2, g3, w, g4, e1, e2, ⟨hne, h2⟩, h3, hw, h4⟩
    subst e1 e2
    refine ⟨g2, g3 ++ 125 :: w :: g4, [g3, [125], [w], g4], rfl, rfl, hne, h2, ?_⟩
    refine (run_star_byte_iff notRBrace 125 (by decide) _ _ _).mpr
      ⟨g3, w :: g4, [[w], g4], rfl, rfl, h3, ?_⟩
    exact (run_one_iff isBlank _ _ _).mpr
      ⟨w, g4, [g4], rfl, rfl, hw, (run_star_end_iff notNewline _ _).mpr ⟨rfl, h4⟩⟩

theorem run_classOn_eq_none_iff (r : GoString) : run classOn r = none ↔ ¬ ClassOn r := by
  constructor
  · rintro h ⟨g2, g3, w, g4, e, h2, h3, hw, h4⟩
    have := (run_classOn_iff r _).mpr ⟨g2, g3, w, g4, rfl, e, h2, h3, hw, h4⟩
    rw [h] at this
    cases this
  · intro h
    cases hr : run classOn r with
    | none => rfl
    | some t =>
      obtain ⟨g2, g3, w, g4, _, e, h2, h3, hw, h4⟩ := (run_classOn_iff r t).mp hr
      exact absurd ⟨g2, g3, w, g4, e, h2, h3, hw, h4⟩ h

theorem run_blanksOn_eq_none_iff (r : GoString) : run blanksOn r = none ↔ ¬ BlanksOn r := by
  constructor
  · rintro h ⟨ws, r2, e, ⟨hne, hws⟩, hc⟩
    have hm : Matches blanksOn r := by
      cases hr : run classOn r2 with
      | none => exact absurd hc ((run_classOn_eq_none_iff r2).mp hr)
      | some t =>
        obtain ⟨hf, hj⟩ := run_sound classOn r2 t hr
        exact ⟨ws :: t, List.Forall₂.cons ⟨hne, hws⟩ hf, by simp [hj, e]⟩
    exact (run_eq_none_iff blanksOn r).mp h hm
  · intro h
    cases hr : run blanksOn r with
    | none => rfl
    | some t =>
      unfold blanksOn at hr
      obtain ⟨ws, r2, tl, _, e, hne, hws, hr2, _⟩ := (run_plus_iff isBlank classOn r t).mp hr
      have hc : ClassOn r2 := by
        by_contra hn
        rw [(run_classOn_eq_none_iff r2).mpr hn] at hr2
        cases hr2
      exact absurd ⟨ws, r2, e, ⟨hne, hws⟩, hc⟩ h

/-- The match the matcher finds on a line: the pieces are laid out as the
pattern says, the third field is the longest without `/` after which the rest
still matches, and the blanks before the class name are the longest after
which the rest still matches. -/
theorem run_matcherWarp10_iff (line : GoString) (segs : List GoString) :
    run matcherWarp10 line = some segs ↔
      ∃ g1 a b ws g2 g3 w g4,
        segs = [g1, [47], a, [47], b, ws, g2, [123], g3, [125], [w], g4] ∧
        line = g1 ++ 47 :: (a ++ 47 :: (b ++ (ws ++ (g2 ++ 123 :: (g3 ++ 125 :: w :: g4))))) ∧
        (g1 ≠ [] ∧ ∀ x ∈ g1, isDigit x = true) ∧ (∀ x ∈ a, notSlash x = true) ∧
        (∀ x ∈ b, notSlash x = true) ∧ (ws ≠ [] ∧ ∀ x ∈ ws, isBlank x = true) ∧
        (g2 ≠ [] ∧ ∀ x ∈ g2, notLBrace x = true) ∧ (∀ x ∈ g3, notRBrace x = true) ∧
        isBlank w = true ∧ (∀ x ∈ g4, notNewline x = true) ∧
        (∀ b2 r2, b ++ (ws ++ (g2 ++ 123 :: (g3 ++ 125 :: w :: g4))) = b2 ++ r2 →
          (∀ x ∈ b2, notSlash x = true) → b.length < b2.length → ¬ BlanksOn r2) ∧
        (∀ ws2 r2, ws ++ (g2 ++ 123 :: (g3 ++ 125 :: w :: g4)) = ws2 ++ r2 →
          (∀ x ∈ ws2, isBlank x = true) → ws.length < ws2.length → ¬ ClassOn r2) := by
  have hM : matcherWarp10 = Atom.plus isDigit :: Atom.byte 47 :: Atom.star notSlash ::
      Atom.byte 47 :: Atom.star notSlash :: Atom.plus isBlank :: classOn := rfl
  rw [hM, run_plus_byte_iff isDigit 47 (by decide)]
  constructor
  · rintro ⟨g1, r1, t1, e1, e2, hne1, h1, hr1⟩
    obtain ⟨a, r2, t2, e3, e4, ha, hr2⟩ :=
      (run_star_byte_iff notSlash 47 (by decide) _ _ _).mp hr1
    obtain ⟨b, r3, t3, e5, e6, hb, hr3, hmaxb⟩ := (run_star_iff notSlash _ r2 t2).mp hr2
    obtain ⟨ws, r4, t4, e7, e8, hnews, hws, hr4, hmaxws⟩ :=
      (run_plus_iff isBlank classOn r3 t3).mp hr3
    obtain ⟨g2, g3, w, g4, e9, e10, h2, h3, hw, h4⟩ := (run_classOn_iff r4 t4).mp hr4
    subst e1 e2 e3 e4 e5 e6 e7 e8 e9 e10
    refine ⟨g1, a, b, ws, g2, g3, w, g4, rfl, rfl, ⟨hne1, h1⟩, ha, hb, ⟨hnews, hws⟩, h2, h3,
      hw, h4, ?_, ?_⟩
    · intro b2 r2 hs2 hall2 hlt
      exact (run_blanksOn_eq_none_iff r2).mp (hmaxb b2 r2 hs2 hall2 hlt)
    · intro ws2 r2 hs2 hall2 hlt
      exact (run_classOn_eq_none_iff r2).mp (hmaxws ws2 r2 hs2 hall2 hlt)
  · rintro ⟨g1, a, b, ws, g2, g3, w, g4, e1, e2, ⟨hne1, h1⟩, ha, hb, ⟨hnews, hws⟩, h2, h3,
      hw, h4, hmaxb, hmaxws⟩
    subst e1 e2
    refine ⟨g1, _, _, rfl, rfl, hne1, h1, ?_⟩
    refine (run_star_byte_iff notSlash 47 (by decide) _ _ _).mpr ⟨a, _, _, rfl, rfl, ha, ?_⟩
    refine (run_star_iff notSlash _ _ _).mpr ⟨b, _, _, rfl, rfl, hb, ?_, ?_⟩
    · refine (run_plus_iff isBlank classOn _ _).mpr ⟨ws, _, _, rfl, rfl, hnews, hws, ?_, ?_⟩
      · exact (run_classOn_iff _ _).mpr ⟨g2, g3, w, g4, rfl, rfl, h2, h3, hw, h4⟩
      · intro ws2 r2 hs2 hall2 hlt
        exact (run_classOn_eq_none_iff r2).mpr (hmaxws ws2 r2 hs2 hall2 hlt)
    · intro b2 r2 hs2 hall2 hlt
      exact (run_blanksOn_eq_none_iff r2).mpr (hmaxb b2 r2 hs2 hall2 hlt)

/-- The groups `FindStringSubmatch` returns for a line. -/
theorem FindStringSubmatch_eq_iff (line g1 g2 g3 g4 : GoString) :
    FindStringSubmatch line = [line, g1, g2, g3, g4] ↔
      ∃ a b ws w,
        line = g1 ++ 47 :: (a ++ 47 :: (b ++ (ws ++ (g2 ++ 123 :: (g3 ++ 125 :: w :: g4))))) ∧
        (g1 ≠ [] ∧ ∀ x ∈ g1, isDigit x = true) ∧ (∀ x ∈ a, notSlash x = true) ∧
        (∀ x ∈ b, notSlash x = true) ∧ (ws ≠ [] ∧ ∀ x ∈ ws, isBlank x = true) ∧
        (g2 ≠ [] ∧ ∀ x ∈ g2, notLBrace x = true) ∧ (∀ x ∈ g3, notRBrace x = true) ∧
        isBlank w = true ∧ (∀ x ∈ g4, notNewline x = true) ∧
        (∀ b2 r2, b ++ (ws ++ (g2 ++ 123 :: (g3 ++ 125 :: w :: g4))) = b2 ++ r2 →
          (∀ x ∈ b2, notSlash x = true) → b.length < b2.length → ¬ BlanksOn r2) ∧
        (∀ ws2 r2, ws ++ (g2 ++ 123 :: (g3 ++ 125 :: w :: g4)) = ws2 ++ r2 →
          (∀ x ∈ ws2, isBlank x = true) → ws.length < ws2.length → ¬ ClassOn r2) := by
  constructor
  · intro h
    cases hr : run matcherWarp10 line with
    | none => simp [FindStringSubmatch, hr] at h
    | some segs =>
      obtain ⟨k1, a, b, ws, k2, k3, w, k4, e, rest⟩ := (run_matcherWarp10_iff line segs).mp hr
      subst e
      simp only [FindStringSubmatch, hr, List.cons.injEq, and_true, true_and] at h
      obtain ⟨e1, e2, e3, e4⟩ := h
      subst e1 e2 e3 e4
      exact ⟨a, b, ws, w, rest⟩
  · rintro ⟨a, b, ws, w, rest⟩
    have hr := (run_matcherWarp10_iff line
      [g1, [47], a, [47], b, ws, g2, [123], g3, [125], [w], g4]).mpr
      ⟨g1, a, b, ws, g2, g3, w, g4, rfl, rest⟩
    simp [FindStringSubmatch, hr]

theorem ClassOn_mem_lbrace (r : GoString) (h : ClassOn r) : 123 ∈ r := by
  obtain ⟨g2, g3, w, g4, e, _⟩ := h
  rw [e]
  simp

theorem BlanksOn_head (r : GoString) (h : BlanksOn r) :
    ∃ x rest, r = x :: rest ∧ isBlank x = true ∧ 123 ∈ rest := by
  obtain ⟨ws, r2, e, ⟨hne, hws⟩, hc⟩ := h
  cases ws with
  | nil => exact absurd rfl hne
  | cons x ws1 =>
    refine ⟨x, ws1 ++ r2, by simp [e], hws x (List.mem_cons_self x ws1), ?_⟩
    exact List.mem_append_right _ (ClassOn_mem_lbrace r2 hc)

/-- C11 does not hold as stated: in the line below the class name `c` has no
brace and no blank, the label-list `k=v` has no closing brace and the value is
`5 d{q} 7`, yet the match takes `d` for the class name, `q` for the label-list
and `7` for the value. -/
theorem value_with_braces_missplit :
    str "1/a/b c{k=v} 5 d{q} 7"
      = str "1/a/b " ++ str "c" ++ str "\x7b" ++ str "k=v" ++ str "\x7d" ++ str " "
          ++ str "5 d{q} 7" ∧
    FindStringSubmatch (str "1/a/b c{k=v} 5 d{q} 7")
      = [str "1/a/b c{k=v} 5 d{q} 7", str "1", str "d", str "q", str "7"] ∧
    FindStringSubmatch (str "1/a/b c{k=v} 5 d{q} 7")
      ≠ [str "1/a/b c{k=v} 5 d{q} 7", str "1", str "c", str "k=v", str "5 d{q} 7"] :=
  ⟨rfl, rfl, by decide⟩

/-- C11, amended: when, besides, the label-list and the value hold no `{` and
the value holds no line feed, the match splits the line into the class name,
the label-list and the value, whatever closing braces the value holds. -/
theorem value_split_of_single_brace (digits a b blanks cls labels value : GoString) (w : Nat)
    (hd : digits ≠ [] ∧ ∀ x ∈ digits, isDigit x = true)
    (ha : ∀ x ∈ a, notSlash x = true) (hb : ∀ x ∈ b, notSlash x = true)
    (hbl : blanks ≠ [] ∧ ∀ x ∈ blanks, isBlank x = true)
    (hc : cls ≠ [] ∧ ∀ x ∈ cls, notLBrace x = true ∧ isBlank x = false)
    (hl : ∀ x ∈ labels, notRBrace x = true ∧ notLBrace x = true) (hw : isBlank w = true)
    (hv : ∀ x ∈ value, notLBrace x = true ∧ notNewline x = true) :
    FindStringSubmatch
        (digits ++ 47 :: (a ++ 47 :: (b ++ (blanks ++
          (cls ++ 123 :: (labels ++ 125 :: w :: value))))))
      = [digits ++ 47 :: (a ++ 47 :: (b ++ (blanks ++
          (cls ++ 123 :: (labels ++ 125 :: w :: value))))),
         digits, cls, labels, value] := by
  rcases List.eq_nil_or_concat blanks with hnil | ⟨init, lastb, hconcat⟩
  · exact absurd hnil hbl.1
  rw [List.concat_eq_append] at hconcat
  have hlast : isBlank lastb = true := hbl.2 lastb (by rw [hconcat]; simp)
  have hinit : ∀ x ∈ init, isBlank x = true :=
    fun x hx => hbl.2 x (by rw [hconcat]; exact List.mem_append_left _ hx)
  have hblankslash : ∀ x, isBlank x = true → notSlash x = true := by
    intro x hx
    simp [isBlank] at hx
    rcases hx with rfl | rfl <;> decide
  have hno : 123 ∉ labels ++ 125 :: w :: value := by
    intro hmem
    rcases List.mem_append.mp hmem with h1 | h1
    · have := (hl 123 h1).2
      simp [notLBrace] at this
    · rcases List.mem_cons.mp h1 with h2 | h2
      · cases h2
      · rcases List.mem_cons.mp h2 with h3 | h3
        · rw [← h3] at hw
          simp [isBlank] at hw
        · have := (hv 123 h3).1
          simp [notLBrace] at this
  apply (FindStringSubmatch_eq_iff _ digits cls labels value).mpr
  refine ⟨a, b ++ init, [lastb], w, ?_, hd, ha, ?_, ⟨by simp, by simpa using hlast⟩,
    ⟨hc.1, fun x hx => (hc.2 x hx).1⟩, fun x hx => (hl x hx).1, hw,
    fun x hx => (hv x hx).2, ?_, ?_⟩
  · rw [hconcat]
    simp
  · intro x hx
    rcases List.mem_append.mp hx with h1 | h1
    · exact hb x h1
    · exact hblankslash x (hinit x h1)
  · intro b2 r2 hs2 _ hlt hblanks
    obtain ⟨y, rest, hr2, hy, hrest⟩ := BlanksOn_head r2 hblanks
    rcases List.append_eq_append_iff.mp hs2 with ⟨a1, h1, h2⟩ | ⟨c1, h1, _⟩
    · -- `b2` is the third field, a last blank and a piece `a2` of what follows
      cases a1 with
      | nil => simp [h1] at hlt
      | cons d a2 =>
        have h3 : cls ++ 123 :: (labels ++ 125 :: w :: value) = a2 ++ r2 := by
          simpa using (List.cons.inj h2).2
        rcases List.append_eq_append_iff.mp h3 with ⟨c2, h4, h5⟩ | ⟨c2, h4, h5⟩
        · -- the rest starts after the `{`
          cases c2 with
          | nil =>
            simp only [List.nil_append] at h5
            rw [hr2] at h5
            have := (List.cons.inj h5).1
            rw [← this] at hy
            simp [isBlank] at hy
          | cons e c3 =>
            have h6 := List.cons.inj h5
            apply hno
            rw [h6.2, hr2]
            exact List.mem_append_right _ (List.mem_cons_of_mem _ hrest)
        · -- the rest starts inside the class name or at the `{`
          cases c2 with
          | nil =>
            simp only [List.nil_append] at h5
            rw [hr2] at h5
            have := (List.cons.inj h5).1
            rw [this] at hy
            simp [isBlank] at hy
          | cons e c3 =>
            rw [hr2] at h5
            have h6 := (List.cons.inj h5).1
            have hmem : y ∈ cls := by
              rw [h4, h6]
              simp
            rw [(hc.2 y hmem).2] at hy
            cases hy
    · rw [h1] at hlt
      simp at hlt
  · intro ws2 r2 hs2 hall2 hlt _
    cases ws2 with
    | nil => simp at hlt
    | cons d ws3 =>
      cases ws3 with
      | nil => simp at hlt
      | cons e ws4 =>
        have h3 : cls ++ 123 :: (labels ++ 125 :: w :: value) = e :: (ws4 ++ r2) := by
          simpa using (List.cons.inj hs2).2
        have he : isBlank e = true := hall2 e (by simp)
        cases hcls : cls with
        | nil => exact absurd hcls hc.1
        | cons c0 cls1 =>
          rw [hcls] at h3
          have := (List.cons.inj h3).1
          have hmem : e ∈ cls := by
            rw [hcls, ← this]
            simp
          rw [(hc.2 e hmem).2] at he
          cases he

/-- The value `1}}` with closing braces is kept whole. -/
theorem value_split_of_single_brace_witness :
    FindStringSubmatch (str "12/a/b  \tc.d{k=v} 1\x7d\x7d")
      = [str "12/a/b  \tc.d{k=v} 1\x7d\x7d", str "12", str "c.d", str "k=v", str "1\x7d\x7d"] :=
  value_split_of_single_brace (str "12") (str "a") (str "b") (str "  \t") (str "c.d")
    (str "k=v") (str "1\x7d\x7d") 32 (by decide) (by decide) (by decide) (by decide)
    (by decide) (by decide) (by decide) (by decide)

theorem notSlash_of_isBlank (x : Nat) (hx : isBlank x = true) : notSlash x = true := by
  simp [isBlank] at hx
  rcases hx with rfl | rfl <;> decide

theorem notNewline_of_isBlank (x : Nat) (hx : isBlank x = true) : notNewline x = true := by
  simp [isBlank] at hx
  rcases hx with rfl | rfl <;> decide

/-- The groups of a line do not depend on its first three fields: another
number, another second field and any third field without `/` that is followed
by one blank give the same class name, label-list and value. -/
theorem FindStringSubmatch_fields (line g1 g2 g3 g4 : GoString)
    (h : FindStringSubmatch line = [line, g1, g2, g3, g4]) :
    ∃ w, isBlank w = true ∧ (∃ front, line = front ++ (g2 ++ 123 :: (g3 ++ 125 :: w :: g4))) ∧
      ∀ (k1 a1 b1 : GoString) (l : Nat), (k1 ≠ [] ∧ ∀ x ∈ k1, isDigit x = true) →
        (∀ x ∈ a1, notSlash x = true) → (∀ x ∈ b1, notSlash x = true) → isBlank l = true →
        FindStringSubmatch
            (k1 ++ 47 :: (a1 ++ 47 :: (b1 ++ ([l] ++ (g2 ++ 123 :: (g3 ++ 125 :: w :: g4))))))
          = [k1 ++ 47 :: (a1 ++ 47 :: (b1 ++ ([l] ++ (g2 ++ 123 :: (g3 ++ 125 :: w :: g4))))),
             k1, g2, g3, g4] := by
  obtain ⟨a, b, ws, w, hline, _, _, hb, ⟨hnews, hws⟩, h2, h3, hw, h4, hmaxb, hmaxws⟩ :=
    (FindStringSubmatch_eq_iff line g1 g2 g3 g4).mp h
  refine ⟨w, hw, ⟨g1 ++ 47 :: (a ++ 47 :: (b ++ ws)), by rw [hline]; simp⟩, ?_⟩
  intro k1 a1 b1 l hk1 ha1 hb1 hl
  apply (FindStringSubmatch_eq_iff _ k1 g2 g3 g4).mpr
  refine ⟨a1, b1, [l], w, rfl, hk1, ha1, hb1, ⟨by simp, by simpa using hl⟩, h2, h3, hw, h4,
    ?_, ?_⟩
  · intro b2 r2 hs2 hall2 hlt
    rcases List.append_eq_append_iff.mp hs2 with ⟨t1, e1, e2⟩ | ⟨c1, e1, _⟩
    · cases t1 with
      | nil => simp [e1] at hlt
      | cons d t2 =>
        have e3 : g2 ++ 123 :: (g3 ++ 125 :: w :: g4) = t2 ++ r2 := by
          simpa using (List.cons.inj e2).2
        apply hmaxb (b ++ (ws ++ t2)) r2
        · rw [e3]
          simp
        · intro x hx
          rcases List.mem_append.mp hx with hx | hx
          · exact hb x hx
          · rcases List.mem_append.mp hx with hx | hx
            · exact notSlash_of_isBlank x (hws x hx)
            · exact hall2 x (by rw [e1]; simp [hx])
        · have : 0 < ws.length := List.length_pos.mpr hnews
          simp
          omega
    · rw [e1] at hlt
      simp at hlt
  · intro ws2 r2 hs2 hall2 hlt
    cases ws2 with
    | nil => simp at hlt
    | cons d z =>
      have e3 : g2 ++ 123 :: (g3 ++ 125 :: w :: g4) = z ++ r2 := by
        simpa using (List.cons.inj hs2).2
      apply hmaxws (ws ++ z) r2
      · rw [e3]
        simp
      · intro x hx
        rcases List.mem_append.mp hx with hx | hx
        · exact hws x hx
        · exact hall2 x (List.mem_cons_of_mem d hx)
      · simp at hlt ⊢
        omega

theorem tail_eq_of_append_eq (u v g2 g3 g4 : GoString) (w w2 : Nat)
    (h : u ++ (g2 ++ 123 :: (g3 ++ 125 :: w :: g4)) = v ++ (g2 ++ 123 :: (g3 ++ 125 :: w2 :: g4))) :
    u = v ∧ w = w2 := by
  obtain ⟨e1, e2⟩ := List.append_inj' h (by simp)
  refine ⟨e1, ?_⟩
  have e3 := List.append_cancel_left e2
  have e4 := (List.cons.inj e3).2
  have e5 := List.append_cancel_left e4
  exact (List.cons.inj (List.cons.inj e5).2).1

/-- Blanks put into the run of blanks before the class name do not change the
groups. -/
theorem FindStringSubmatch_insert_blanks (line g1 g2 g3 g4 x1 x2 extra : GoString) (w : Nat)
    (h : FindStringSubmatch line = [line, g1, g2, g3, g4])
    (hline : line = x1 ++ (x2 ++ (g2 ++ 123 :: (g3 ++ 125 :: w :: g4))))
    (hx2 : ∀ x ∈ x2, isBlank x = true) (hextra : ∀ x ∈ extra, isBlank x = true) :
    FindStringSubmatch (x1 ++ (extra ++ (x2 ++ (g2 ++ 123 :: (g3 ++ 125 :: w :: g4)))))
      = [x1 ++ (extra ++ (x2 ++ (g2 ++ 123 :: (g3 ++ 125 :: w :: g4)))), g1, g2, g3, g4] := by
  obtain ⟨a, b, ws, w0, hline0, hg1, ha, hb, ⟨hnews, hws⟩, _⟩ :=
    (FindStringSubmatch_eq_iff line g1 g2 g3 g4).mp h
  obtain ⟨w1, _, ⟨front, hfront⟩, hK⟩ := FindStringSubmatch_fields line g1 g2 g3 g4 h
  -- the three layouts of the line end with the same blank
  have hw01 : w0 = w1 := by
    have : (g1 ++ 47 :: (a ++ 47 :: (b ++ ws))) ++ (g2 ++ 123 :: (g3 ++ 125 :: w0 :: g4))
        = front ++ (g2 ++ 123 :: (g3 ++ 125 :: w1 :: g4)) := by
      rw [← hfront, hline0]
      simp
    exact (tail_eq_of_append_eq _ _ _ _ _ _ _ this).2
  have hpre : (g1 ++ 47 :: (a ++ [47])) ++ (b ++ ws) = x1 ++ x2 ∧ w0 = w := by
    have : ((g1 ++ 47 :: (a ++ [47])) ++ (b ++ ws)) ++ (g2 ++ 123 :: (g3 ++ 125 :: w0 :: g4))
        = (x1 ++ x2) ++ (g2 ++ 123 :: (g3 ++ 125 :: w :: g4)) := by
      have e := hline0.symm.trans hline
      simpa using e
    exact tail_eq_of_append_eq _ _ _ _ _ _ _ this
  subst hw01
  have hw : w0 = w := hpre.2
  subst hw
  -- the blanks `x2` lie after the second `/`
  have hq : ∃ q1, x1 = (g1 ++ 47 :: (a ++ [47])) ++ q1 ∧ b ++ ws = q1 ++ x2 := by
    rcases List.append_eq_append_iff.mp hpre.1 with ⟨t1, e1, e2⟩ | ⟨c1, e1, e2⟩
    · exact ⟨t1, e1, e2⟩
    · rcases List.eq_nil_or_concat c1 with hnil | ⟨c0, lc, hc⟩
      · subst hnil
        exact ⟨[], by simpa using e1.symm, by simpa using e2.symm⟩
      · rw [List.concat_eq_append] at hc
        exfalso
        have e3 : (g1 ++ 47 :: a) ++ [47] = (x1 ++ c0) ++ [lc] := by
          rw [hc] at e1
          simpa using e1
        have hlc : lc = 47 := by
          have := (List.append_inj' e3 rfl).2
          exact (List.cons.inj this).1.symm
        have hmem : lc ∈ x2 := by
          rw [e2, hc]
          simp
        have := hx2 lc hmem
        rw [hlc] at this
        simp [isBlank] at this
  obtain ⟨q1, hx1, hbws⟩ := hq
  have hq1 : ∀ x ∈ q1, notSlash x = true := by
    intro x hx
    have : x ∈ b ++ ws := by rw [hbws]; exact List.mem_append_left _ hx
    rcases List.mem_append.mp this with hx | hx
    · exact hb x hx
    · exact notSlash_of_isBlank x (hws x hx)
  -- the new third field and its last blank
  have hN : ∃ n0 l, q1 ++ (extra ++ x2) = n0 ++ [l] ∧ isBlank l = true ∧
      ∀ x ∈ n0, notSlash x = true := by
    have hslash : ∀ x ∈ q1 ++ (extra ++ x2), notSlash x = true := by
      intro x hx
      rcases List.mem_append.mp hx with hx | hx
      · exact hq1 x hx
      · rcases List.mem_append.mp hx with hx | hx
        · exact notSlash_of_isBlank x (hextra x hx)
        · exact notSlash_of_isBlank x (hx2 x hx)
    rcases List.eq_nil_or_concat x2 with hx2nil | ⟨x0, lx, hx0⟩
    · subst hx2nil
      rcases List.eq_nil_or_concat extra with henil | ⟨e0, le, he0⟩
      · subst henil
        rcases List.eq_nil_or_concat ws with hwnil | ⟨ws0, lw, hw0⟩
        · exact absurd hwnil hnews
        · rw [List.concat_eq_append] at hw0
          have hq1eq : q1 = (b ++ ws0) ++ [lw] := by
            have := hbws
            rw [hw0] at this
            simpa using this.symm
          refine ⟨b ++ ws0, lw, by simpa using hq1eq, hws lw (by rw [hw0]; simp), ?_⟩
          intro x hx
          exact hq1 x (by rw [hq1eq]; exact List.mem_append_left _ hx)
      · rw [List.concat_eq_append] at he0
        refine ⟨q1 ++ e0, le, by rw [he0]; simp, hextra le (by rw [he0]; simp), ?_⟩
        intro x hx
        exact hslash x (by rw [he0]; simp at hx ⊢; tauto)
    · rw [List.concat_eq_append] at hx0
      refine ⟨q1 ++ (extra ++ x0), lx, by rw [hx0]; simp, hx2 lx (by rw [hx0]; simp), ?_⟩
      intro x hx
      exact hslash x (by rw [hx0]; simp at hx ⊢; tauto)
  obtain ⟨n0, l, hn, hl, hn0⟩ := hN
  have hform : x1 ++ (extra ++ (x2 ++ (g2 ++ 123 :: (g3 ++ 125 :: w0 :: g4))))
      = g1 ++ 47 :: (a ++ 47 :: (n0 ++ ([l] ++ (g2 ++ 123 :: (g3 ++ 125 :: w0 :: g4))))) := by
    have : x1 ++ (extra ++ (x2 ++ (g2 ++ 123 :: (g3 ++ 125 :: w0 :: g4))))
        = (g1 ++ 47 :: (a ++ [47])) ++ ((q1 ++ (extra ++ x2))
            ++ (g2 ++ 123 :: (g3 ++ 125 :: w0 :: g4))) := by
      rw [hx1]
      simp
    rw [this, hn]
    simp
  rw [hform]
  exact hK g1 a n0 l hg1 ha hn0 hl

theorem ClassOn_not_suffix (r y g4 : GoString) (u2 : Nat) (h : ClassOn r)
    (hs : u2 :: g4 = y ++ r) (hg4 : ∀ x ∈ g4, isBlank x = false) : False := by
  obtain ⟨k2, k3, w, k4, e, ⟨hne, _⟩, _, hw, _⟩ := h
  cases k2 with
  | nil => exact absurd rfl hne
  | cons c0 k2r =>
    have hmem : w ∈ g4 := by
      have e2 : u2 :: g4 = (y ++ [c0]) ++ (k2r ++ 123 :: (k3 ++ 125 :: w :: k4)) := by
        rw [hs, e]
        simp
      cases hy : y ++ [c0] with
      | nil => simp at hy
      | cons d t =>
        rw [hy] at e2
        have := (List.cons.inj e2).2
        rw [this]
        simp
    rw [hg4 w hmem] at hw
    cases hw

theorem BlanksOn_not_suffix (r y g4 : GoString) (u2 : Nat) (h : BlanksOn r)
    (hs : u2 :: g4 = y ++ r) (hg4 : ∀ x ∈ g4, isBlank x = false) : False := by
  obtain ⟨ws, r2, e, _, hc⟩ := h
  exact ClassOn_not_suffix r2 (y ++ ws) g4 u2 hc (by rw [hs, e]; simp) hg4

/-- A second blank after the closing brace does not make a text match that did
not match with one blank, when the value holds no blank. -/
theorem ClassOn_of_two_blanks (c g4 : GoString) (u1 u2 w : Nat)
    (h : ClassOn (c ++ u1 :: u2 :: g4)) (hu1 : isBlank u1 = true) (hw : isBlank w = true)
    (hg4 : ∀ x ∈ g4, isBlank x = false) : ClassOn (c ++ w :: g4) := by
  obtain ⟨k2, k3, w1, k4, e, hk2, hk3, hw1, hk4⟩ := h
  have e1 : c ++ (u1 :: u2 :: g4) = ((k2 ++ 123 :: k3) ++ [125, w1]) ++ k4 := by
    rw [e]
    simp
  rcases List.append_eq_append_iff.mp e1 with ⟨t, e2, e3⟩ | ⟨t, e2, e3⟩
  · cases t with
    | nil =>
      refine ⟨k2, k3, w1, w :: g4, ?_, hk2, hk3, hw1, ?_⟩
      · have : c = (k2 ++ 123 :: k3) ++ [125, w1] := by simpa using e2.symm
        rw [this]
        simp
      · intro x hx
        rcases List.mem_cons.mp hx with rfl | hx
        · exact notNewline_of_isBlank _ hw
        · exact hk4 x (by rw [← (by simpa using e3 : u1 :: u2 :: g4 = k4)]; simp [hx])
    | cons t0 t1 =>
      cases t1 with
      | nil =>
        have e4 : u1 = t0 ∧ u2 :: g4 = k4 := by simpa using e3
        have e5 : ((k2 ++ 123 :: k3) ++ [125]) ++ [w1] = c ++ [t0] := by simpa using e2
        have e6 := List.append_inj' e5 rfl
        refine ⟨k2, k3, w, g4, ?_, hk2, hk3, hw, ?_⟩
        · rw [← e6.1]
          simp
        · intro x hx
          exact hk4 x (by rw [← e4.2]; simp [hx])
      | cons t2 t3 =>
        exfalso
        have e4 : u1 = t0 ∧ u2 = t2 ∧ g4 = t3 ++ k4 := by simpa using e3
        rcases List.eq_nil_or_concat t3 with hnil | ⟨t4, lt, ht⟩
        · subst hnil
          have e5 : (k2 ++ 123 :: k3) ++ [125, w1] = c ++ [t0, t2] := by simpa using e2
          have e6 := (List.append_inj' e5 rfl).2
          have : t0 = 125 := by simpa using (List.cons.inj e6).1.symm
          rw [← e4.1] at this
          rw [this] at hu1
          simp [isBlank] at hu1
        · rw [List.concat_eq_append] at ht
          have e5 : ((k2 ++ 123 :: k3) ++ [125]) ++ [w1] = (c ++ t0 :: t2 :: t4) ++ [lt] := by
            rw [ht] at e2
            simpa using e2
          have e6 := (List.append_inj' e5 rfl).2
          have hlt : w1 = lt := (List.cons.inj e6).1
          have hmem : w1 ∈ g4 := by
            rw [e4.2.2, ht, hlt]
            simp
          rw [hg4 w1 hmem] at hw1
          cases hw1
  · refine ⟨k2, k3, w1, t ++ w :: g4, ?_, hk2, hk3, hw1, ?_⟩
    · rw [e2]
      simp
    · intro x hx
      rcases List.mem_append.mp hx with hx | hx
      · exact hk4 x (by rw [e3]; exact List.mem_append_left _ hx)
      · rcases List.mem_cons.mp hx with rfl | hx
        · exact notNewline_of_isBlank _ hw
        · exact hk4 x (by rw [e3]; simp [hx])

theorem BlanksOn_of_two_blanks (c g4 : GoString) (u1 u2 w : Nat)
    (h : BlanksOn (c ++ u1 :: u2 :: g4)) (hu1 : isBlank u1 = true) (hw : isBlank w = true)
    (hg4 : ∀ x ∈ g4, isBlank x = false) : BlanksOn (c ++ w :: g4) := by
  obtain ⟨ws, r2, e, hws, hc⟩ := h
  rcases List.append_eq_append_iff.mp e with ⟨t, e2, e3⟩ | ⟨t, e2, e3⟩
  · -- the blanks reach into the two blanks
    cases t with
    | nil =>
      have e4 : r2 = [] ++ u1 :: u2 :: g4 := by simpa using e3.symm
      rw [e4] at hc
      have := ClassOn_of_two_blanks [] g4 u1 u2 w hc hu1 hw hg4
      exact ⟨ws, [] ++ w :: g4, by rw [e2]; simp, hws, this⟩
    | cons t0 t1 =>
      exfalso
      have e4 : u2 :: g4 = t1 ++ r2 := by simpa using (List.cons.inj e3).2
      exact ClassOn_not_suffix r2 t1 g4 u2 hc e4 hg4
  · rw [e3] at hc
    have := ClassOn_of_two_blanks t g4 u1 u2 w hc hu1 hw hg4
    exact ⟨ws, t ++ w :: g4, by rw [e2]; simp, hws, this⟩

/-- With two blanks after the closing brace, the second blank is the start of
the captured value; the other groups stay. -/
theorem FindStringSubmatch_two_blanks (line g1 g2 g3 g4 front : GoString) (w u1 u2 : Nat)
    (h : FindStringSubmatch line = [line, g1, g2, g3, g4])
    (hline : line = front ++ 125 :: w :: g4) (hg4 : ∀ x ∈ g4, isBlank x = false)
    (hu1 : isBlank u1 = true) (hu2 : isBlank u2 = true) :
    FindStringSubmatch (front ++ 125 :: u1 :: u2 :: g4)
      = [front ++ 125 :: u1 :: u2 :: g4, g1, g2, g3, u2 :: g4] := by
  obtain ⟨a, b, ws, w0, hline0, hg1, ha, hb, hws, h2, h3, hw0, h4, hmaxb, hmaxws⟩ :=
    (FindStringSubmatch_eq_iff line g1 g2 g3 g4).mp h
  have hfront : front = g1 ++ 47 :: (a ++ 47 :: (b ++ (ws ++ (g2 ++ 123 :: g3)))) ∧ w = w0 := by
    have e : front ++ [125, w] ++ g4
        = (g1 ++ 47 :: (a ++ 47 :: (b ++ (ws ++ (g2 ++ 123 :: g3))))) ++ [125, w0] ++ g4 := by
      have := hline.symm.trans hline0
      simpa using this
    have e1 := (List.append_inj' e rfl).1
    have e2 := List.append_inj' e1 rfl
    exact ⟨e2.1, by simpa using e2.2⟩
  obtain ⟨hf, hw⟩ := hfront
  subst hw
  apply (FindStringSubmatch_eq_iff _ g1 g2 g3 (u2 :: g4)).mpr
  refine ⟨a, b, ws, u1, by rw [hf]; simp, hg1, ha, hb, hws, h2, h3, hu1, ?_, ?_, ?_⟩
  · intro x hx
    rcases List.mem_cons.mp hx with rfl | hx
    · exact notNewline_of_isBlank _ hu2
    · exact h4 x hx
  · intro b2 r2 hs2 hall2 hlt hblanks
    have hs3 : (b ++ (ws ++ (g2 ++ 123 :: (g3 ++ [125])))) ++ (u1 :: u2 :: g4) = b2 ++ r2 := by
      rw [← hs2]
      simp
    rcases List.append_eq_append_iff.mp hs3 with ⟨t, e1, e2⟩ | ⟨t, e1, e2⟩
    · cases t with
      | nil =>
        have e3 : r2 = [] ++ u1 :: u2 :: g4 := by simpa using e2.symm
        rw [e3] at hblanks
        have hb2 := BlanksOn_of_two_blanks [] g4 u1 u2 w hblanks hu1 hw0 hg4
        refine hmaxb b2 ([] ++ w :: g4) ?_ hall2 hlt hb2
        rw [e1]
        simp
      | cons t0 t1 =>
        have e3 : u2 :: g4 = t1 ++ r2 := by simpa using (List.cons.inj e2).2
        exact BlanksOn_not_suffix r2 t1 g4 u2 hblanks e3 hg4
    · rw [e2] at hblanks
      have hb2 := BlanksOn_of_two_blanks t g4 u1 u2 w hblanks hu1 hw0 hg4
      refine hmaxb b2 (t ++ w :: g4) ?_ hall2 hlt hb2
      have : b ++ (ws ++ (g2 ++ 123 :: (g3 ++ 125 :: w :: g4)))
          = (b ++ (ws ++ (g2 ++ 123 :: (g3 ++ [125])))) ++ w :: g4 := by simp
      rw [this, e1]
      simp
  · intro ws2 r2 hs2 hall2 hlt hclass
    have hs3 : (ws ++ (g2 ++ 123 :: (g3 ++ [125]))) ++ (u1 :: u2 :: g4) = ws2 ++ r2 := by
      rw [← hs2]
      simp
    rcases List.append_eq_append_iff.mp hs3 with ⟨t, e1, _⟩ | ⟨t, e1, e2⟩
    · have hmem : 123 ∈ ws2 := by
        rw [e1]
        simp
      have := hall2 123 hmem
      simp [isBlank] at this
    · rw [e2] at hclass
      have hc2 := ClassOn_of_two_blanks t g4 u1 u2 w hclass hu1 hw0 hg4
      refine hmaxws ws2 (t ++ w :: g4) ?_ hall2 hlt hc2
      have : ws ++ (g2 ++ 123 :: (g3 ++ 125 :: w :: g4))
          = (ws ++ (g2 ++ 123 :: (g3 ++ [125]))) ++ w :: g4 := by simp
      rw [this, e1]
      simp

theorem mem_Split_of_mem (sep : Nat) :
    ∀ (s : GoString) (c : Nat), c ∈ s → c ≠ sep → ∃ piece ∈ Split s sep, c ∈ piece := by
  intro s
  induction s with
  | nil => intro c h; simp at h
  | cons d ds ih =>
    intro c hc hne
    by_cases hd : d = sep
    · rcases List.mem_cons.mp hc with e | hmem
      · exact absurd (e.trans hd) hne
      · obtain ⟨piece, hp, hcp⟩ := ih c hmem hne
        exact ⟨piece, by rw [Split, if_pos hd]; exact List.mem_cons_of_mem _ hp, hcp⟩
    · obtain ⟨p1, ps, h1, h2⟩ := Split_cons_ne d ds sep hd
      rcases List.mem_cons.mp hc with e | hmem
      · exact ⟨d :: p1, by rw [h2]; simp, by rw [e]; simp⟩
      · obtain ⟨piece, hp, hcp⟩ := ih c hmem hne
        rw [h1] at hp
        rcases List.mem_cons.mp hp with e | hp
        · exact ⟨d :: p1, by rw [h2]; simp, by rw [← e]; simp [hcp]⟩
        · exact ⟨piece, by rw [h2]; exact List.mem_cons_of_mem _ hp, hcp⟩

/-- The reader of the examples rejects a text with a blank, as
`strconv.ParseFloat` does. -/
theorem readDecimal_of_blank (s : GoString) (h : ∃ x ∈ s, isBlank x = true) :
    readDecimal s = none := by
  obtain ⟨x, hx, hb⟩ := h
  have hne : x ≠ 46 := by
    intro e
    rw [e] at hb
    simp [isBlank] at hb
  have hnd : isDigit x = false := by
    simp [isBlank] at hb
    rcases hb with rfl | rfl <;> decide
  obtain ⟨piece, hp, hxp⟩ := mem_Split_of_mem 46 s x hx hne
  unfold readDecimal
  rcases hs : Split s 46 with _ | ⟨p1, _ | ⟨p2, _ | ⟨p3, t⟩⟩⟩
  · rfl
  · rw [hs] at hp
    have : piece = p1 := by simpa using hp
    subst this
    have : ¬ (piece ≠ [] ∧ piece.all isDigit = true) := by
      rintro ⟨_, hall⟩
      have := List.all_eq_true.mp hall x hxp
      rw [hnd] at this
      cases this
    simp only [if_neg this]
  · rw [hs] at hp
    have hcase : piece = p1 ∨ piece = p2 := by simpa using hp
    have : ¬ (p1 ≠ [] ∧ p1.all isDigit = true ∧ p2 ≠ [] ∧ p2.all isDigit = true) := by
      rintro ⟨_, hall1, _, hall2⟩
      rcases hcase with e | e
      · have := List.all_eq_true.mp hall1 x (e ▸ hxp)
        rw [hnd] at this
        cases this
      · have := List.all_eq_true.mp hall2 x (e ▸ hxp)
        rw [hnd] at this
        cases this
    simp only [if_neg this]
  · rfl

theorem class_congr {F : Type} (env : Env F) (line1 line2 a0 b0 a1 b1 m2 m3 m4 : GoString)
    (h1 : FindStringSubmatch line1 = [a0, a1, m2, m3, m4])
    (h2 : FindStringSubmatch line2 = [b0, b1, m2, m3, m4]) :
    parseWarp10 env line1 = parseWarp10 env line2 := by
  unfold parseWarp10
  rw [h1, h2]

/-- C17: on a line that decodes to a sample, with a value reader that rejects
every text with a space or a tab, as `strconv.ParseFloat` does, a second blank
after the closing brace becomes the start of the captured value and the line
gives no sample; blanks put into the run of blanks before the class name leave
the groups and the sample as they are. -/
theorem separators_around_class {F : Type} (env : Env F)
    (line m0 g1 g2 g3 g4 : GoString) (m : Metric F)
    (h : FindStringSubmatch line = [m0, g1, g2, g3, g4])
    (hm : parseWarp10 env line = Except.ok [m])
    (hPF : ∀ s : GoString, (∃ x ∈ s, isBlank x = true) → env.ParseFloat s = none) :
    (∀ (front : GoString) (w u1 u2 : Nat), line = front ++ 125 :: w :: g4 →
      isBlank u1 = true → isBlank u2 = true →
      FindStringSubmatch (front ++ 125 :: u1 :: u2 :: g4)
        = [front ++ 125 :: u1 :: u2 :: g4, g1, g2, g3, u2 :: g4] ∧
      env.ParseFloat (u2 :: g4) = none ∧
      parseWarp10 env (front ++ 125 :: u1 :: u2 :: g4) = Except.ok []) ∧
    (∀ (x1 x2 extra : GoString) (w : Nat),
      line = x1 ++ (x2 ++ (g2 ++ 123 :: (g3 ++ 125 :: w :: g4))) →
      (∀ x ∈ x2, isBlank x = true) → (∀ x ∈ extra, isBlank x = true) →
      FindStringSubmatch (x1 ++ (extra ++ (x2 ++ (g2 ++ 123 :: (g3 ++ 125 :: w :: g4)))))
        = [x1 ++ (extra ++ (x2 ++ (g2 ++ 123 :: (g3 ++ 125 :: w :: g4)))), g1, g2, g3, g4] ∧
      parseWarp10 env (x1 ++ (extra ++ (x2 ++ (g2 ++ 123 :: (g3 ++ 125 :: w :: g4)))))
        = Except.ok [m]) := by
  obtain ⟨k1, _, _, _, k2, k3, _, k4, hm0, hms, _⟩ := FindStringSubmatch_decompose line m0 _ h
  have hgs := List.cons.inj hms
  subst hm0
  obtain ⟨metric, value, hk, hv, _⟩ := parseWarp10_ok_inv env m0 m0 g1 g2 g3 g4 [m] h hm (by simp)
  have hg4 : ∀ x ∈ g4, isBlank x = false := by
    intro x hx
    by_contra hb
    rw [hPF g4 ⟨x, hx, by simpa using hb⟩] at hv
    cases hv
  constructor
  · intro front w u1 u2 hline hu1 hu2
    have hf := FindStringSubmatch_two_blanks m0 g1 g2 g3 g4 front w u1 u2 h hline hg4 hu1 hu2
    have hnone : env.ParseFloat (u2 :: g4) = none := hPF _ ⟨u2, by simp, hu2⟩
    exact ⟨hf, hnone, parseWarp10_of_unparsed env _ _ g1 g2 g3 _ metric hf hk hnone⟩
  · intro x1 x2 extra w hline hx2 hextra
    have hf := FindStringSubmatch_insert_blanks m0 g1 g2 g3 g4 x1 x2 extra w h hline hx2 hextra
    refine ⟨hf, ?_⟩
    rw [← hm]
    exact class_congr env _ m0 _ _ g1 g1 g2 g3 g4 hf h

/-- Two blanks after the closing brace give no sample, three blanks and a tab
before the class name give the sample of the line with one blank. -/
theorem separators_around_class_witness :
    parseWarp10 sampleEnv (str "5/x/y single{a=1} 9")
      = Except.ok [gauge (newDesc "single" "one label" ["a"]) 9 0 ["1"]] ∧
    FindStringSubmatch (str "5/x/y single{a=1}  9")
      = [str "5/x/y single{a=1}  9", str "5", str "single", str "a=1", str " 9"] ∧
    parseWarp10 sampleEnv (str "5/x/y single{a=1}  9") = Except.ok [] ∧
    parseWarp10 sampleEnv (str "5/x/y \t  single{a=1} 9")
      = Except.ok [gauge (newDesc "single" "one label" ["a"]) 9 0 ["1"]] :=
  ⟨rfl,
   ((separators_around_class sampleEnv (str "5/x/y single{a=1} 9") _ (str "5") (str "single")
      (str "a=1") (str "9") _ rfl rfl (fun s hs => readDecimal_of_blank s hs)).1
      (str "5/x/y single\x7ba=1") 32 32 32 rfl rfl rfl).1,
   ((separators_around_class sampleEnv (str "5/x/y single{a=1} 9") _ (str "5") (str "single")
      (str "a=1") (str "9") _ rfl rfl (fun s hs => readDecimal_of_blank s hs)).1
      (str "5/x/y single\x7ba=1") 32 32 32 rfl rfl rfl).2.2,
   ((separators_around_class sampleEnv (str "5/x/y single{a=1} 9") _ (str "5") (str "single")
      (str "a=1") (str "9") _ rfl rfl (fun s hs => readDecimal_of_blank s hs)).2
      (str "5/x/y") (str " ") (str " \t ") 32 rfl (by decide) (by decide)).2⟩

/-! ## Another label-list on the same line -/

theorem append_cons_inj_of_not_mem (c : Nat) (s1 s2 r1 r2 : GoString) (h1 : c ∉ s1)
    (h2 : c ∉ s2) (h : s1 ++ c :: r1 = s2 ++ c :: r2) : s1 = s2 ∧ r1 = r2 := by
  rcases List.append_eq_append_iff.mp h with ⟨a1, e1, e2⟩ | ⟨c1, e1, e2⟩
  · cases a1 with
    | nil =>
      simp only [List.append_nil] at e1
      simp only [List.nil_append] at e2
      exact ⟨e1.symm, (List.cons.inj e2).2⟩
    | cons d a2 =>
      exfalso
      have hd := (List.cons.inj e2).1
      apply h2
      rw [e1, hd]
      simp
  · cases c1 with
    | nil =>
      simp only [List.append_nil] at e1
      simp only [List.nil_append] at e2
      exact ⟨e1, (List.cons.inj e2).2.symm⟩
    | cons d c2 =>
      exfalso
      have hd := (List.cons.inj e2).1
      apply h1
      rw [e1, hd]
      simp

theorem not_mem_of_notLBrace (s : GoString) (h : ∀ x ∈ s, notLBrace x = true) : 123 ∉ s := by
  intro hmem
  have := h 123 hmem
  simp [notLBrace] at this

theorem not_mem_of_notRBrace (s : GoString) (h : ∀ x ∈ s, notRBrace x = true) : 125 ∉ s := by
  intro hmem
  have := h 125 hmem
  simp [notRBrace] at this

theorem not_mem_lbrace_of_isBlank (s : GoString) (h : ∀ x ∈ s, isBlank x = true) : 123 ∉ s := by
  intro hmem
  have := h 123 hmem
  simp [isBlank] at this

/-- A text that goes on as a class name does so with any other label-list in
the first braces. -/
theorem ClassOn_labels (s old new g4 : GoString) (w : Nat) (hs : 123 ∉ s)
    (hold : ∀ x ∈ old, notRBrace x = true) (hnew : ∀ x ∈ new, notRBrace x = true)
    (h : ClassOn (s ++ 123 :: (new ++ 125 :: w :: g4))) :
    ClassOn (s ++ 123 :: (old ++ 125 :: w :: g4)) := by
  obtain ⟨c, l, w2, v, e, ⟨hcne, hc⟩, hl, hw2, hv⟩ := h
  obtain ⟨e1, e2⟩ := append_cons_inj_of_not_mem 123 s c _ _ hs (not_mem_of_notLBrace c hc) e
  obtain ⟨_, e4⟩ := append_cons_inj_of_not_mem 125 new l _ _ (not_mem_of_notRBrace new hnew)
    (not_mem_of_notRBrace l hl) e2
  obtain ⟨e5, e6⟩ := List.cons.inj e4
  subst e1 e5 e6
  exact ⟨s, old, w, g4, rfl, ⟨hcne, hc⟩, hold, hw2, hv⟩

/-- A text that goes on as blanks and a class name does so with any other
label-list in the first braces. -/
theorem BlanksOn_labels (s old new g4 : GoString) (w : Nat) (hs : 123 ∉ s)
    (hold : ∀ x ∈ old, notRBrace x = true) (hnew : ∀ x ∈ new, notRBrace x = true)
    (h : BlanksOn (s ++ 123 :: (new ++ 125 :: w :: g4))) :
    BlanksOn (s ++ 123 :: (old ++ 125 :: w :: g4)) := by
  obtain ⟨ws, r, e, ⟨hwne, hws⟩, c, l, w2, v, er, ⟨hcne, hc⟩, hl, hw2, hv⟩ := h
  have e0 : s ++ 123 :: (new ++ 125 :: w :: g4) = (ws ++ c) ++ 123 :: (l ++ 125 :: w2 :: v) := by
    rw [e, er]
    simp
  have hwsc : 123 ∉ ws ++ c := by
    intro hmem
    rcases List.mem_append.mp hmem with hm | hm
    · exact not_mem_lbrace_of_isBlank ws hws hm
    · exact not_mem_of_notLBrace c hc hm
  obtain ⟨e1, e2⟩ := append_cons_inj_of_not_mem 123 s (ws ++ c) _ _ hs hwsc e0
  obtain ⟨_, e4⟩ := append_cons_inj_of_not_mem 125 new l _ _ (not_mem_of_notRBrace new hnew)
    (not_mem_of_notRBrace l hl) e2
  obtain ⟨e5, e6⟩ := List.cons.inj e4
  subst e5 e6
  refine ⟨ws, c ++ 123 :: (old ++ 125 :: w :: g4), ?_, ⟨hwne, hws⟩,
    c, old, w, g4, rfl, ⟨hcne, hc⟩, hold, hw2, hv⟩
  rw [e1]
  simp

/-- The groups of a line with another label-list: when the new label-list and
the value hold no `{`, the line in which the new label-list stands for the old
one has the same number, class name and value, and the new label-list. -/
theorem FindStringSubmatch_labels (line m0 g1 g2 g3 g4 : GoString)
    (h : FindStringSubmatch line = [m0, g1, g2, g3, g4]) (hv : 123 ∉ g4) :
    (∃ front w, line = front ++ (g2 ++ 123 :: (g3 ++ 125 :: w :: g4))) ∧
    ∀ (front new : GoString) (w : Nat),
      line = front ++ (g2 ++ 123 :: (g3 ++ 125 :: w :: g4)) → 123 ∉ new → 125 ∉ new →
      FindStringSubmatch (front ++ (g2 ++ 123 :: (new ++ 125 :: w :: g4)))
        = [front ++ (g2 ++ 123 :: (new ++ 125 :: w :: g4)), g1, g2, new, g4] := by
  obtain ⟨k1, a0, b0, ws0, k2, k3, w0, k4, hm0, hms, _⟩ :=
    FindStringSubmatch_decompose line m0 _ h
  obtain ⟨e1, e2, e3, e4⟩ : g1 = k1 ∧ g2 = k2 ∧ g3 = k3 ∧ g4 = k4 := by simpa using hms
  subst hm0 e1 e2 e3 e4
  obtain ⟨a, b, ws, w1, hline, hg1, ha, hb, ⟨hnews, hws⟩, h2, h3, hw, h4, hmaxb, hmaxws⟩ :=
    (FindStringSubmatch_eq_iff m0 g1 g2 g3 g4).mp h
  refine ⟨⟨g1 ++ 47 :: (a ++ 47 :: (b ++ ws)), w1, by rw [hline]; simp⟩, ?_⟩
  intro front new w hfront hnl hnr
  have hpre : g1 ++ 47 :: (a ++ 47 :: (b ++ ws)) = front ∧ w1 = w := by
    have : (g1 ++ 47 :: (a ++ 47 :: (b ++ ws))) ++ (g2 ++ 123 :: (g3 ++ 125 :: w1 :: g4))
        = front ++ (g2 ++ 123 :: (g3 ++ 125 :: w :: g4)) := by
      rw [← hfront, hline]
      simp
    exact tail_eq_of_append_eq _ _ _ _ _ _ _ this
  obtain ⟨hf, hw1⟩ := hpre
  subst hf hw1
  have hnewR : ∀ x ∈ new, notRBrace x = true := by
    intro x hx
    simp only [notRBrace, bne_iff_ne, ne_eq]
    intro e
    exact hnr (e ▸ hx)
  have hnewL : ∀ x ∈ new, notLBrace x = true := by
    intro x hx
    simp only [notLBrace, bne_iff_ne, ne_eq]
    intro e
    exact hnl (e ▸ hx)
  have hg2 : 123 ∉ g2 := not_mem_of_notLBrace g2 h2.2
  have hws123 : 123 ∉ ws := not_mem_lbrace_of_isBlank ws hws
  have hno : 123 ∉ new ++ 125 :: w1 :: g4 := by
    intro hmem
    rcases List.mem_append.mp hmem with h1 | h1
    · exact hnl h1
    · rcases List.mem_cons.mp h1 with h5 | h5
      · cases h5
      · rcases List.mem_cons.mp h5 with h6 | h6
        · rw [← h6] at hw
          simp [isBlank] at hw
        · exact hv h6
  have hform : (g1 ++ 47 :: (a ++ 47 :: (b ++ ws))) ++ (g2 ++ 123 :: (new ++ 125 :: w1 :: g4))
      = g1 ++ 47 :: (a ++ 47 :: (b ++ (ws ++ (g2 ++ 123 :: (new ++ 125 :: w1 :: g4))))) := by
    simp
  rw [hform]
  apply (FindStringSubmatch_eq_iff _ g1 g2 new g4).mpr
  refine ⟨a, b, ws, w1, rfl, hg1, ha, hb, ⟨hnews, hws⟩, h2, hnewR, hw, h4, ?_, ?_⟩
  · intro b2 r2 hs2 hall2 hlt hblanks
    obtain ⟨y, rest, hr2, hy, hrest⟩ := BlanksOn_head r2 hblanks
    rcases List.append_eq_append_iff.mp hs2 with ⟨t, et1, et2⟩ | ⟨c1, ec1, _⟩
    · have et3 : (ws ++ g2) ++ 123 :: (new ++ 125 :: w1 :: g4) = t ++ r2 := by
        rw [← et2]
        simp
      rcases List.append_eq_append_iff.mp et3 with ⟨u, eu1, eu2⟩ | ⟨s, es1, es2⟩
      · -- the rest starts at the `{` or after it
        cases u with
        | nil =>
          simp only [List.nil_append] at eu2
          rw [hr2] at eu2
          have := (List.cons.inj eu2).1
          rw [← this] at hy
          simp [isBlank] at hy
        | cons d u2 =>
          apply hno
          rw [(List.cons.inj eu2).2, hr2]
          exact List.mem_append_right _ (List.mem_cons_of_mem _ hrest)
      · -- the rest starts before the `{`
        have hs123 : 123 ∉ s := by
          intro hmem
          have : 123 ∈ ws ++ g2 := by rw [es1]; exact List.mem_append_right _ hmem
          rcases List.mem_append.mp this with hm | hm
          · exact hws123 hm
          · exact hg2 hm
        rw [es2] at hblanks
        have hold := BlanksOn_labels s g3 new g4 w1 hs123 h3 hnewR hblanks
        apply hmaxb b2 (s ++ 123 :: (g3 ++ 125 :: w1 :: g4)) _ hall2 hlt hold
        rw [et1]
        have : ws ++ (g2 ++ 123 :: (g3 ++ 125 :: w1 :: g4))
            = (ws ++ g2) ++ 123 :: (g3 ++ 125 :: w1 :: g4) := by simp
        rw [this, es1]
        simp
    · rw [ec1] at hlt
      simp at hlt
  · intro ws2 r2 hs2 hall2 hlt hcls
    rcases List.append_eq_append_iff.mp hs2 with ⟨t, et1, et2⟩ | ⟨c1, ec1, _⟩
    · rcases List.append_eq_append_iff.mp et2 with ⟨u, eu1, eu2⟩ | ⟨s, es1, es2⟩
      · -- the rest starts at the `{` or after it
        cases u with
        | nil =>
          simp only [List.nil_append] at eu2
          obtain ⟨c, l, w2, v, e, ⟨hcne, hc⟩, _⟩ := hcls
          cases c with
          | nil => exact hcne rfl
          | cons c0 c1 =>
            rw [← eu2] at e
            have := (List.cons.inj e).1
            have hc0 := hc c0 (List.mem_cons_self c0 c1)
            rw [← this] at hc0
            simp [notLBrace] at hc0
        | cons d u2 =>
          have hd := (List.cons.inj eu2).1
          have hmem : d ∈ ws2 := by
            rw [et1, eu1]
            simp
          have := hall2 d hmem
          rw [← hd] at this
          simp [isBlank] at this
      · -- the rest starts inside the class name
        have hs123 : 123 ∉ s := by
          intro hmem
          apply hg2
          rw [es1]
          exact List.mem_append_right _ hmem
        rw [es2] at hcls
        have hold := ClassOn_labels s g3 new g4 w1 hs123 h3 hnewR hcls
        apply hmaxws ws2 (s ++ 123 :: (g3 ++ 125 :: w1 :: g4)) _ hall2 hlt hold
        rw [et1, es1]
        simp
    · rw [ec1] at hlt
      simp at hlt

theorem mem_Join (sep : Nat) :
    ∀ (items : List GoString) (x : Nat), x ∈ Join items sep →
      x = sep ∨ ∃ item ∈ items, x ∈ item := by
  intro items
  induction items with
  | nil => intro x hx; simp [Join] at hx
  | cons piece rest ih =>
    intro x hx
    cases rest with
    | nil =>
      rw [Join] at hx
      exact Or.inr ⟨piece, by simp, hx⟩
    | cons next more =>
      rw [Join] at hx
      rcases List.mem_append.mp hx with h1 | h1
      · exact Or.inr ⟨piece, by simp, h1⟩
      · rcases List.mem_cons.mp h1 with h2 | h2
        · exact Or.inl h2
        · rcases ih x h2 with h3 | ⟨item, hi, hxi⟩
          · exact Or.inl h3
          · exact Or.inr ⟨item, List.mem_cons_of_mem _ hi, hxi⟩

theorem mem_Join_of_mem (sep : Nat) :
    ∀ (items : List GoString) (item : GoString) (x : Nat), item ∈ items → x ∈ item →
      x ∈ Join items sep := by
  intro items
  induction items with
  | nil => intro item x hi; simp at hi
  | cons piece rest ih =>
    intro item x hi hx
    cases rest with
    | nil =>
      rw [Join]
      rcases List.mem_cons.mp hi with e | hi2
      · rw [← e]; exact hx
      · simp at hi2
    | cons next more =>
      rw [Join]
      rcases List.mem_cons.mp hi with e | hi2
      · exact List.mem_append_left _ (by rw [← e]; exact hx)
      · exact List.mem_append_right _ (List.mem_cons_of_mem _ (ih item x hi2 hx))

theorem mem_of_mem_Split (sep : Nat) (s piece : GoString) (x : Nat)
    (hp : piece ∈ Split s sep) (hx : x ∈ piece) : x ∈ s := by
  rw [← Join_Split sep s]
  exact mem_Join_of_mem sep _ piece x hp hx

/-- A byte that is not in a label-list is in no label-list joined from some of
its items. -/
theorem not_mem_Join_of_Split (s : GoString) (items : List GoString) (c : Nat) (hc : c ≠ 44)
    (hsub : ∀ item ∈ items, item ∈ Split s 44) (hs : c ∉ s) : c ∉ Join items 44 := by
  intro hmem
  rcases mem_Join 44 items c hmem with h1 | ⟨item, hi, hx⟩
  · exact hc h1
  · exact hs (mem_of_mem_Split 44 s item c (hsub item hi) hx)

theorem not_mem_rbrace_of_groups (line m0 m1 m2 m3 m4 : GoString)
    (h : FindStringSubmatch line = [m0, m1, m2, m3, m4]) : 125 ∉ m3 := by
  obtain ⟨g1, a, b, ws, g2, g3, w, g4, _, hms, _, _, _, _, _, _, h3, _⟩ :=
    FindStringSubmatch_decompose line m0 _ h
  obtain ⟨_, _, e3, _⟩ : m1 = g1 ∧ m2 = g2 ∧ m3 = g3 ∧ m4 = g4 := by simpa using hms
  rw [e3]
  exact not_mem_of_notRBrace g3 h3

/-- A line and the line with another label-list that holds no brace: when the
two label-lists give the same label values and the value holds no `{`, the
two lines give the same result. -/
theorem parseWarp10_labels {F : Type} (env : Env F) (line m0 m1 m2 m3 m4 front new : GoString)
    (w : Nat) (h : FindStringSubmatch line = [m0, m1, m2, m3, m4]) (hv : 123 ∉ m4)
    (hline : line = front ++ (m2 ++ 123 :: (m3 ++ 125 :: w :: m4)))
    (hnl : 123 ∉ new) (hnr : 125 ∉ new)
    (hb : buildLabelValues (env.labels.lookup (canonicalKey m2)) new
      = buildLabelValues (env.labels.lookup (canonicalKey m2)) m3) :
    FindStringSubmatch (front ++ (m2 ++ 123 :: (new ++ 125 :: w :: m4)))
      = [front ++ (m2 ++ 123 :: (new ++ 125 :: w :: m4)), m1, m2, new, m4] ∧
    parseWarp10 env (front ++ (m2 ++ 123 :: (new ++ 125 :: w :: m4))) = parseWarp10 env line := by
  have h2 := (FindStringSubmatch_labels line m0 m1 m2 m3 m4 h hv).2 front new w hline hnl hnr
  exact ⟨h2, parseWarp10_congr_labels env line _ m0 m1 _ m1 m2 m3 new m4 h h2 hb⟩

/-- C9 does not hold as stated: the pair `zone=/` has an undeclared key, and
its `/` keeps the third field of the line from running on; without the pair the
third field runs up to `owner=`, so that the line is one of the class `plain`
and no longer of the class `fetch.bytes`. -/
theorem undeclared_pair_removal_changes_class :
    parseWarp10 sampleEnv (str "1/a/b fetch.bytes\x7bzone=/,owner= plain\x7bv\x7d 5")
      = Except.ok [gauge (newDesc "fetch_bytes" "bytes" ["owner"]) 5 0 [" plain\x7bv"]] ∧
    removeUndeclared [str "owner"] (str "zone=/,owner= plain\x7bv") = str "owner= plain\x7bv" ∧
    parseWarp10 sampleEnv (str "1/a/b fetch.bytes\x7bowner= plain\x7bv\x7d 5")
      = Except.ok [gauge (newDesc "plain" "no label" []) 5 0 []] :=
  ⟨rfl, rfl, rfl⟩

/-- C9, amended: on a line whose label-list and value hold no `{`, taking every
pair with an undeclared key out of the label-list leaves the number, the class
name and the value of the line as they are, and the line gives the same result:
the same sample when one is emitted. -/
theorem undeclared_pairs_ignored {F : Type} (env : Env F)
    (line m0 m1 m2 m3 m4 : GoString) (labelsList : List GoString)
    (h : FindStringSubmatch line = [m0, m1, m2, m3, m4])
    (hL : env.labels.lookup (canonicalKey m2) = some labelsList)
    (hl : 123 ∉ m3) (hv : 123 ∉ m4) :
    (∃ front w, line = front ++ (m2 ++ 123 :: (m3 ++ 125 :: w :: m4))) ∧
    ∀ (front : GoString) (w : Nat), line = front ++ (m2 ++ 123 :: (m3 ++ 125 :: w :: m4)) →
      FindStringSubmatch
          (front ++ (m2 ++ 123 :: (removeUndeclared labelsList m3 ++ 125 :: w :: m4)))
        = [front ++ (m2 ++ 123 :: (removeUndeclared labelsList m3 ++ 125 :: w :: m4)),
           m1, m2, removeUndeclared labelsList m3, m4] ∧
      parseWarp10 env
          (front ++ (m2 ++ 123 :: (removeUndeclared labelsList m3 ++ 125 :: w :: m4)))
        = parseWarp10 env line := by
  refine ⟨(FindStringSubmatch_labels line m0 m1 m2 m3 m4 h hv).1, ?_⟩
  intro front w hline
  have hsub : ∀ item ∈ (Split m3 44).filter (keepsItem labelsList), item ∈ Split m3 44 :=
    fun item hi => (List.mem_filter.mp hi).1
  apply parseWarp10_labels env line m0 m1 m2 m3 m4 front _ w h hv hline
  · exact not_mem_Join_of_Split m3 _ 123 (by decide) hsub hl
  · exact not_mem_Join_of_Split m3 _ 125 (by decide) hsub
      (not_mem_rbrace_of_groups line m0 m1 m2 m3 m4 h)
  · rw [hL]
    exact buildLabelValues_removeUndeclared labelsList m3

/-- The pairs `zone=eu` and `bad=1` are not declared for the metric: the line
with them and the line without them emit the same sample. -/
theorem undeclared_pairs_ignored_witness :
    removeUndeclared [str "producer", str "app"] (str "zone=eu,producer=x,bad=1")
      = str "producer=x" ∧
    parseWarp10 sampleEnv (str "1/a/b myapp.counter{producer=x} 5")
      = parseWarp10 sampleEnv (str "1/a/b myapp.counter{zone=eu,producer=x,bad=1} 5") ∧
    parseWarp10 sampleEnv (str "1/a/b myapp.counter{zone=eu,producer=x,bad=1} 5")
      = Except.ok [gauge (newDesc "myapp_counter" "count" ["producer", "app"]) 5 0 ["x", ""]] :=
  ⟨rfl,
   ((undeclared_pairs_ignored sampleEnv (str "1/a/b myapp.counter{zone=eu,producer=x,bad=1} 5")
      _ (str "1") (str "myapp.counter") (str "zone=eu,producer=x,bad=1") (str "5")
      [str "producer", str "app"] rfl rfl (by decide) (by decide)).2
      (str "1/a/b ") 32 rfl).2,
   rfl⟩

/-- C18 does not hold as stated: the item `/` is not a pair, and its `/` keeps
the third field of the line from running on; without the item the third field
runs up to `a=`, so that the line is one of the class `plain` and no longer of
the class `single`. -/
theorem malformed_item_removal_changes_class :
    parseWarp10 sampleEnv (str "2/x/y single\x7b/,a= plain\x7bq\x7d 7")
      = Except.ok [gauge (newDesc "single" "one label" ["a"]) 7 0 [" plain\x7bq"]] ∧
    Split (str "/,a= plain\x7bq") 44 = [] ++ str "/" :: [str "a= plain\x7bq"] ∧
    asPair (str "/") = none ∧
    Join ([] ++ [str "a= plain\x7bq"]) 44 = str "a= plain\x7bq" ∧
    parseWarp10 sampleEnv (str "2/x/y single\x7ba= plain\x7bq\x7d 7")
      = Except.ok [gauge (newDesc "plain" "no label" []) 7 0 []] :=
  ⟨rfl, rfl, rfl, rfl, rfl⟩

/-- C18, amended: an item of the label-list whose number of `=` is not one is
not a pair, and the loop leaves every label value as it is on such an item,
whatever the item starts with; when the label-list and the value hold no `{`,
the line whose label-list is made of the other items has the same number, class
name and value, and gives the same result. -/
theorem malformed_item_skipped {F : Type} (env : Env F)
    (line m0 m1 m2 m3 m4 : GoString) (before after : List GoString)
    (item : GoString) (h : FindStringSubmatch line = [m0, m1, m2, m3, m4])
    (hs : Split m3 44 = before ++ item :: after) (hc : List.count 61 item ≠ 1) :
    asPair item = none ∧
    (∀ labelsList labelValues : List GoString,
      labelStep labelsList labelValues item = labelValues) ∧
    (123 ∉ m3 → 123 ∉ m4 →
      (∃ front w, line = front ++ (m2 ++ 123 :: (m3 ++ 125 :: w :: m4))) ∧
      ∀ (front : GoString) (w : Nat), line = front ++ (m2 ++ 123 :: (m3 ++ 125 :: w :: m4)) →
        FindStringSubmatch (front ++ (m2 ++ 123 :: (Join (before ++ after) 44 ++ 125 :: w :: m4)))
          = [front ++ (m2 ++ 123 :: (Join (before ++ after) 44 ++ 125 :: w :: m4)),
             m1, m2, Join (before ++ after) 44, m4] ∧
        parseWarp10 env (front ++ (m2 ++ 123 :: (Join (before ++ after) 44 ++ 125 :: w :: m4)))
          = parseWarp10 env line) := by
  have hp : asPair item = none := (asPair_eq_none_iff item).mpr hc
  refine ⟨hp, fun labelsList labelValues => labelStep_of_not_pair _ _ _ hp, ?_⟩
  intro hl hv
  refine ⟨(FindStringSubmatch_labels line m0 m1 m2 m3 m4 h hv).1, ?_⟩
  intro front w hline
  have hsub : ∀ x ∈ before ++ after, x ∈ Split m3 44 := by
    intro x hx
    rw [hs]
    rcases List.mem_append.mp hx with hx | hx
    · exact List.mem_append_left _ hx
    · exact List.mem_append_right _ (List.mem_cons_of_mem _ hx)
  have hfree : ∀ x ∈ before ++ after, 44 ∉ x :=
    fun x hx => not_mem_of_mem_Split 44 m3 x (hsub x hx)
  apply parseWarp10_labels env line m0 m1 m2 m3 m4 front _ w h hv hline
  · exact not_mem_Join_of_Split m3 _ 123 (by decide) hsub hl
  · exact not_mem_Join_of_Split m3 _ 125 (by decide) hsub
      (not_mem_rbrace_of_groups line m0 m1 m2 m3 m4 h)
  · rw [buildLabelValues_Join _ _ hfree]
    cases hL : env.labels.lookup (canonicalKey m2) with
    | none => rfl
    | some labelsList =>
      unfold buildLabelValues
      simp only
      rw [hs, List.foldl_append, List.foldl_append, List.foldl_cons,
        labelStep_of_not_pair _ _ _ hp]

/-- The item `a=b=c` sets nothing although `a` is declared: the value of the
earlier pair `a=1` stays, as on the line without the item; so does the default
on a line whose only item has no `=`. -/
theorem malformed_item_skipped_witness :
    parseWarp10 sampleEnv (str "5/x/y single{a=1,a=b=c} 9")
      = Except.ok [gauge (newDesc "single" "one label" ["a"]) 9 0 ["1"]] ∧
    parseWarp10 sampleEnv (str "5/x/y single{a=1} 9")
      = parseWarp10 sampleEnv (str "5/x/y single{a=1,a=b=c} 9") ∧
    parseWarp10 sampleEnv (str "5/x/y single{} 9")
      = parseWarp10 sampleEnv (str "5/x/y single{a} 9") :=
  ⟨rfl,
   (((malformed_item_skipped sampleEnv (str "5/x/y single{a=1,a=b=c} 9")
      _ (str "5") (str "single") (str "a=1,a=b=c")
      (str "9") [str "a=1"] [] (str "a=b=c") rfl rfl (by decide)).2.2
      (by decide) (by decide)).2 (str "5/x/y ") 32 rfl).2,
   (((malformed_item_skipped sampleEnv (str "5/x/y single{a} 9")
      _ (str "5") (str "single") (str "a")
      (str "9") [] [] (str "a") rfl rfl (by decide)).2.2
      (by decide) (by decide)).2 (str "5/x/y ") 32 rfl).2⟩

/-- C2 does not hold as stated: the label-list `p=/,a= plain{w` holds two pairs
with different keys, yet the line with the two pairs in the other order is one
of the class `plain`: the third field of the line runs up to `a=`, since the
`/` no longer stands before the blank. -/
theorem permuted_pairs_change_class :
    parseWarp10 sampleEnv (str "3/u/v single\x7bp=/,a= plain\x7bw\x7d 8")
      = Except.ok [gauge (newDesc "single" "one label" ["a"]) 8 0 [" plain\x7bw"]] ∧
    Split (str "p=/,a= plain\x7bw") 44 = [str "p=/", str "a= plain\x7bw"] ∧
    DistinctKeys (Split (str "p=/,a= plain\x7bw") 44) ∧
    parseWarp10 sampleEnv (str "3/u/v single\x7ba= plain\x7bw,p=/\x7d 8")
      = Except.ok [gauge (newDesc "plain" "no label" []) 8 0 []] :=
  ⟨rfl, rfl, by decide, rfl⟩

/-- C2, amended: when the declared label names are distinct and no key occurs
twice in the label-list, position `i` of the label values of the sample holds
the decoded value of the pair whose key is the `i`-th declared name (the
percent-decoding of its raw value in which every `+` has first become a space,
and the empty string when a `%` lacks its two hex digits), and the empty string
when no pair has that key; when the label-list and the value hold no `{`, the
line whose label-list holds the same items in another order yields the same
sample; the empty label-list gives the empty string everywhere. -/
theorem labelValues_follow_descriptor {F : Type} (env : Env F)
    (line m0 m1 m2 m3 m4 : GoString) (m : Metric F) (labelsList : List GoString)
    (h : FindStringSubmatch line = [m0, m1, m2, m3, m4])
    (hm : parseWarp10 env line = Except.ok [m])
    (hL : env.labels.lookup (canonicalKey m2) = some labelsList)
    (hnd : labelsList.Nodup) (hd : DistinctKeys (Split m3 44)) :
    (∀ (i : Nat) (key : GoString), labelsList[i]? = some key →
      (∀ item ∈ Split m3 44, ∀ raw, asPair item = some (key, raw) →
        m.labelValues[i]? =
          some (if escapesWellFormed raw = true then percentDecode (ReplaceAll raw 43 32)
                else [])) ∧
      ((∀ item ∈ Split m3 44, NotKey key item) → m.labelValues[i]? = some [])) ∧
    (123 ∉ m3 → 123 ∉ m4 →
      (∃ front w, line = front ++ (m2 ++ 123 :: (m3 ++ 125 :: w :: m4))) ∧
      ∀ (front n3 : GoString) (w : Nat),
        line = front ++ (m2 ++ 123 :: (m3 ++ 125 :: w :: m4)) →
        (Split m3 44).Perm (Split n3 44) →
        FindStringSubmatch (front ++ (m2 ++ 123 :: (n3 ++ 125 :: w :: m4)))
          = [front ++ (m2 ++ 123 :: (n3 ++ 125 :: w :: m4)), m1, m2, n3, m4] ∧
        parseWarp10 env (front ++ (m2 ++ 123 :: (n3 ++ 125 :: w :: m4))) = Except.ok [m]) ∧
    (m3 = [] → m.labelValues = List.replicate labelsList.length []) := by
  obtain ⟨metric, value, hk, hv, _, _, _, hms⟩ :=
    parseWarp10_ok_inv env line m0 m1 m2 m3 m4 [m] h hm (by simp)
  have hlv : m.labelValues = (Split m3 44).foldl (labelStep labelsList)
      (List.replicate labelsList.length []) := by
    have := List.cons.inj hms
    rw [this.1, hL]
    rfl
  refine ⟨?_, ?_, ?_⟩
  · intro i key hi
    have hlt : i < labelsList.length := by
      by_contra hge
      rw [List.getElem?_eq_none (Nat.le_of_not_lt hge)] at hi
      cases hi
    have hidx := labelIndexOf_of_nodup labelsList i key hnd hi
    constructor
    · intro item hitem raw hp
      obtain ⟨before, after, hsplit⟩ := List.append_of_mem hitem
      rw [hlv, hsplit, ← storedValue_eq]
      apply foldl_labelStep_last labelsList _ before after item key raw i hp hidx
      · simpa using hlt
      · rw [hsplit] at hd
        exact DistinctKeys.notKey_after before after item (key, raw) hd hp
    · intro hnone
      rw [hlv, foldl_labelStep_getElem?_of_ne]
      · simp [List.getElem?_replicate, hlt]
      · intro item hitem key2 raw2 hp2 hi2
        have h1 := labelIndexOf_getElem? _ _ _ hi2
        rw [hi] at h1
        have hk2 : key = key2 := Option.some.inj h1
        exact hnone item hitem (by rw [hp2, hk2]; rfl)
  · intro hl hv4
    refine ⟨(FindStringSubmatch_labels line m0 m1 m2 m3 m4 h hv4).1, ?_⟩
    intro front n3 w hline hperm
    have hsub : ∀ item ∈ Split n3 44, item ∈ Split m3 44 :=
      fun item hi => hperm.symm.subset hi
    have hn3 : n3 = Join (Split n3 44) 44 := (Join_Split 44 n3).symm
    have hnl : 123 ∉ n3 := by
      rw [hn3]
      exact not_mem_Join_of_Split m3 _ 123 (by decide) hsub hl
    have hnr : 125 ∉ n3 := by
      rw [hn3]
      exact not_mem_Join_of_Split m3 _ 125 (by decide) hsub
        (not_mem_rbrace_of_groups line m0 m1 m2 m3 m4 h)
    have hres := parseWarp10_labels env line m0 m1 m2 m3 m4 front n3 w h hv4 hline hnl hnr
      (by
        rw [hL]
        unfold buildLabelValues
        simp only
        rw [foldl_labelStep_perm labelsList _ _ _ hperm hd])
    exact ⟨hres.1, hres.2.trans hm⟩
  · intro h3
    rw [hlv, h3]
    have : labelStep labelsList (List.replicate labelsList.length []) []
        = List.replicate labelsList.length [] :=
      labelStep_of_not_pair _ _ _ rfl
    simp [Split, this]

/-- The descriptor `[a, b, c]` with the label-list `b=%32,a=foo%2Fbar` gives
`["foo/bar", "2", ""]`, and so does the label-list with the two pairs in the
other order; `b=2,a=1` gives `["1", "2", ""]` and the empty label-list gives
`["", "", ""]`. -/
theorem labelValues_follow_descriptor_witness :
    parseWarp10 sampleEnv (str "7/x/y abc{b=%32,a=foo%2Fbar} 3")
      = Except.ok
          [gauge (newDesc "abc" "three labels" ["a", "b", "c"]) 3 0 ["foo/bar", "2", ""]] ∧
    (gauge (newDesc "abc" "three labels" ["a", "b", "c"]) 3 0 ["foo/bar", "2", ""]).labelValues[0]?
      = some (if escapesWellFormed (str "foo%2Fbar") = true then
          percentDecode (ReplaceAll (str "foo%2Fbar") 43 32) else []) ∧
    (gauge (newDesc "abc" "three labels" ["a", "b", "c"]) 3 0 ["foo/bar", "2", ""]).labelValues[2]?
      = some [] ∧
    parseWarp10 sampleEnv (str "7/x/y abc{a=foo%2Fbar,b=%32} 3")
      = Except.ok
          [gauge (newDesc "abc" "three labels" ["a", "b", "c"]) 3 0 ["foo/bar", "2", ""]] ∧
    parseWarp10 sampleEnv (str "7/x/y abc{b=2,a=1} 3")
      = Except.ok [gauge (newDesc "abc" "three labels" ["a", "b", "c"]) 3 0 ["1", "2", ""]] ∧
    parseWarp10 sampleEnv (str "7/x/y abc{} 3")
      = Except.ok [gauge (newDesc "abc" "three labels" ["a", "b", "c"]) 3 0 ["", "", ""]] ∧
    (gauge (newDesc "abc" "three labels" ["a", "b", "c"]) 3 0 ["", "", ""]).labelValues
      = List.replicate 3 [] :=
  ⟨rfl,
   ((labelValues_follow_descriptor sampleEnv (str "7/x/y abc{b=%32,a=foo%2Fbar} 3") _ (str "7")
      (str "abc") (str "b=%32,a=foo%2Fbar") (str "3") _ [str "a", str "b", str "c"] rfl rfl rfl
      (by decide) (by decide)).1 0 (str "a") rfl).1 (str "a=foo%2Fbar") (by decide)
      (str "foo%2Fbar") rfl,
   ((labelValues_follow_descriptor sampleEnv (str "7/x/y abc{b=%32,a=foo%2Fbar} 3") _ (str "7")
      (str "abc") (str "b=%32,a=foo%2Fbar") (str "3") _ [str "a", str "b", str "c"] rfl rfl rfl
      (by decide) (by decide)).1 2 (str "c") rfl).2 (by decide),
   ((((labelValues_follow_descriptor sampleEnv (str "7/x/y abc{b=%32,a=foo%2Fbar} 3") _ (str "7")
      (str "abc") (str "b=%32,a=foo%2Fbar") (str "3") _ [str "a", str "b", str "c"] rfl rfl rfl
      (by decide) (by decide)).2.1 (by decide) (by decide)).2
      (str "7/x/y ") (str "a=foo%2Fbar,b=%32") 32 rfl
      (by
        have e1 : Split (str "b=%32,a=foo%2Fbar") 44 = [str "b=%32", str "a=foo%2Fbar"] := rfl
        have e2 : Split (str "a=foo%2Fbar,b=%32") 44 = [str "a=foo%2Fbar", str "b=%32"] := rfl
        rw [e1, e2]
        exact List.Perm.swap _ _ _))).2,
   rfl,
   rfl,
   (labelValues_follow_descriptor sampleEnv (str "7/x/y abc{} 3") _ (str "7") (str "abc")
      (str "") (str "3") _ [str "a", str "b", str "c"] rfl rfl rfl
      (by decide) (by decide)).2.2 rfl⟩

/-! ## The tables of the generated file -/

theorem lookup_filter_ne {β : Type} (key k : GoString) (hk : k ≠ key) :
    ∀ (m : List (GoString × β)),
      (m.filter fun entry => entry.1 != key).lookup k = m.lookup k := by
  intro m
  induction m with
  | nil => rfl
  | cons entry rest ih =>
    obtain ⟨k1, v1⟩ := entry
    by_cases h1 : k1 = key
    · subst h1
      have hne : (k == k1) = false := by simpa using hk
      rw [List.filter_cons_of_neg (by simp), List.lookup_cons, hne, ih]
    · rw [List.filter_cons_of_pos (by simpa using h1), List.lookup_cons, List.lookup_cons, ih]

theorem lookup_mapSet_self {β : Type} (key : GoString) (v : β) (m : List (GoString × β)) :
    (mapSet key v m).lookup key = some v := by
  unfold mapSet
  rw [List.lookup_cons]
  simp

theorem lookup_mapSet_ne {β : Type} (key k : GoString) (v : β) (m : List (GoString × β))
    (hk : k ≠ key) : (mapSet key v m).lookup k = m.lookup k := by
  unfold mapSet
  have hne : (k == key) = false := by simpa using hk
  rw [List.lookup_cons, hne]
  exact lookup_filter_ne key k hk m

theorem expect_append (lit rest : GoString) : expect lit (lit ++ rest) = some rest := by
  induction lit with
  | nil => cases rest <;> rfl
  | cons c lit ih => simp [expect, ih]

theorem readString_append (body rest : GoString) (h : plainText body = true) :
    readString (body ++ 34 :: rest) = some (body, rest) := by
  induction body with
  | nil => simp [readString]
  | cons c body ih =>
    have hc : plainByte c = true ∧ plainText body = true := by
      simpa [plainText] using h
    have hne : c ≠ 34 := by
      intro e
      rw [e] at hc
      exact absurd hc.1 (by decide)
    simp [readString, hne, hc.1, ih hc.2]

theorem readQuoted_append (lit body rest : GoString) (h : plainText body = true) :
    readQuoted lit (lit ++ (body ++ 34 :: rest)) = some (body, rest) := by
  simp only [readQuoted, expect_append, readString_append body rest h]

theorem length_JoinStrings (sep : GoString) (hsep : sep ≠ []) :
    ∀ names : List GoString, names.length ≤ (JoinStrings names sep).length + 1 := by
  intro names
  induction names with
  | nil => simp
  | cons elem rest ih =>
    cases rest with
    | nil => simp [JoinStrings]
    | cons next elems =>
      have : 0 < sep.length := List.length_pos.mpr hsep
      simp only [JoinStrings, List.length_append, List.length_cons] at ih ⊢
      omega

theorem readStrings_JoinStrings (rest : GoString) :
    ∀ names : List GoString, names ≠ [] → (∀ n ∈ names, plainText n = true) →
      ∀ fuel, names.length ≤ fuel →
        readStrings fuel (JoinStrings names (str "\",\"") ++ 34 :: 125 :: rest)
          = some (names, rest) := by
  intro names
  induction names with
  | nil => intro h; exact absurd rfl h
  | cons elem more ih =>
    intro _ hplain fuel hfuel
    cases fuel with
    | zero => simp at hfuel
    | succ fuel =>
      cases more with
      | nil =>
        simp only [JoinStrings, readStrings]
        rw [readString_append elem _ (hplain elem (by simp))]
        simp
      | cons next elems =>
        have hsep : str "\",\"" = [34, 44, 34] := rfl
        have htext : JoinStrings (elem :: next :: elems) (str "\",\"") ++ 34 :: 125 :: rest
            = elem ++ 34 :: 44 :: ([34] ++
                (JoinStrings (next :: elems) (str "\",\"") ++ 34 :: 125 :: rest)) := by
          rw [JoinStrings, hsep]
          simp
        rw [htext]
        simp only [readStrings]
        rw [readString_append elem _ (hplain elem (by simp))]
        simp only [expect_append]
        rw [ih (by simp) (fun n hn => hplain n (List.mem_cons_of_mem _ hn)) fuel
          (by simpa using hfuel)]
        simp

theorem readStrings_joined (names : List GoString) (rest : GoString) (hne : names ≠ [])
    (hplain : ∀ n ∈ names, plainText n = true) :
    readStrings (JoinStrings names (str "\",\"") ++ 34 :: 125 :: rest).length
        (JoinStrings names (str "\",\"") ++ 34 :: 125 :: rest)
      = some (names, rest) := by
  apply readStrings_JoinStrings rest names hne hplain
  have := length_JoinStrings (str "\",\"") (by decide) names
  simp only [List.length_append, List.length_cons]
  omega

theorem readLabelNames_make (rest : GoString) :
    readLabelNames (str "\t\tmake([]string, 0),\n" ++ rest) = some ([], rest) := by
  simp only [readLabelNames, expect_append]

theorem readLabelNames_literal (names : List GoString) (rest : GoString) (hne : names ≠ [])
    (hplain : ∀ n ∈ names, plainText n = true) :
    readLabelNames (str "\t\t[]string\x7b\"" ++ (JoinStrings names (str "\",\"")
        ++ 34 :: 125 :: (str ",\n" ++ rest)))
      = some (names, rest) := by
  have hno : ∀ s : GoString, expect (str "\t\tmake([]string, 0),\n")
      (str "\t\t[]string\x7b\"" ++ s) = none := fun s => rfl
  simp only [readLabelNames, expect_append, hno, readStrings_joined names _ hne hplain]

/-- The reader finds the assignment to `metrics` in the text that states it
with literals of bytes that stand for themselves. -/
theorem readNewDesc_text (key name help labelsText : GoString) (names : List GoString)
    (rest : GoString) (hk : plainText key = true) (hn : plainText name = true)
    (hh : plainText help = true)
    (hlab : ∀ s, readLabelNames (labelsText ++ s) = some (names, s)) :
    readNewDesc (str "\tmetrics[\"" ++ (key ++ 34 ::
        (str "] = prometheus.NewDesc(\n\t\tprometheus.BuildFQName(namespace, \"\", \"" ++
          (name ++ 34 :: (str "),\n\t\t\"" ++ (help ++ 34 :: (str ",\n" ++ (labelsText ++
            (str "\t\tprometheus.Labels\x7b\x7d,\n\t)\n" ++ rest)))))))))
      = some (Stmt.setMetric key name help names, rest) := by
  simp only [readNewDesc, readQuoted_append _ _ _ hk, readQuoted_append _ _ _ hn,
    readQuoted_append _ _ _ hh, expect_append, hlab]

/-- The reader finds the assignment to `labels` in the text that states it. -/
theorem readLabels_text (key : GoString) (names : List GoString) (rest : GoString)
    (hk : plainText key = true) (hne : names ≠ []) (hplain : ∀ n ∈ names, plainText n = true) :
    readLabels (str "\tlabels[\"" ++ (key ++ 34 :: (str "] = []string\x7b\"" ++
        (JoinStrings names (str "\",\"") ++ 34 :: 125 :: (str "\n\n" ++ rest)))))
      = some (Stmt.setLabels key names, rest) := by
  simp only [readLabels, readQuoted_append _ _ _ hk, expect_append,
    readStrings_joined names _ hne hplain]

/-- The text `main` writes for a constant with an entry in the table, piece by
piece. -/
theorem emit_eq_of_some (table : List (GoString × GoString)) (c : Constant)
    (labels rest : GoString) (hl : table.lookup c.ident = some labels) :
    emit table c ++ rest =
      str "\tmetrics[\"" ++ (ReplaceAll c.value 46 95 ++ 34 ::
        (str "] = prometheus.NewDesc(\n\t\tprometheus.BuildFQName(namespace, \"\", \"" ++
          (ReplaceAll c.value 46 95 ++ 34 :: (str "),\n\t\t\"" ++ (c.description ++ 34 ::
            (str ",\n" ++ ((str "\t\t[]string\x7b\"" ++ (JoinStrings (Split labels 44)
                (str "\",\"") ++ 34 :: 125 :: str ",\n")) ++
              (str "\t\tprometheus.Labels\x7b\x7d,\n\t)\n" ++
                (str "\tlabels[\"" ++ (ReplaceAll c.value 46 95 ++ 34 ::
                  (str "] = []string\x7b\"" ++ (JoinStrings (Split labels 44) (str "\",\"")
                    ++ 34 :: 125 :: (str "\n\n" ++ rest))))))))))))) := by
  unfold emit
  rw [hl]
  simp only [List.append_assoc]
  rfl

/-- The text `main` writes for a constant without an entry in the table, piece
by piece. -/
theorem emit_eq_of_none (table : List (GoString × GoString)) (c : Constant)
    (rest : GoString) (hl : table.lookup c.ident = none) :
    emit table c ++ rest =
      str "\tmetrics[\"" ++ (ReplaceAll c.value 46 95 ++ 34 ::
        (str "] = prometheus.NewDesc(\n\t\tprometheus.BuildFQName(namespace, \"\", \"" ++
          (ReplaceAll c.value 46 95 ++ 34 :: (str "),\n\t\t\"" ++ (c.description ++ 34 ::
            (str ",\n" ++ (str "\t\tmake([]string, 0),\n" ++
              (str "\t\tprometheus.Labels\x7b\x7d,\n\t)\n" ++ (str "\n" ++ rest))))))))) := by
  unfold emit
  rw [hl]
  simp only [List.append_assoc]
  rfl

theorem emit_eq_cons (table : List (GoString × GoString)) (c : Constant) (rest : GoString) :
    ∃ t, emit table c ++ rest = 9 :: t := by
  cases hl : table.lookup c.ident with
  | none => exact ⟨_, (emit_eq_of_none table c rest hl).trans rfl⟩
  | some labels => exact ⟨_, (emit_eq_of_some table c labels rest hl).trans rfl⟩

theorem plainText_ReplaceAll (s : GoString) (h : plainText s = true) :
    plainText (ReplaceAll s 46 95) = true := by
  unfold plainText ReplaceAll at *
  rw [List.all_eq_true] at h ⊢
  intro x hx
  obtain ⟨y, hy, rfl⟩ := List.mem_map.mp hx
  by_cases e : y = 46
  · simp [e, plainByte]
  · simpa [e] using h y hy

theorem plainText_of_mem_Split (s piece : GoString) (h : plainText s = true)
    (hp : piece ∈ Split s 44) : plainText piece = true := by
  unfold plainText at *
  rw [List.all_eq_true] at h ⊢
  intro x hx
  exact h x (mem_of_mem_Split 44 s piece x hp hx)

/-- Every entry of `labelsByMetric` is made of bytes that stand for themselves
in a string literal. -/
theorem labelsByMetric_plain (ident labels : GoString)
    (h : labelsByMetric.lookup ident = some labels) : plainText labels = true := by
  have hall : labelsByMetric.all (fun entry => plainText entry.2) = true := by decide
  have hmem := mem_of_lookup_eq_some labelsByMetric ident labels h
  exact List.all_eq_true.mp hall (ident, labels) hmem

/-- The reader finds, in the text `main` writes for a constant whose value and
description stand for themselves between quotes, the assignment to `metrics`
and, for a constant with an entry in the table, the assignment to `labels`. -/
theorem readBlock_emit (table : List (GoString × GoString)) (c : Constant) (rest : GoString)
    (hv : plainText c.value = true) (hd : plainText c.description = true)
    (ht : ∀ labels, table.lookup c.ident = some labels → plainText labels = true) :
    readBlock (emit table c ++ rest) = some (statementsOf table c, rest) := by
  have hk := plainText_ReplaceAll c.value hv
  cases hl : table.lookup c.ident with
  | none =>
    rw [emit_eq_of_none table c rest hl]
    unfold readBlock statementsOf
    rw [readNewDesc_text _ _ _ (str "\t\tmake([]string, 0),\n") [] _ hk hk hd
      (fun s => readLabelNames_make s)]
    simp only [expect_append, hl]
  | some labels =>
    rw [emit_eq_of_some table c labels rest hl]
    have hne : Split labels 44 ≠ [] := Split_ne_nil labels 44
    have hplain : ∀ n ∈ Split labels 44, plainText n = true :=
      fun n hn => plainText_of_mem_Split labels n (ht labels hl) hn
    have hlab : ∀ s, readLabelNames ((str "\t\t[]string\x7b\"" ++ (JoinStrings (Split labels 44)
        (str "\",\"") ++ 34 :: 125 :: str ",\n")) ++ s) = some (Split labels 44, s) := by
      intro s
      have e : (str "\t\t[]string\x7b\"" ++ (JoinStrings (Split labels 44)
            (str "\",\"") ++ 34 :: 125 :: str ",\n")) ++ s
          = str "\t\t[]string\x7b\"" ++ (JoinStrings (Split labels 44) (str "\",\"")
              ++ 34 :: 125 :: (str ",\n" ++ s)) := by
        simp only [List.append_assoc, List.cons_append]
      rw [e]
      exact readLabelNames_literal _ s hne hplain
    have hno : ∀ s : GoString, expect (str "\n") (str "\tlabels[\"" ++ s) = none :=
      fun s => rfl
    unfold readBlock statementsOf
    rw [readNewDesc_text _ _ _ _ (Split labels 44) _ hk hk hd hlab]
    simp only [hno, readLabels_text _ _ _ hk hne hplain, hl]

theorem readStmts_nil (fuel : Nat) : readStmts fuel [] = some [] := by
  cases fuel <;> rfl

/-- The reader finds the statements of every constant, in the order of the
constants. -/
theorem readStmts_flatMap (table : List (GoString × GoString))
    (ht : ∀ ident labels, table.lookup ident = some labels → plainText labels = true) :
    ∀ (constants : List Constant),
      (∀ c ∈ constants, plainText c.value = true ∧ plainText c.description = true) →
      ∀ fuel, constants.length ≤ fuel →
        readStmts fuel (constants.flatMap (emit table))
          = some (constants.flatMap (statementsOf table)) := by
  intro constants
  induction constants with
  | nil => intro _ fuel _; exact readStmts_nil fuel
  | cons c rest ih =>
    intro hplain fuel hfuel
    cases fuel with
    | zero => simp at hfuel
    | succ fuel =>
      obtain ⟨t, htext⟩ := emit_eq_cons table c (rest.flatMap (emit table))
      rw [List.flatMap_cons, List.flatMap_cons, htext, readStmts, ← htext,
        readBlock_emit table c _ (hplain c (by simp)).1 (hplain c (by simp)).2 (ht c.ident)]
      simp only
      rw [ih (fun c2 hc2 => hplain c2 (List.mem_cons_of_mem _ hc2)) fuel (by simpa using hfuel)]

theorem length_flatMap_emit (table : List (GoString × GoString)) :
    ∀ constants : List Constant, constants.length ≤ (constants.flatMap (emit table)).length := by
  intro constants
  induction constants with
  | nil => simp
  | cons c rest ih =>
    obtain ⟨t, htext⟩ := emit_eq_cons table c []
    have hpos : 1 ≤ (emit table c).length := by
      have h3 := congrArg List.length htext
      simp only [List.append_nil, List.length_cons] at h3
      omega
    rw [List.flatMap_cons, List.length_append, List.length_cons]
    omega

/-- The statements of the generated file for constants whose values and
descriptions stand for themselves between quotes. -/
theorem readGenerated_generate (constants : List Constant)
    (hplain : ∀ c ∈ constants, plainText c.value = true ∧ plainText c.description = true) :
    readGenerated (generate constants)
      = some (constants.flatMap (statementsOf labelsByMetric)) := by
  unfold readGenerated generate
  exact readStmts_flatMap labelsByMetric labelsByMetric_plain constants hplain _
    (length_flatMap_emit labelsByMetric constants)

theorem statementsOf_foldl (ns : GoString) (invalid : GoString → List GoString → Bool)
    (table : List (GoString × GoString)) (c : Constant) (t : Tables) :
    (statementsOf table c).foldl (execStmt ns invalid) t =
      { metrics := mapSet (canonicalKey c.value)
          (NewDesc invalid (BuildFQName ns (canonicalKey c.value)) c.description
            (labelNamesOf table c)) t.metrics,
        labels :=
          match table.lookup c.ident with
          | some labels => mapSet (canonicalKey c.value) (Split labels 44) t.labels
          | none => t.labels } := by
  unfold statementsOf labelNamesOf canonicalKey
  cases h : table.lookup c.ident with
  | none => rfl
  | some labels => rfl

/-- One constant with a new key keeps the tables consistent. -/
theorem Consistent_statementsOf (ns : GoString) (invalid : GoString → List GoString → Bool)
    (table : List (GoString × GoString)) (c : Constant) (t : Tables) (ht : Consistent t)
    (hnew : t.metrics.lookup (canonicalKey c.value) = none) :
    Consistent ((statementsOf table c).foldl (execStmt ns invalid) t) := by
  rw [statementsOf_foldl]
  have hlab := ht.2 _ hnew
  constructor
  · intro key desc hd
    by_cases hk : key = canonicalKey c.value
    · subst hk
      rw [lookup_mapSet_self] at hd
      rw [← Option.some.inj hd]
      unfold labelNamesOf NewDesc
      cases h : table.lookup c.ident with
      | none => simp [hlab]
      | some labels => simp [lookup_mapSet_self]
    · rw [lookup_mapSet_ne _ _ _ _ hk] at hd
      have := ht.1 key desc hd
      cases h : table.lookup c.ident with
      | none => simpa using this
      | some labels =>
        simp only
        rw [lookup_mapSet_ne _ _ _ _ hk]
        exact this
  · intro key hnone
    by_cases hk : key = canonicalKey c.value
    · subst hk
      rw [lookup_mapSet_self] at hnone
      cases hnone
    · rw [lookup_mapSet_ne _ _ _ _ hk] at hnone
      have := ht.2 key hnone
      cases h : table.lookup c.ident with
      | none => simpa using this
      | some labels =>
        simp only
        rw [lookup_mapSet_ne _ _ _ _ hk]
        exact this

theorem metrics_lookup_statementsOf_ne (ns : GoString)
    (invalid : GoString → List GoString → Bool)
    (table : List (GoString × GoString)) (c : Constant) (t : Tables) (key : GoString)
    (hk : key ≠ canonicalKey c.value) :
    ((statementsOf table c).foldl (execStmt ns invalid) t).metrics.lookup key
      = t.metrics.lookup key := by
  rw [statementsOf_foldl]
  exact lookup_mapSet_ne _ _ _ _ hk

/-- Constants with keys that are new and differ from one another keep the
tables consistent. -/
theorem Consistent_flatMap (ns : GoString) (invalid : GoString → List GoString → Bool)
    (table : List (GoString × GoString)) :
    ∀ (constants : List Constant) (t : Tables), Consistent t →
      (constants.map fun c => canonicalKey c.value).Nodup →
      (∀ c ∈ constants, t.metrics.lookup (canonicalKey c.value) = none) →
      Consistent ((constants.flatMap (statementsOf table)).foldl (execStmt ns invalid) t) := by
  intro constants
  induction constants with
  | nil => intro t ht _ _; simpa using ht
  | cons c rest ih =>
    intro t ht hnd hnew
    rw [List.flatMap_cons, List.foldl_append]
    have hnd2 := List.nodup_cons.mp (by rw [List.map_cons] at hnd; exact hnd)
    apply ih _ (Consistent_statementsOf ns invalid table c t ht
      (hnew c (List.mem_cons_self c rest))) hnd2.2
    intro c2 hc2
    have hne : canonicalKey c2.value ≠ canonicalKey c.value := by
      intro e
      apply hnd2.1
      rw [← e]
      exact List.mem_map.mpr ⟨c2, hc2, rfl⟩
    rw [metrics_lookup_statementsOf_ne ns invalid table c t _ hne]
    exact hnew c2 (List.mem_cons_of_mem c hc2)

/-- C20 does not hold as stated: two constants whose values give the same key,
the first with an entry in `labelsByMetric` and the second without, make a
generated file that leaves a descriptor without label names next to an entry of
`labels` with one name, and a line of that metric panics on the number of label
values. -/
theorem colliding_keys_break_consistency :
    readGenerated (generate collidingConstants)
      = some
          [Stmt.setMetric (str "warp_script_run_count") (str "warp_script_run_count")
             (str "Number of WarpScript runs") [str "path"],
           Stmt.setLabels (str "warp_script_run_count") [str "path"],
           Stmt.setMetric (str "warp_script_run_count") (str "warp_script_run_count")
             (str "Number of runs") []] ∧
    (readGenerated (generate collidingConstants)).map
        (fun stmts => (initTables (str "warp10") (fun _ _ => false) stmts).metrics.lookup
          (str "warp_script_run_count"))
      = some (some (NewDesc (fun _ _ => false) (str "warp10_warp_script_run_count")
          (str "Number of runs") [])) ∧
    (readGenerated (generate collidingConstants)).map
        (fun stmts => (initTables (str "warp10") (fun _ _ => false) stmts).labels.lookup
          (str "warp_script_run_count"))
      = some (some [str "path"]) ∧
    (readGenerated (generate collidingConstants)).map
        (fun stmts => parseWarp10
          ((initTables (str "warp10") (fun _ _ => false) stmts).toEnv readDecimal)
          (str "1/a/b warp.script.run.count{path=x} 1"))
      = some (Except.error MetricError.inconsistentCardinality) := by
  have h := readGenerated_generate collidingConstants (by decide)
  rw [h]
  exact ⟨rfl, rfl, rfl, rfl⟩

/-- C20, amended: for every constant whose value and description are made of
printable ASCII characters other than the double quote and the backslash, the
generated file assigns to `metrics` under the key made of the value with `_`
for `.`, with that key as the name and the description as the help; it assigns
to `labels` exactly when the identifier is in `labelsByMetric`, under the same
key, and then the descriptor and the entry get the same names, the comma-split
of the table entry, whereas without an entry the descriptor gets no names. When,
besides, no two constants give the same key, the tables of the generated file
are consistent and the label values `parseWarp10` builds are as many as the
descriptor declares. -/
theorem generated_tables_consistent (ns : GoString)
    (invalid : GoString → List GoString → Bool) (constants : List Constant)
    (hplain : ∀ c ∈ constants, plainText c.value = true ∧ plainText c.description = true) :
    (∀ c ∈ constants,
      (∀ labels, labelsByMetric.lookup c.ident = some labels →
        readGenerated (emit labelsByMetric c) =
          some [Stmt.setMetric (canonicalKey c.value) (canonicalKey c.value) c.description
                  (Split labels 44),
                Stmt.setLabels (canonicalKey c.value) (Split labels 44)]) ∧
      (labelsByMetric.lookup c.ident = none →
        readGenerated (emit labelsByMetric c) =
          some [Stmt.setMetric (canonicalKey c.value) (canonicalKey c.value) c.description
                  []])) ∧
    ((constants.map fun c => canonicalKey c.value).Nodup →
      ∃ stmts, readGenerated (generate constants) = some stmts ∧
        Consistent (initTables ns invalid stmts) ∧
        ∀ key desc labelText,
          (initTables ns invalid stmts).metrics.lookup key = some desc →
          (buildLabelValues ((initTables ns invalid stmts).labels.lookup key) labelText).length
            = desc.variableLabels.length) := by
  constructor
  · intro c hc
    have hone : readGenerated (emit labelsByMetric c) = some (statementsOf labelsByMetric c) := by
      have := readGenerated_generate [c] (by
        intro c2 hc2
        rw [List.mem_singleton.mp hc2]
        exact hplain c hc)
      simpa [generate] using this
    rw [hone]
    unfold statementsOf canonicalKey
    constructor
    · intro labels hl
      rw [hl]
    · intro hl
      rw [hl]
  · intro hnd
    have hc : Consistent (initTables ns invalid
        (constants.flatMap (statementsOf labelsByMetric))) := by
      unfold initTables
      apply Consistent_flatMap ns invalid labelsByMetric constants _ _ hnd
      · intro c _
        rfl
      · exact ⟨fun key desc h => by simp at h, fun key _ => rfl⟩
    refine ⟨_, readGenerated_generate constants hplain, hc, ?_⟩
    intro key desc labelText hk
    rw [length_buildLabelValues, hc.1 key desc hk]

/-- A constant with an entry in `labelsByMetric` and a constant without one,
with different keys: the generated file gives the first the names `producer`
and `app` in both tables and the second an empty label list in `metrics` only,
and its tables are consistent. -/
theorem generated_tables_consistent_witness :
    readGenerated (emit labelsByMetric
        { ident := str "SENSISION_CLASS_CONTINUUM_INGRESS_UPDATE_GZIPPED",
          value := str "warp.ingress.update.gzipped",
          description := str "Number of gzipped update requests" })
      = some
          [Stmt.setMetric (str "warp_ingress_update_gzipped") (str "warp_ingress_update_gzipped")
             (str "Number of gzipped update requests") [str "producer", str "app"],
           Stmt.setLabels (str "warp_ingress_update_gzipped") [str "producer", str "app"]] ∧
    readGenerated (emit labelsByMetric
        { ident := str "SENSISION_CLASS_CONTINUUM_INGRESS_REQUESTS",
          value := str "warp.ingress.requests", description := str "Number of requests" })
      = some
          [Stmt.setMetric (str "warp_ingress_requests") (str "warp_ingress_requests")
             (str "Number of requests") []] ∧
    ∃ stmts,
      readGenerated (generate
        [{ ident := str "SENSISION_CLASS_CONTINUUM_INGRESS_UPDATE_GZIPPED",
           value := str "warp.ingress.update.gzipped",
           description := str "Number of gzipped update requests" },
         { ident := str "SENSISION_CLASS_CONTINUUM_INGRESS_REQUESTS",
           value := str "warp.ingress.requests", description := str "Number of requests" }])
        = some stmts ∧
      Consistent (initTables (str "warp10") (fun _ _ => false) stmts) :=
  ⟨((generated_tables_consistent (str "warp10") (fun _ _ => false)
      [{ ident := str "SENSISION_CLASS_CONTINUUM_INGRESS_UPDATE_GZIPPED",
         value := str "warp.ingress.update.gzipped",
         description := str "Number of gzipped update requests" },
       { ident := str "SENSISION_CLASS_CONTINUUM_INGRESS_REQUESTS",
         value := str "warp.ingress.requests", description := str "Number of requests" }]
      (by decide)).1 _ (List.mem_cons_self _ _)).1 (str "producer,app") rfl,
   ((generated_tables_consistent (str "warp10") (fun _ _ => false)
      [{ ident := str "SENSISION_CLASS_CONTINUUM_INGRESS_UPDATE_GZIPPED",
         value := str "warp.ingress.update.gzipped",
         description := str "Number of gzipped update requests" },
       { ident := str "SENSISION_CLASS_CONTINUUM_INGRESS_REQUESTS",
         value := str "warp.ingress.requests", description := str "Number of requests" }]
      (by decide)).1 _ (List.mem_cons_of_mem _ (List.mem_cons_self _ _))).2 rfl,
   (((generated_tables_consistent (str "warp10") (fun _ _ => false)
      [{ ident := str "SENSISION_CLASS_CONTINUUM_INGRESS_UPDATE_GZIPPED",
         value := str "warp.ingress.update.gzipped",
         description := str "Number of gzipped update requests" },
       { ident := str "SENSISION_CLASS_CONTINUUM_INGRESS_REQUESTS",
         value := str "warp.ingress.requests", description := str "Number of requests" }]
      (by decide)).2 (by decide)).imp fun _ h => ⟨h.1, h.2.1⟩)⟩

end Collector
